import Mathlib

/-!
# Session tokens of go-service: a shallow embedding

The development follows `internal/auth/jwt.go` (the session authority),
`internal/database/redis.go` (the cache wrapper) and the two libraries they are
linked against: `github.com/golang-jwt/jwt/v5` and `github.com/redis/go-redis/v9`;
then `internal/middleware/auth.go` with `internal/response/response.go`, and the
statements built by `List` in `internal/repository/movie_repository.go`.

* An instant (`time.Time`) is an integer, the nanoseconds since the Unix epoch;
  a span (`time.Duration`) is an integer, in nanoseconds; an `int64` identity is
  an integer.
* A Go result `(v, err)` is a pair whose second component is `none` for `nil`.
* The clock reading `now` and the fate of the network round trip `net` are
  explicit arguments of every operation; the contents of the cache are passed
  in and handed back.
* A handler is the list of what it does, in order: calls, responses written.
* The byte-level encodings of the jwt package (JSON, base64url) and the MAC are
  the fields of `jwt.Lib`; what the proofs need of them is `jwt.Lib.Lawful`.
  `Toy.lib` is an executable instance used to run the model on concrete inputs.
-/

namespace GoService

/-! ## package time -/

/-- Go constant `time.Millisecond`. -/
def Millisecond : Int := 1000000

/-- Go constant `time.Second`. -/
def Second : Int := 1000000000

/-- Go constant `time.Hour`. -/
def Hour : Int := 3600 * Second

/-- Go `Time.Truncate`: round `t` down to a multiple of `d`; `t` itself when `d <= 0`. -/
def Truncate (t : Int) (d : Int) : Int :=
  if d ≤ 0 then t else t - t % d

/-- Go `strconv.FormatInt(i, 10)`, also what the verb `%d` prints. -/
def FormatInt (i : Int) : String := toString i

/-! ## package jwt (github.com/golang-jwt/jwt/v5) -/

namespace jwt

/-- Sentinel errors of the package; a returned error is the list of sentinels
it wraps, so `errors.Is err s` is membership of `s`. -/
inductive Err
  | ErrTokenMalformed
  | ErrTokenUnverifiable
  | ErrTokenSignatureInvalid
  | ErrTokenInvalidClaims
  | ErrTokenExpired
  | ErrTokenNotValidYet
  | ErrInvalidKeyType
  deriving DecidableEq, Repr

/-- Go `errors.Is` on an error of the package. -/
def Is (err : List Err) (target : Err) : Bool := decide (target ∈ err)

/-- Hash functions an HMAC method is built on. -/
inductive Hash
  | SHA256
  | SHA384
  | SHA512
  deriving DecidableEq, Repr

/-- Registered signing methods: the `*SigningMethodHMAC` values, and every other
registered method (RSA, RSA-PSS, ECDSA, EdDSA, none) by its name. -/
inductive SigningMethod
  | HMAC (h : Hash)
  | Other (alg : String)
  deriving DecidableEq, Repr

/-- Method `Alg()` of a signing method. -/
def SigningMethod.Alg : SigningMethod → String
  | .HMAC .SHA256 => "HS256"
  | .HMAC .SHA384 => "HS384"
  | .HMAC .SHA512 => "HS512"
  | .Other a => a

/-- Go variable `jwt.SigningMethodHS256`. -/
def SigningMethodHS256 : SigningMethod := .HMAC .SHA256

/-- Go `jwt.GetSigningMethod`: the method registered under a name, if any. -/
def GetSigningMethod (alg : String) : Option SigningMethod :=
  if alg = "HS256" then some (.HMAC .SHA256)
  else if alg = "HS384" then some (.HMAC .SHA384)
  else if alg = "HS512" then some (.HMAC .SHA512)
  else if alg ∈ ["RS256", "RS384", "RS512", "PS256", "PS384", "PS512",
      "ES256", "ES384", "ES512", "EdDSA", "none"] then some (.Other alg)
  else none

/-- The two header entries the package writes and reads: `typ` and `alg`
(`none` when the entry is missing or is not a string). -/
structure Header where
  typ : Option String
  alg : Option String
  deriving DecidableEq, Repr

/-- Go struct `jwt.RegisteredClaims`; a `*NumericDate` is an optional instant. -/
structure RegisteredClaims where
  Issuer : String := ""
  Subject : String := ""
  Audience : List String := []
  ExpiresAt : Option Int := none
  NotBefore : Option Int := none
  IssuedAt : Option Int := none
  ID : String := ""
  deriving DecidableEq, Repr

/-- Go variable `jwt.TimePrecision`, left at its default. -/
def TimePrecision : Int := Second

/-- Go `jwt.NewNumericDate`: the instant truncated to `TimePrecision`. -/
def NewNumericDate (t : Int) : Int := Truncate t TimePrecision

end jwt

/-! ## package auth: claims -/

/-- Go struct `auth.Claims`: the identity, and the embedded registered claims. -/
structure Claims extends jwt.RegisteredClaims where
  UserID : Int := 0
  deriving DecidableEq, Repr

/-- What `NumericDate.MarshalJSON` keeps of the claims: every date truncated to
`TimePrecision`. -/
def Claims.truncated (c : Claims) : Claims :=
  { c with
    ExpiresAt := c.ExpiresAt.map jwt.NewNumericDate
    NotBefore := c.NotBefore.map jwt.NewNumericDate
    IssuedAt := c.IssuedAt.map jwt.NewNumericDate }

namespace jwt

/-- The byte-level functions of the package and of the Go standard library it
calls: the MAC, base64url without padding, JSON for the header and for
`auth.Claims`. -/
structure Lib where
  /-- HMAC of a message under a key: `hmac h key message`. -/
  hmac : Hash → String → String → String
  /-- Method `EncodeSegment` of a token. -/
  EncodeSegment : String → String
  /-- Method `DecodeSegment` of the parser. -/
  DecodeSegment : String → Option String
  /-- Go `json.Marshal` of the header map. -/
  MarshalHeader : Header → String
  /-- Go `json.Unmarshal` into the header map. -/
  UnmarshalHeader : String → Option Header
  /-- Go `json.Marshal` of `auth.Claims`. -/
  MarshalClaims : Claims → String
  /-- Go `json.Unmarshal` into `auth.Claims`. -/
  UnmarshalClaims : String → Option Claims

/-- What the encodings guarantee: a segment has no dot and decodes to what was
encoded; JSON gives back the header, and the claims with their dates at
`TimePrecision`. -/
structure Lib.Lawful (L : Lib) : Prop where
  segment_no_dot : ∀ b, '.' ∉ (L.EncodeSegment b).toList
  segment_roundtrip : ∀ b, L.DecodeSegment (L.EncodeSegment b) = some b
  header_roundtrip : ∀ h, L.UnmarshalHeader (L.MarshalHeader h) = some h
  claims_roundtrip : ∀ c, L.UnmarshalClaims (L.MarshalClaims c) = some c.truncated

/-- Go struct `jwt.Token`. -/
structure Token where
  Raw : String
  Method : SigningMethod
  Header : Header
  Claims : Claims
  Signature : String
  Valid : Bool

/-- Go `jwt.NewWithClaims`. -/
def NewWithClaims (method : SigningMethod) (claims : Claims) : Token :=
  { Raw := ""
    Method := method
    Header := { typ := some "JWT", alg := some method.Alg }
    Claims := claims
    Signature := ""
    Valid := false }

/-- Method `Sign` of a signing method, for a key of type `[]byte`: an HMAC
method returns the MAC, every other method refuses the key type. -/
def SigningMethod.Sign (L : Lib) (m : SigningMethod) (signingString : String) (key : String) :
    Except (List Err) String :=
  match m with
  | .HMAC h => .ok (L.hmac h key signingString)
  | .Other _ => .error [Err.ErrInvalidKeyType]

/-- Method `Verify` of a signing method, for a key of type `[]byte`: an HMAC
method compares the signature with the MAC it computes, every other method
fails. -/
def SigningMethod.Verify (L : Lib) (m : SigningMethod) (signingString : String) (sig : String)
    (key : String) : Bool :=
  match m with
  | .HMAC h => decide (sig = L.hmac h key signingString)
  | .Other _ => false

/-- Method `SigningString` of a token: the encoded header, a dot, the encoded claims. -/
def Token.SigningString (L : Lib) (t : Token) : String :=
  L.EncodeSegment (L.MarshalHeader t.Header) ++ "." ++ L.EncodeSegment (L.MarshalClaims t.Claims)

/-- Method `SignedString` of a token: the signing string, a dot, the encoded signature. -/
def Token.SignedString (L : Lib) (t : Token) (key : String) : Except (List Err) String :=
  let sstr := t.SigningString L
  match t.Method.Sign L sstr key with
  | .error e => .error e
  | .ok sig => .ok (sstr ++ "." ++ L.EncodeSegment sig)

/-- The three segments of a compact token: `strings.Split(tokenString, ".")`
when it has exactly three parts. -/
def splitToken (tokenString : String) : Option (String × String × String) :=
  match tokenString.toList.splitOn '.' with
  | [a, b, c] => some (String.mk a, String.mk b, String.mk c)
  | _ => none

/-- Method `ParseUnverified` of the parser: split, decode header and claims,
look the method up. Returns the token and the three segments. -/
def ParseUnverified (L : Lib) (tokenString : String) :
    Except (List Err) (Token × String × String × String) :=
  match splitToken tokenString with
  | none => .error [Err.ErrTokenMalformed]
  | some (p0, p1, p2) =>
    match (L.DecodeSegment p0).bind L.UnmarshalHeader with
    | none => .error [Err.ErrTokenMalformed]
    | some header =>
      match (L.DecodeSegment p1).bind L.UnmarshalClaims with
      | none => .error [Err.ErrTokenMalformed]
      | some claims =>
        match header.alg.bind GetSigningMethod with
        | none => .error [Err.ErrTokenUnverifiable]
        | some method =>
          .ok ({ Raw := tokenString, Method := method, Header := header, Claims := claims,
                 Signature := "", Valid := false }, p0, p1, p2)

/-- Method `Validate` of the default validator (no leeway, no expected issuer,
audience or subject, issued-at not checked): the claim errors found at `now`.
A token is expired from its expires-at on, and not yet valid before its
not-before; an absent date is not checked. -/
def Validate (now : Int) (claims : Claims) : List Err :=
  (match claims.ExpiresAt with
    | some exp => if now < exp then [] else [Err.ErrTokenExpired]
    | none => []) ++
  (match claims.NotBefore with
    | some nbf => if now < nbf then [Err.ErrTokenNotValidYet] else []
    | none => [])

/-- Go `jwt.ParseWithClaims` with the default parser: parse, decode the
signature, ask the key function for the key, verify the signature, and only
then validate the claims at `now`; the first failure is returned. An error of
the key function is wrapped in `ErrTokenUnverifiable`, the claim errors are
joined under `ErrTokenInvalidClaims`. -/
def ParseWithClaims (L : Lib) (now : Int) (tokenString : String)
    (keyFunc : Token → Option String) : Except (List Err) Token :=
  match ParseUnverified L tokenString with
  | .error e => .error e
  | .ok (token, p0, p1, p2) =>
    match L.DecodeSegment p2 with
    | none => .error [Err.ErrTokenMalformed]
    | some sig =>
      let token := { token with Signature := sig }
      let text := p0 ++ "." ++ p1
      match keyFunc token with
      | none => .error [Err.ErrTokenUnverifiable]
      | some key =>
        if token.Method.Verify L text sig key = false then
          .error [Err.ErrTokenSignatureInvalid]
        else
          match Validate now token.Claims with
          | [] => .ok { token with Valid := true }
          | e :: es => .error (Err.ErrTokenInvalidClaims :: e :: es)

end jwt

/-! ## package redis (github.com/redis/go-redis/v9) and the server behind it -/

namespace redis

/-- Errors of the client: `redis.Nil` (no such key), or a transport failure
(connection refused, timeout, ...) with its message. -/
inductive Err
  | Nil
  | Transport (msg : String)
  deriving DecidableEq, Repr

/-- The fate of one round trip: the command is executed and answered; or it
never reaches the server; or it is executed and the answer never arrives. The
last two give the caller a transport error. -/
inductive Net
  | up
  | down (msg : String)
  | replyLost (msg : String)
  deriving DecidableEq, Repr

/-- The transport error of a round trip, if it has one. -/
def Net.err : Net → Option Err
  | .up => none
  | .down msg => some (.Transport msg)
  | .replyLost msg => some (.Transport msg)

/-- Whether the server executes the command of this round trip. -/
def Net.delivered : Net → Bool
  | .up => true
  | .down _ => false
  | .replyLost _ => true

/-- A stored string with the instant at which it expires, if it does. -/
structure Entry where
  value : String
  expireAt : Option Int
  deriving DecidableEq, Repr

/-- The expiry argument of a `SET` command as it goes over the wire: `PX` with
milliseconds, `EX` with seconds, `KEEPTTL`, or none. -/
inductive Expiry
  | px (ms : Int)
  | ex (sec : Int)
  | keepttl
  | never
  deriving DecidableEq, Repr

/-- A write command as the server receives it. -/
inductive Command
  | set (key value : String) (expiry : Expiry)
  | del (key : String)
  deriving DecidableEq, Repr

/-- The server: its keyspace, and the write commands it has executed, oldest
first. -/
structure Server where
  data : String → Option Entry
  writes : List Command := []

/-- The empty keyspace, before any command. -/
def Server.empty : Server := { data := fun _ => none }

/-- The entry under a key that has not expired at `now`: an entry is gone from
its expiry instant on. -/
def Server.live (s : Server) (now : Int) (key : String) : Option Entry :=
  match s.data key with
  | none => none
  | some e =>
    match e.expireAt with
    | none => some e
    | some t => if now < t then some e else none

/-- Go constant `redis.KeepTTL`. -/
def KeepTTL : Int := -1

/-- Client function `usePrecise`: whether the span needs millisecond precision. -/
def usePrecise (dur : Int) : Bool :=
  decide (dur < Second) || decide (dur % Second ≠ 0)

/-- Client function `formatMs`, on a positive span. -/
def formatMs (dur : Int) : Int :=
  if 0 < dur ∧ dur < Millisecond then 1 else dur / Millisecond

/-- Client function `formatSec`, on a positive span. -/
def formatSec (dur : Int) : Int :=
  if 0 < dur ∧ dur < Second then 1 else dur / Second

/-- The expiry instant the command `SET key value [PX ms | EX s | KEEPTTL]`
built by `Client.Set` gives the key when executed at `now`. -/
def setExpireAt (s : Server) (now : Int) (key : String) (expiration : Int) : Option Int :=
  if 0 < expiration then
    if usePrecise expiration then some (now + formatMs expiration * Millisecond)
    else some (now + formatSec expiration * Second)
  else if expiration = KeepTTL then
    (s.live now key).bind Entry.expireAt
  else none

/-- The expiry argument `Client.Set` appends to `SET key value` for an
expiration: `px` or `ex` for a positive one, `keepttl` for `KeepTTL`, nothing
otherwise. -/
def setExpiry (expiration : Int) : Expiry :=
  if 0 < expiration then
    if usePrecise expiration then Expiry.px (formatMs expiration)
    else Expiry.ex (formatSec expiration)
  else if expiration = KeepTTL then Expiry.keepttl
  else Expiry.never

/-- Server side of `SET`: the key holds the value, whatever it held, and the
command is one more write the server has executed. -/
def Server.set (s : Server) (now : Int) (key value : String) (expiration : Int) : Server :=
  { data := fun k =>
      if k = key then some { value := value, expireAt := setExpireAt s now key expiration }
      else s.data k
    writes := s.writes ++ [Command.set key value (setExpiry expiration)] }

/-- Server side of `DEL`: the key holds nothing; an absent key is no error. -/
def Server.del (s : Server) (key : String) : Server :=
  { data := fun k => if k = key then none else s.data k
    writes := s.writes ++ [Command.del key] }

/-- Go `Client.Set(ctx, key, value, expiration).Err()`. -/
def Client.Set (net : Net) (now : Int) (key value : String) (expiration : Int)
    (s : Server) : Option Err × Server :=
  (net.err, if net.delivered then s.set now key value expiration else s)

/-- Go `Client.Get(ctx, key).Result()`: the value, or the empty string with an
error, `redis.Nil` when the key holds nothing. -/
def Client.Get (net : Net) (now : Int) (key : String) (s : Server) : String × Option Err :=
  match net.err with
  | some e => ("", some e)
  | none =>
    match s.live now key with
    | none => ("", some Err.Nil)
    | some e => (e.value, none)

/-- Go `Client.Del(ctx, key).Err()`. -/
def Client.Del (net : Net) (key : String) (s : Server) : Option Err × Server :=
  (net.err, if net.delivered then s.del key else s)

end redis

/-! ## package database (internal/database/redis.go) -/

namespace database

/-- Go struct `database.RedisClient`: a handle on the server, modelled by the
keyspace it talks to. -/
abbrev RedisClient := redis.Server

/-- Method `Set` of `RedisClient`. -/
def RedisClient.Set (r : RedisClient) (net : redis.Net) (now : Int) (key value : String)
    (expiration : Int) : Option redis.Err × RedisClient :=
  redis.Client.Set net now key value expiration r

/-- Method `Get` of `RedisClient`. -/
def RedisClient.Get (r : RedisClient) (net : redis.Net) (now : Int) (key : String) :
    String × Option redis.Err :=
  redis.Client.Get net now key r

/-- Method `Delete` of `RedisClient`. -/
def RedisClient.Delete (r : RedisClient) (net : redis.Net) (key : String) :
    Option redis.Err × RedisClient :=
  redis.Client.Del net key r

end database

/-! ## package config (internal/config/config.go) -/

namespace config

/-- Go struct `config.JWTConfig`. -/
structure JWTConfig where
  Secret : String
  Expiration : Int
  deriving DecidableEq, Repr

end config

/-! ## package auth (internal/auth/jwt.go) -/

namespace auth

/-- Go error values the service hands to its callers: its own two sentinels,
or an error of the jwt package or of the redis client passed on as it is. -/
inductive Error
  | ErrInvalidToken
  | ErrExpiredToken
  | jwt (e : List jwt.Err)
  | redis (e : redis.Err)
  deriving DecidableEq, Repr

export Error (ErrInvalidToken ErrExpiredToken)

/-- Go struct `auth.JWTService`; the cache handle is passed to each method. -/
structure JWTService where
  config : config.JWTConfig
  lib : jwt.Lib

/-- The cache key of an identity: `fmt.Sprintf("token:valid:%d", userID)`. -/
def tokenKey (userID : Int) : String := "token:valid:" ++ FormatInt userID

/-- The claims `GenerateToken` signs for `userID` at `now`. -/
def newClaims (s : JWTService) (now : Int) (userID : Int) : Claims :=
  let expirationTime := now + s.config.Expiration
  { UserID := userID
    ExpiresAt := some (jwt.NewNumericDate expirationTime)
    IssuedAt := some (jwt.NewNumericDate now)
    NotBefore := some (jwt.NewNumericDate now)
    Subject := FormatInt userID }

/-- Method `GenerateToken` of `JWTService`: sign the claims with HS256 under the
configured secret, record the token under the key of the identity, return it. -/
def JWTService.GenerateToken (s : JWTService) (r : database.RedisClient) (net : redis.Net)
    (now : Int) (userID : Int) : (String × Option Error) × database.RedisClient :=
  let claims := newClaims s now userID
  let token := jwt.NewWithClaims jwt.SigningMethodHS256 claims
  match token.SignedString s.lib s.config.Secret with
  | .error err => (("", some (Error.jwt err)), r)
  | .ok tokenString =>
    let tokenKey := tokenKey userID
    match r.Set net now tokenKey tokenString s.config.Expiration with
    | (some err, r') => (("", some (Error.redis err)), r')
    | (none, r') => ((tokenString, none), r')

/-- The key function `ValidateToken` gives the parser: the secret for an HMAC
method, an error for any other. -/
def JWTService.keyFunc (s : JWTService) (token : jwt.Token) : Option String :=
  match token.Method with
  | .HMAC _ => some s.config.Secret
  | .Other _ => none

/-- Method `ValidateToken` of `JWTService`: parse and verify the token at `now`,
then compare it with the record stored under the key of its identity. The
type assertion `token.Claims.(*Claims)` holds for every token parsed into
`&Claims{}`, so of `!ok || !token.Valid` the second test remains. -/
def JWTService.ValidateToken (s : JWTService) (r : database.RedisClient) (net : redis.Net)
    (now : Int) (tokenString : String) : Option Claims × Option Error :=
  match jwt.ParseWithClaims s.lib now tokenString s.keyFunc with
  | .error err =>
    if jwt.Is err jwt.Err.ErrTokenExpired then (none, some ErrExpiredToken)
    else (none, some ErrInvalidToken)
  | .ok token =>
    let claims := token.Claims
    if !token.Valid then (none, some ErrInvalidToken)
    else
      let tokenKey := tokenKey claims.UserID
      match r.Get net now tokenKey with
      | (storedToken, err) =>
        if err ≠ none ∨ storedToken ≠ tokenString then (none, some ErrInvalidToken)
        else (some claims, none)

/-- Method `InvalidateToken` of `JWTService`: delete the record of the identity. -/
def JWTService.InvalidateToken (_s : JWTService) (r : database.RedisClient) (net : redis.Net)
    (userID : Int) : Option Error × database.RedisClient :=
  let tokenKey := tokenKey userID
  match r.Delete net tokenKey with
  | (err, r') => (err.map Error.redis, r')

end auth

/-! ## Notions used to state the properties -/

namespace jwt

/-- The claims a token string carries, read without any verification: the
second of its three segments, decoded. -/
def unverifiedClaims (L : Lib) (tokenString : String) : Option Claims :=
  match splitToken tokenString with
  | none => none
  | some (_, p1, _) => (L.DecodeSegment p1).bind L.UnmarshalClaims

/-- Whether the signature of a token string verifies under `secret`: the string
has three segments, its header names an HMAC method, and its third segment
decodes to the MAC, by that method and under `secret`, of the first two joined
by a dot. -/
def signatureVerifies (L : Lib) (secret : String) (tokenString : String) : Bool :=
  match splitToken tokenString with
  | none => false
  | some (p0, p1, p2) =>
    match (L.DecodeSegment p0).bind L.UnmarshalHeader with
    | none => false
    | some header =>
      match header.alg.bind GetSigningMethod with
      | some (.HMAC h) => decide (L.DecodeSegment p2 = some (L.hmac h secret (p0 ++ "." ++ p1)))
      | _ => false

end jwt

namespace auth

/-- The token string `GenerateToken` signs for `userID` at `now`: the signing
string of the new claims, a dot, the encoded HS256 MAC under the secret. -/
def JWTService.tokenFor (s : JWTService) (now : Int) (userID : Int) : String :=
  let token := jwt.NewWithClaims jwt.SigningMethodHS256 (newClaims s now userID)
  token.SigningString s.lib ++ "." ++
    s.lib.EncodeSegment (s.lib.hmac jwt.Hash.SHA256 s.config.Secret (token.SigningString s.lib))

end auth

/-! ## An executable instance of the encodings

A small textual stand-in for base64url, JSON and the MAC, on which the model
runs: a segment is its text with dots, commas and percent signs escaped; a JSON
value is the comma-separated list of its escaped fields, numbers in unary and
dates in whole seconds; the MAC of a message is the text naming hash, key and
message. -/

namespace Toy

/-- Escape dots, commas and percent signs. -/
def esc : List Char → List Char
  | [] => []
  | c :: cs =>
    if c = '.' then '%' :: 'd' :: esc cs
    else if c = ',' then '%' :: 'c' :: esc cs
    else if c = '%' then '%' :: 'p' :: esc cs
    else c :: esc cs

/-- Undo `esc`; the flag says that a percent sign has just been read. -/
def unescAux : Bool → List Char → Option (List Char)
  | false, [] => some []
  | true, [] => none
  | false, c :: cs =>
    if c = '%' then unescAux true cs
    else if c = '.' ∨ c = ',' then none
    else (unescAux false cs).map (fun l => c :: l)
  | true, c :: cs =>
    if c = 'd' then (unescAux false cs).map (fun l => '.' :: l)
    else if c = 'c' then (unescAux false cs).map (fun l => ',' :: l)
    else if c = 'p' then (unescAux false cs).map (fun l => '%' :: l)
    else none

/-- Undo `esc`. -/
def unesc (l : List Char) : Option (List Char) := unescAux false l

/-- A list of fields as one text: the escaped fields, separated by commas. -/
def encFields (fs : List String) : String :=
  String.mk ([','].intercalate (fs.map (fun f => esc f.toList)))

/-- Undo `esc` on every field. -/
def unescAll : List (List Char) → Option (List String)
  | [] => some []
  | l :: ls =>
    match unesc l, unescAll ls with
    | some a, some fs => some (String.mk a :: fs)
    | _, _ => none

/-- Undo `encFields`. -/
def decFields (s : String) : Option (List String) :=
  unescAll (s.toList.splitOn ',')

/-- An integer in unary, with a sign. -/
def encInt (i : Int) : String :=
  String.mk (if i < 0 then '-' :: List.replicate i.natAbs 'i' else List.replicate i.natAbs 'i')

/-- Undo `encInt`. -/
def decInt (s : String) : Option Int :=
  match s.toList with
  | [] => some 0
  | c :: cs =>
    if c = '-' then
      if cs.all (fun x => x == 'i') && !cs.isEmpty then some (-(cs.length : Int)) else none
    else if (c :: cs).all (fun x => x == 'i') then some ((c :: cs).length : Int) else none

/-- An optional text. -/
def encOpt : Option String → String
  | none => "n"
  | some s => "s" ++ s

/-- Undo `encOpt`. -/
def decOpt (s : String) : Option (Option String) :=
  match s.toList with
  | [] => none
  | c :: cs =>
    if c = 's' then some (some (String.mk cs))
    else if c = 'n' ∧ cs = [] then some none
    else none

/-- An optional date, in whole seconds. -/
def encDate (t : Option Int) : String := encOpt (t.map (fun x => encInt (x / Second)))

/-- Undo `encDate`. -/
def decDate (s : String) : Option (Option Int) :=
  match decOpt s with
  | none => none
  | some none => some none
  | some (some d) => (decInt d).map (fun k => some (k * Second))

/-- The header as text. -/
def MarshalHeader (h : jwt.Header) : String := encFields [encOpt h.typ, encOpt h.alg]

/-- Undo `MarshalHeader`. -/
def UnmarshalHeader (s : String) : Option jwt.Header :=
  match decFields s with
  | some [t, a] =>
    match decOpt t, decOpt a with
    | some typ, some alg => some { typ := typ, alg := alg }
    | _, _ => none
  | _ => none

/-- The claims as text. -/
def MarshalClaims (c : Claims) : String :=
  encFields (encInt c.UserID :: c.Issuer :: c.Subject :: encDate c.ExpiresAt ::
    encDate c.NotBefore :: encDate c.IssuedAt :: c.ID :: c.Audience)

/-- Undo `MarshalClaims`. -/
def UnmarshalClaims (s : String) : Option Claims :=
  match decFields s with
  | some (u :: iss :: sub :: e :: n :: i :: id :: aud) =>
    match decInt u, decDate e, decDate n, decDate i with
    | some uid, some exp, some nbf, some iat =>
      some { UserID := uid, Issuer := iss, Subject := sub, ExpiresAt := exp, NotBefore := nbf,
             IssuedAt := iat, ID := id, Audience := aud }
    | _, _, _, _ => none
  | _ => none

/-- The name of a hash. -/
def hashName : jwt.Hash → String
  | .SHA256 => "sha256"
  | .SHA384 => "sha384"
  | .SHA512 => "sha512"

/-- The stand-in for the MAC. -/
def hmac (h : jwt.Hash) (key message : String) : String :=
  encFields [hashName h, key, message]

/-- The executable instance. -/
def lib : jwt.Lib :=
  { hmac := hmac
    EncodeSegment := fun b => String.mk (esc b.toList)
    DecodeSegment := fun s => (unesc s.toList).map String.mk
    MarshalHeader := MarshalHeader
    UnmarshalHeader := UnmarshalHeader
    MarshalClaims := MarshalClaims
    UnmarshalClaims := UnmarshalClaims }

/-- A service over the executable instance: tokens live one hour. -/
def svc : auth.JWTService :=
  { config := { Secret := "s3cret", Expiration := Hour }, lib := lib }

/-- The same service, with tokens that live one second. -/
def svcShort : auth.JWTService :=
  { config := { Secret := "s3cret", Expiration := Second }, lib := lib }

/-- The same service, with tokens that live a millisecond and a half. -/
def svcOdd : auth.JWTService :=
  { config := { Secret := "s3cret", Expiration := 1500000 }, lib := lib }

/-- A service that signs with another secret. -/
def svcOther : auth.JWTService :=
  { config := { Secret := "0ther", Expiration := Hour }, lib := lib }

/-- An instant a quarter of a second into a second of the year 2023. -/
def t0 : Int := 1700000000250000000

/-- The last nanosecond of a clock second of the year 2023. -/
def late : Int := 1700000000999999999

/-- Half a second after `t0`, in the same clock second. -/
def t1 : Int := t0 + 500000000

/-- Two seconds after `t0`. -/
def t2 : Int := t0 + 2 * Second

end Toy

end GoService

namespace GoService

/-! ## Decimal text, other signing methods, sequences of operations -/

/-- The value of a decimal digit character. -/
def digitVal (c : Char) : Nat := c.toNat - 48

/-- The number a list of decimal digits writes, most significant digit first. -/
def decimalValue (l : List Char) : Nat := l.foldl (fun a c => 10 * a + digitVal c) 0

namespace jwt

/-- The compact token `SignedString` returns for claims signed by the HMAC
method on hash `h` under `key`. -/
def compact (L : Lib) (h : Hash) (claims : Claims) (key : String) : String :=
  let token := NewWithClaims (SigningMethod.HMAC h) claims
  token.SigningString L ++ "." ++ L.EncodeSegment (L.hmac h key (token.SigningString L))

/-- The `alg` entry of the header of a token string, read without any
verification. -/
def headerAlg (L : Lib) (tokenString : String) : Option String :=
  match splitToken tokenString with
  | none => none
  | some (p0, _, _) => ((L.DecodeSegment p0).bind L.UnmarshalHeader).bind Header.alg

/-- Whether the claims a token string carries have an expires-at that `now` has
reached. -/
def expiredAt (L : Lib) (now : Int) (tokenString : String) : Bool :=
  match unverifiedClaims L tokenString with
  | none => false
  | some c =>
    match c.ExpiresAt with
    | none => false
    | some exp => decide (exp ≤ now)

end jwt

namespace auth

/-- Whether an error value is one of the two sentinels the package declares,
`ErrInvalidToken` and `ErrExpiredToken`. -/
def Error.isSentinel : Error → Bool
  | .ErrInvalidToken => true
  | .ErrExpiredToken => true
  | .jwt _ => false
  | .redis _ => false

/-- A call that writes to the cache, with its clock reading and the fate of its
round trip. -/
inductive Op
  | generate (net : redis.Net) (now : Int) (userID : Int)
  | invalidate (net : redis.Net) (userID : Int)
  deriving DecidableEq, Repr

/-- The cache after one call. -/
def JWTService.apply (s : JWTService) (r : database.RedisClient) : Op → database.RedisClient
  | .generate net now userID => (s.GenerateToken r net now userID).2
  | .invalidate net userID => (s.InvalidateToken r net userID).2

/-- The cache after a sequence of calls. -/
def JWTService.run (s : JWTService) (r : database.RedisClient) : List Op → database.RedisClient
  | [] => r
  | op :: ops => s.run (s.apply r op) ops

/-- The cache states reachable from the empty cache through `GenerateToken` and
`InvalidateToken`. -/
def JWTService.Reachable (s : JWTService) (r : database.RedisClient) : Prop :=
  ∃ ops, s.run redis.Server.empty ops = r

end auth

end GoService

namespace GoService

/-! ## packages strings, context, net/http, as far as the middleware uses them -/

namespace strings

/-- Go `strings.Split(s, sep)` for a separator of one character. -/
def Split (s : String) (sep : Char) : List String :=
  (s.toList.splitOn sep).map String.mk

end strings

namespace context

/-- Keys of context values: a key of the middleware type `contextKey`, or a key
of any other type. -/
inductive Key
  | contextKey (name : String)
  | other (name : String)
  deriving DecidableEq, Repr

/-- Context values: an `int64`, or a value of any other type. -/
inductive Value
  | int64 (v : Int)
  | other (repr : String)
  deriving DecidableEq, Repr

/-- Go interface `context.Context`, as the chain of its key-value pairs, the
innermost first. -/
abbrev Context := List (Key × Value)

/-- Go `context.WithValue`. -/
def WithValue (parent : Context) (key : Key) (val : Value) : Context := (key, val) :: parent

/-- Method `Value` of a context: the innermost value under the key. -/
def Context.Value (ctx : Context) (key : Key) : Option Value := List.lookup key ctx

end context

namespace http

/-- Go constant `http.StatusUnauthorized`. -/
def StatusUnauthorized : Nat := 401

/-- Go constant `http.StatusForbidden`. -/
def StatusForbidden : Nat := 403

/-- Go type `http.Header`: the values sent under each canonical header name. -/
structure Header where
  values : String → List String

/-- Method `Get` of a header: the first value under the name, the empty string
when there is none. -/
def Header.Get (h : Header) (key : String) : String := (h.values key).headD ""

/-- Go struct `http.Request`, as far as the middleware reads it. -/
structure Request where
  Header : Header
  ctx : context.Context

/-- Method `WithContext` of a request. -/
def Request.WithContext (r : Request) (ctx : context.Context) : Request := { r with ctx := ctx }

/-- A request that carries the given values under `Authorization`, with an
empty context. -/
def Request.withAuthorization (vals : List String) : Request :=
  { Header := { values := fun k => if k = "Authorization" then vals else [] }, ctx := [] }

end http

/-! ## package response (internal/response/response.go) -/

namespace response

/-- Go struct `response.Response`; `Data` is `none` for `nil`. -/
structure Response where
  Status : String
  Code : Nat
  Message : String
  Data : Option String
  deriving DecidableEq, Repr

/-- What a handler writes to its `http.ResponseWriter`: the content type, the
status code, the JSON body. -/
structure Written where
  contentType : String
  statusCode : Nat
  body : Response
  deriving DecidableEq, Repr

/-- Go `response.ErrorResponse`. -/
def ErrorResponse (code : Nat) (message : String) : Written :=
  let response : Response := { Status := "error", Code := code, Message := message, Data := none }
  { contentType := "application/json", statusCode := code, body := response }

end response

/-! ## package middleware (internal/middleware/auth.go) -/

namespace middleware

/-- Go constant `middleware.UserIDKey`. -/
def UserIDKey : context.Key := context.Key.contextKey "userID"

/-- Go struct `middleware.Middleware`. -/
structure Middleware where
  jwtService : auth.JWTService

/-- What the handler built by `RequireAuth` does, in order: calls
`ValidateToken`, writes a response, calls the next handler with a request
context; `nilDereference` is the panic of reading through a nil pointer. -/
inductive Event
  | validateToken (tokenString : String)
  | write (w : response.Written)
  | serveNext (ctx : context.Context)
  | nilDereference
  deriving DecidableEq, Repr

/-- Method `RequireAuth` of `Middleware`, applied to a request: the events of
the handler it returns, the cache, the round trip and the clock being those of
the `ValidateToken` call. `strings.Split` returns at least one part, so
`headerParts[0]` is read safely. -/
def Middleware.RequireAuth (m : Middleware) (cache : database.RedisClient) (net : redis.Net)
    (now : Int) (r : http.Request) : List Event :=
  let authHeader := r.Header.Get "Authorization"
  if authHeader = "" then
    [Event.write (response.ErrorResponse http.StatusUnauthorized "Authorization header required")]
  else
    let headerParts := strings.Split authHeader ' '
    if headerParts.length ≠ 2 ∨ headerParts.getD 0 "" ≠ "Bearer" then
      [Event.write
        (response.ErrorResponse http.StatusUnauthorized "Invalid authorization header format")]
    else
      let tokenString := headerParts.getD 1 ""
      match m.jwtService.ValidateToken cache net now tokenString with
      | (claims, err) =>
        match err with
        | some err =>
          let (statusCode, message) :=
            if err = auth.ErrExpiredToken then (http.StatusUnauthorized, "Token has expired")
            else (http.StatusForbidden, "Invalid token")
          [Event.validateToken tokenString,
            Event.write (response.ErrorResponse statusCode message)]
        | none =>
          match claims with
          | none => [Event.validateToken tokenString, Event.nilDereference]
          | some claims =>
            let ctx := context.WithValue r.ctx UserIDKey (context.Value.int64 claims.UserID)
            [Event.validateToken tokenString, Event.serveNext (r.WithContext ctx).ctx]

/-- Go `middleware.GetUserID`. -/
def GetUserID (ctx : context.Context) : Int × Bool :=
  match ctx.Value UserIDKey with
  | some (context.Value.int64 userID) => (userID, true)
  | _ => (0, false)

/-- The token of a header value of the form `Bearer <token>`: the value has
exactly two parts separated by a space and the first is `Bearer`. -/
def bearerToken (authHeader : String) : Option String :=
  match strings.Split authHeader ' ' with
  | [scheme, tokenString] => if scheme = "Bearer" then some tokenString else none
  | _ => none

/-- The contexts the next handler was called with, in order. -/
def nextCalls (events : List Event) : List context.Context :=
  events.filterMap (fun e => match e with
    | Event.serveNext ctx => some ctx
    | _ => none)

/-- The tokens `ValidateToken` was called with, in order. -/
def validateCalls (events : List Event) : List String :=
  events.filterMap (fun e => match e with
    | Event.validateToken t => some t
    | _ => none)

/-- The responses written, in order. -/
def written (events : List Event) : List response.Written :=
  events.filterMap (fun e => match e with
    | Event.write w => some w
    | _ => none)

end middleware

end GoService

namespace GoService

/-! ## packages models and repository: the statements of `MovieRepository.List` -/

/-- Go type `float64`: a value is kept as its 64 bits, no arithmetic is done on it. -/
structure Float64 where
  bits : Nat
  deriving DecidableEq, Repr

namespace models

/-- Go struct `models.MovieQuery`. -/
structure MovieQuery where
  Title : String := ""
  Genre : String := ""
  Director : String := ""
  SortBy : String := ""
  Order : String := ""
  Page : Int := 0
  PageSize : Int := 0
  deriving DecidableEq, Repr

end models

namespace repository

/-- A value bound to a placeholder of a statement. -/
inductive Arg
  | text (s : String)
  | int (n : Int)
  | time (t : Int)
  | float (x : Float64)
  deriving DecidableEq, Repr

/-- Go `int` arithmetic on a 64-bit platform: the result wrapped to 64 bits. -/
def wrapInt (n : Int) : Int := (n + 9223372036854775808) % 18446744073709551616 - 9223372036854775808

/-- The text of the count statement before the filters are added. -/
def countBase : String := "SELECT COUNT(*) FROM movies WHERE 1=1"

/-- The text of the select statement before the filters are added. -/
def selectBase : String :=
  "\n\t\tSELECT id, title, description, release_date, rating, duration, genre, director, created_at, updated_at\n\t\tFROM movies\n\t\tWHERE 1=1\n\t"

/-- The filter state of `List`: the where clause, the bound arguments, the next
placeholder number. -/
structure Filters where
  whereClause : String
  args : List Arg
  argPosition : Int
  deriving DecidableEq, Repr

/-- One filter step of `List`: when the value is not empty, add the condition
on the column with the next placeholder, and bind the pattern. -/
def addFilter (f : Filters) (column : String) (value : String) : Filters :=
  if value ≠ "" then
    { whereClause := f.whereClause ++ (" AND " ++ column ++ " ILIKE $" ++ FormatInt f.argPosition)
      args := f.args ++ [Arg.text ("%" ++ value ++ "%")]
      argPosition := f.argPosition + 1 }
  else f

/-- The filters of `List`: title, genre, director, in that order. -/
def filters (query : models.MovieQuery) : Filters :=
  let f : Filters := { whereClause := "", args := [], argPosition := 1 }
  let f := addFilter f "title" query.Title
  let f := addFilter f "genre" query.Genre
  addFilter f "director" query.Director

/-- The keys of the map `allowedColumns` of `List`. -/
def allowedColumns : List String :=
  ["id", "title", "release_date", "rating", "duration", "genre", "director", "created_at"]

/-- The sorting step of `List`: the text appended to the select statement.
`ToUpper` is Go `strings.ToUpper`. -/
def orderBy (ToUpper : String → String) (query : models.MovieQuery) : String :=
  if query.SortBy ≠ "" then
    let orderDir := if ToUpper query.Order = "DESC" then "DESC" else "ASC"
    if query.SortBy ∈ allowedColumns then " ORDER BY " ++ query.SortBy ++ " " ++ orderDir
    else " ORDER BY created_at DESC"
  else " ORDER BY created_at DESC"

/-- The two statements `List` sends, with their bound arguments. -/
structure ListStatements where
  countQuery : String
  countArgs : List Arg
  selectQuery : String
  args : List Arg
  deriving DecidableEq, Repr

/-- Method `List` of `MovieRepository`, up to the calls to the database: the
count statement and the select statement it builds from a query. -/
def listStatements (ToUpper : String → String) (query : models.MovieQuery) : ListStatements :=
  let f := filters query
  let countQuery := countBase ++ f.whereClause
  let selectQuery := selectBase ++ f.whereClause
  let selectQuery := selectQuery ++ orderBy ToUpper query
  let page := if query.Page ≤ 0 then 1 else query.Page
  let pageSize := if query.PageSize ≤ 0 then 10 else query.PageSize
  let offset := wrapInt ((page - 1) * pageSize)
  let selectQuery := selectQuery ++
    (" LIMIT $" ++ FormatInt f.argPosition ++ " OFFSET $" ++ FormatInt (f.argPosition + 1))
  let args := f.args ++ [Arg.int pageSize, Arg.int offset]
  { countQuery := countQuery
    countArgs := args.take (f.argPosition - 1).toNat
    selectQuery := selectQuery
    args := args }

end repository

/-! ## More inputs for the executable instance -/

namespace Toy

/-- The middleware over `svc`. -/
def mw : middleware.Middleware := { jwtService := svc }

/-- A token for identity 42 that lives one second from `t0`, signed with HS384
under the secret of `svcShort`. -/
def hs384Token : String :=
  jwt.compact lib jwt.Hash.SHA384 (auth.newClaims svcShort t0 42) svcShort.config.Secret

/-- A token without identity whose expires-at is the epoch, signed with HS256
under the secret of `svc`. -/
def staleToken : String :=
  jwt.compact lib jwt.Hash.SHA256 { ExpiresAt := some 0 } svc.config.Secret

/-- A service whose tokens live two seconds. -/
def svcBrief : auth.JWTService :=
  { config := { Secret := "s3cret", Expiration := 2 * Second }, lib := lib }

/-- The middleware over `svcBrief`. -/
def mwBrief : middleware.Middleware := { jwtService := svcBrief }

/-- A quarter of a second after the epoch. -/
def early : Int := 250000000

/-- Lower-case ASCII letters to upper case, the stand-in for `strings.ToUpper`. -/
def ToUpper (s : String) : String := s.map Char.toUpper

end Toy

end GoService

namespace GoService

/-! ## packages models, database, repository: `GetByID` and `Update` -/

namespace strings

/-- Go `strings.Join`. -/
def Join (elems : List String) (sep : String) : String := sep.intercalate elems

end strings

namespace models

/-- Go struct `models.Movie`. -/
structure Movie where
  ID : Int
  Title : String
  Description : String
  ReleaseDate : Int
  Rating : Float64
  Duration : Int
  Genre : String
  Director : String
  CreatedAt : Int
  UpdatedAt : Int
  deriving DecidableEq, Repr

/-- Go struct `models.UpdateMovieInput`; a nil pointer is `none`. -/
structure UpdateMovieInput where
  Title : Option String := none
  Description : Option String := none
  ReleaseDate : Option Int := none
  Rating : Option Float64 := none
  Duration : Option Int := none
  Genre : Option String := none
  Director : Option String := none
  deriving DecidableEq, Repr

end models

namespace sql

/-- Errors of `database/sql`: `sql.ErrNoRows`, or any other error with its
message. -/
inductive Err
  | ErrNoRows
  | Other (msg : String)
  deriving DecidableEq, Repr

/-- A statement sent to the database: its text and its bound arguments. -/
structure Statement where
  query : String
  args : List repository.Arg
  deriving DecidableEq, Repr

end sql

namespace database

/-- Go struct `database.PostgresDB`, as the answers the database gives to the
statements of one call: a row scanned into a movie, a row scanned into a
count, the rows of a query scanned into movies. -/
structure PostgresDB where
  QueryRow : sql.Statement → Except sql.Err models.Movie
  QueryCount : sql.Statement → Except sql.Err Int
  Query : sql.Statement → Except sql.Err (List models.Movie)

end database

namespace repository

/-- Go error values the repository returns: `ErrMovieNotFound`, or an error of
the database passed on as it is. -/
inductive Error
  | ErrMovieNotFound
  | sql (e : sql.Err)
  deriving DecidableEq, Repr

/-- Go struct `repository.MovieRepository`. -/
structure MovieRepository where
  db : database.PostgresDB

/-- The text of the statement of `GetByID`. -/
def getByIDQuery : String :=
  "\n\t\tSELECT id, title, description, release_date, rating, duration, genre, director, created_at, updated_at\n\t\tFROM movies\n\t\tWHERE id = $1\n\t"

/-- Method `GetByID` of `MovieRepository`: the result, and the statements sent. -/
def MovieRepository.GetByID (r : MovieRepository) (id : Int) :
    (Option models.Movie × Option Error) × List sql.Statement :=
  let stmt : sql.Statement := { query := getByIDQuery, args := [Arg.int id] }
  match r.db.QueryRow stmt with
  | .error err =>
    if err = sql.Err.ErrNoRows then ((none, some Error.ErrMovieNotFound), [stmt])
    else ((none, some (Error.sql err)), [stmt])
  | .ok movie => ((some movie, none), [stmt])

/-- The state of the statement builder of `Update`: the assignments, the bound
arguments, the next placeholder number. -/
structure UpdateBuilder where
  updates : List String
  args : List Arg
  argPosition : Int
  deriving DecidableEq, Repr

/-- One step of the builder: when the field is not nil, add the assignment of
the column to the next placeholder, and bind the value. -/
def addUpdate (u : UpdateBuilder) (column : String) (value : Option Arg) : UpdateBuilder :=
  match value with
  | some v =>
    { updates := u.updates ++ [column ++ " = $" ++ FormatInt u.argPosition]
      args := u.args ++ [v]
      argPosition := u.argPosition + 1 }
  | none => u

/-- The builder of `Update` at the point where the statement is formatted: the
seven fields in order, then `updated_at` bound to `time.Now()`, then the
identifier added to the arguments. -/
def updateBuilder (now : Int) (id : Int) (input : models.UpdateMovieInput) : UpdateBuilder :=
  let u : UpdateBuilder := { updates := [], args := [], argPosition := 1 }
  let u := addUpdate u "title" (input.Title.map Arg.text)
  let u := addUpdate u "description" (input.Description.map Arg.text)
  let u := addUpdate u "release_date" (input.ReleaseDate.map Arg.time)
  let u := addUpdate u "rating" (input.Rating.map Arg.float)
  let u := addUpdate u "duration" (input.Duration.map Arg.int)
  let u := addUpdate u "genre" (input.Genre.map Arg.text)
  let u := addUpdate u "director" (input.Director.map Arg.text)
  let u : UpdateBuilder :=
    { updates := u.updates ++ ["updated_at = $" ++ FormatInt u.argPosition]
      args := u.args ++ [Arg.time now]
      argPosition := u.argPosition + 1 }
  { u with args := u.args ++ [Arg.int id] }

/-- The text of the statement of `Update`, formatted from the builder. -/
def updateQuery (u : UpdateBuilder) : String :=
  "\n\t\tUPDATE movies\n\t\tSET " ++ strings.Join u.updates ", " ++
    "\n\t\tWHERE id = $" ++ FormatInt u.argPosition ++
    "\n\t\tRETURNING id, title, description, release_date, rating, duration, genre, director, created_at, updated_at\n\t"

/-- Method `Update` of `MovieRepository`, called at `now`: the result, and the
statements sent to the database, in order. -/
def MovieRepository.Update (r : MovieRepository) (now : Int) (id : Int)
    (input : models.UpdateMovieInput) :
    (Option models.Movie × Option Error) × List sql.Statement :=
  match r.GetByID id with
  | ((_, some err), sent) => ((none, some err), sent)
  | ((movie, none), sent) =>
    let u := updateBuilder now id input
    if u.updates.length = 1 then ((movie, none), sent)
    else
      let stmt : sql.Statement := { query := updateQuery u, args := u.args }
      match r.db.QueryRow stmt with
      | .error err => ((none, some (Error.sql err)), sent ++ [stmt])
      | .ok updatedMovie => ((some updatedMovie, none), sent ++ [stmt])

/-- The query as `List` leaves it behind its pointer: page and page size set to
their defaults when they are not positive. -/
def paged (query : models.MovieQuery) : models.MovieQuery :=
  { query with
    Page := if query.Page ≤ 0 then 1 else query.Page
    PageSize := if query.PageSize ≤ 0 then 10 else query.PageSize }

/-- Method `List` of `MovieRepository`: the movies, the total count and the
error, and the query as the call leaves it. -/
def MovieRepository.List (r : MovieRepository) (ToUpper : String → String)
    (query : models.MovieQuery) :
    (List models.Movie × Int × Option Error) × models.MovieQuery :=
  let st := listStatements ToUpper query
  match r.db.QueryCount { query := st.countQuery, args := st.countArgs } with
  | .error err => (([], 0, some (Error.sql err)), paged query)
  | .ok totalCount =>
    match r.db.Query { query := st.selectQuery, args := st.args } with
    | .error err => (([], 0, some (Error.sql err)), paged query)
    | .ok movies => ((movies, totalCount, none), paged query)

end repository

end GoService

namespace GoService

/-! ## package handlers (internal/handlers/movie_handler.go): `ListMovies` -/

namespace http

/-- Go constant `http.StatusOK`. -/
def StatusOK : Nat := 200

/-- Go constant `http.StatusInternalServerError`. -/
def StatusInternalServerError : Nat := 500

end http

namespace handlers

/-- Go struct `handlers.MovieHandler`. -/
structure MovieHandler where
  movieRepo : repository.MovieRepository

/-- Go struct `handlers.PaginatedMovieResponse`. -/
structure PaginatedMovieResponse where
  Movies : List models.Movie
  TotalCount : Int
  Page : Int
  PageSize : Int
  TotalPages : Int
  deriving DecidableEq, Repr

/-- Go `a / b` on `int`: a run-time panic when `b` is zero (`none`), else the
quotient truncated toward zero, wrapped to 64 bits. -/
def intDiv (a b : Int) : Option Int :=
  if b = 0 then none else some (repository.wrapInt (Int.tdiv a b))

/-- Go `a % b` on `int`: a run-time panic when `b` is zero (`none`), else the
remainder of the truncated division. -/
def intMod (a b : Int) : Option Int :=
  if b = 0 then none else some (Int.tmod a b)

/-- The total pages `ListMovies` computes from the total count and the page
size; `none` is the panic of a division by zero. -/
def totalPages (totalCount pageSize : Int) : Option Int :=
  match intDiv totalCount pageSize with
  | none => none
  | some totalPages =>
    match intMod totalCount pageSize with
    | none => none
    | some rest =>
      if rest ≠ 0 then some (repository.wrapInt (totalPages + 1)) else some totalPages

/-- What `ListMovies` does with its response writer: writes an error response,
writes a success response that carries the page, or panics dividing by zero. -/
inductive Outcome
  | error (w : response.Written)
  | success (code : Nat) (message : String) (data : PaginatedMovieResponse)
  | divideByZero
  deriving DecidableEq, Repr

/-- One pagination parameter: the value the field starts from, replaced by the
parsed text when the text is not empty, parses, and is positive. -/
def pageParam (Atoi : String → Option Int) (text : String) (field : Int) : Int :=
  if text ≠ "" then
    match Atoi text with
    | some v => if v > 0 then v else field
    | none => field
  else field

/-- The query `ListMovies` hands to `List`, built from the URL parameters
(`params k` is `r.URL.Query().Get(k)`) with `strconv.Atoi` for the numbers. -/
def parseQuery (Atoi : String → Option Int) (params : String → String) : models.MovieQuery :=
  let query : models.MovieQuery :=
    { Title := params "title"
      Genre := params "genre"
      Director := params "director"
      SortBy := params "sort_by"
      Order := params "order" }
  let query := { query with Page := pageParam Atoi (params "page") query.Page }
  let query := { query with PageSize := pageParam Atoi (params "page_size") query.PageSize }
  let query := if query.Page ≤ 0 then { query with Page := 1 } else query
  let query := if query.PageSize ≤ 0 then { query with PageSize := 10 } else query
  query

/-- Method `ListMovies` of `MovieHandler`. -/
def MovieHandler.ListMovies (h : MovieHandler) (Atoi : String → Option Int)
    (ToUpper : String → String) (params : String → String) : Outcome :=
  let query := parseQuery Atoi params
  match h.movieRepo.List ToUpper query with
  | ((_, _, some _), _) =>
    Outcome.error (response.ErrorResponse http.StatusInternalServerError "Error listing movies")
  | ((movies, totalCount, none), query) =>
    match totalPages totalCount query.PageSize with
    | none => Outcome.divideByZero
    | some totalPages =>
      Outcome.success http.StatusOK "Movies retrieved successfully"
        { Movies := movies
          TotalCount := totalCount
          Page := query.Page
          PageSize := query.PageSize
          TotalPages := totalPages }

end handlers

namespace models

/-- The fields of an update input that are not nil, in declaration order: the
column each one is written to, and its value as a bound argument. -/
def UpdateMovieInput.present (input : UpdateMovieInput) : List (String × repository.Arg) :=
  (input.Title.map fun v => ("title", repository.Arg.text v)).toList ++
  (input.Description.map fun v => ("description", repository.Arg.text v)).toList ++
  (input.ReleaseDate.map fun v => ("release_date", repository.Arg.time v)).toList ++
  (input.Rating.map fun v => ("rating", repository.Arg.float v)).toList ++
  (input.Duration.map fun v => ("duration", repository.Arg.int v)).toList ++
  (input.Genre.map fun v => ("genre", repository.Arg.text v)).toList ++
  (input.Director.map fun v => ("director", repository.Arg.text v)).toList

end models

namespace repository

/-- The assignments of columns to the placeholders numbered from `n` on. -/
def assignments : List String → Int → List String
  | [], _ => []
  | column :: rest, n => (column ++ " = $" ++ FormatInt n) :: assignments rest (n + 1)

/-- The state of the builder of `Update` after the listed columns were assigned
the listed values, in order. -/
def builderOf (l : List (String × Arg)) : UpdateBuilder :=
  { updates := assignments (l.map Prod.fst) 1
    args := l.map Prod.snd
    argPosition := (l.length : Int) + 1 }

end repository

namespace Toy

/-- A stand-in for `strconv.Atoi` on a list of characters without sign. -/
def atoiDigits (l : List Char) (bound : Nat) : Option Nat :=
  if l ≠ [] ∧ l.all Char.isDigit ∧ decimalValue l ≤ bound then some (decimalValue l) else none

/-- A stand-in for `strconv.Atoi`: an optional sign, then decimal digits, the
value within 64 bits. -/
def Atoi (s : String) : Option Int :=
  match s.data with
  | '-' :: l => (atoiDigits l 9223372036854775808).map fun v => -(v : Int)
  | '+' :: l => (atoiDigits l 9223372036854775807).map fun v => (v : Int)
  | l => (atoiDigits l 9223372036854775807).map fun v => (v : Int)

/-- A movie row. -/
def movie : models.Movie :=
  { ID := 5, Title := "Heat", Description := "", ReleaseDate := 0, Rating := { bits := 0 }
    Duration := 170, Genre := "crime", Director := "Mann", CreatedAt := 0, UpdatedAt := 0 }

/-- A database that holds 25 movies and answers every row statement with
`movie`. -/
def db : database.PostgresDB :=
  { QueryRow := fun _ => .ok movie
    QueryCount := fun _ => .ok 25
    Query := fun _ => .ok [movie] }

/-- The repository over `db`. -/
def repo : repository.MovieRepository := { db := db }

/-- The handler over `repo`. -/
def handler : handlers.MovieHandler := { movieRepo := repo }

/-- An update of the title and the duration. -/
def update : models.UpdateMovieInput := { Title := some "Ronin", Duration := some 122 }

/-- The URL parameters `page=2&page_size=7`. -/
def params (k : String) : String :=
  if k = "page" then "2" else if k = "page_size" then "7" else ""

end Toy

end GoService

/-! ## The executable instance is lawful -/

namespace GoService
namespace Toy

theorem unescAux_esc (l : List Char) : unescAux false (esc l) = some l := by
  induction l with
  | nil => rfl
  | cons c cs ih =>
    by_cases h1 : c = '.'
    · subst h1; simp [esc, unescAux, ih]
    · by_cases h2 : c = ','
      · subst h2; simp [esc, unescAux, ih]
      · by_cases h3 : c = '%'
        · subst h3; simp [esc, unescAux, ih]
        · simp [esc, unescAux, ih, h1, h2, h3]

theorem unesc_esc (l : List Char) : unesc (esc l) = some l := unescAux_esc l

theorem dot_not_mem_esc (l : List Char) : '.' ∉ esc l := by
  induction l with
  | nil => simp [esc]
  | cons c cs ih =>
    by_cases h1 : c = '.'
    · subst h1; simp [esc, ih]
    · by_cases h2 : c = ','
      · subst h2; simp [esc, ih]
      · by_cases h3 : c = '%'
        · subst h3; simp [esc, ih]
        · simp [esc, ih, h1, h2, h3]; exact fun h => h1 h.symm

theorem comma_not_mem_esc (l : List Char) : ',' ∉ esc l := by
  induction l with
  | nil => simp [esc]
  | cons c cs ih =>
    by_cases h1 : c = '.'
    · subst h1; simp [esc, ih]
    · by_cases h2 : c = ','
      · subst h2; simp [esc, ih]
      · by_cases h3 : c = '%'
        · subst h3; simp [esc, ih]
        · simp [esc, ih, h1, h2, h3]; exact fun h => h2 h.symm

theorem unescAll_esc (fs : List String) :
    unescAll (fs.map (fun f => esc f.toList)) = some fs := by
  induction fs with
  | nil => rfl
  | cons f fs ih =>
    simp only [List.map_cons, unescAll, unesc_esc]
    rw [ih]
    rfl

theorem decFields_encFields (fs : List String) (h : fs ≠ []) :
    decFields (encFields fs) = some fs := by
  unfold decFields encFields
  have hs : ([','].intercalate (fs.map (fun f => esc f.toList))).splitOn ','
      = fs.map (fun f => esc f.toList) := by
    apply List.splitOn_intercalate
    · intro l hl
      obtain ⟨f, _, rfl⟩ := List.mem_map.mp hl
      exact comma_not_mem_esc _
    · simpa using h
  show unescAll (([','].intercalate (fs.map (fun f => esc f.toList))).splitOn ',') = some fs
  rw [hs, unescAll_esc]

theorem decInt_encInt (i : Int) : decInt (encInt i) = some i := by
  unfold decInt encInt
  by_cases h : i < 0
  · have hn : i.natAbs ≠ 0 := by omega
    have hc : ((i.natAbs : Nat) : Int) = -i := by omega
    simp [h, hn, hc]
  · simp only [h, if_false]
    show (match List.replicate i.natAbs 'i' with
      | [] => some 0
      | c :: cs => _) = some i
    cases hn : i.natAbs with
    | zero => simp; omega
    | succ n =>
      have hc : ((n : Nat) : Int) + 1 = i := by omega
      simp [List.replicate_succ, hc]

theorem decOpt_encOpt (o : Option String) : decOpt (encOpt o) = some o := by
  cases o with
  | none => rfl
  | some s => simp [decOpt, encOpt]

theorem decDate_encDate (t : Option Int) :
    decDate (encDate t) = some (t.map jwt.NewNumericDate) := by
  cases t with
  | none => rfl
  | some x =>
    have hx : x / Second * Second = jwt.NewNumericDate x := by
      have hs : ¬ (Second ≤ 0) := by decide
      simp only [jwt.NewNumericDate, Truncate, jwt.TimePrecision, hs, if_false]
      have := Int.ediv_add_emod x Second
      linarith
    simp [decDate, encDate, decOpt_encOpt, decInt_encInt, hx]

theorem unmarshalHeader_marshalHeader (h : jwt.Header) :
    UnmarshalHeader (MarshalHeader h) = some h := by
  simp [UnmarshalHeader, MarshalHeader, decFields_encFields, decOpt_encOpt]

theorem unmarshalClaims_marshalClaims (c : Claims) :
    UnmarshalClaims (MarshalClaims c) = some c.truncated := by
  simp [UnmarshalClaims, MarshalClaims, decFields_encFields, decInt_encInt, decDate_encDate,
    Claims.truncated]

theorem lib_lawful : lib.Lawful where
  segment_no_dot := fun b => dot_not_mem_esc b.toList
  segment_roundtrip := fun b => by simp [lib, unesc_esc]
  header_roundtrip := unmarshalHeader_marshalHeader
  claims_roundtrip := unmarshalClaims_marshalClaims

theorem hmac_key_injective (h : jwt.Hash) (k k' m : String) (hk : hmac h k m = hmac h k' m) :
    k = k' := by
  have h1 := decFields_encFields [hashName h, k, m] (by simp)
  have h2 := decFields_encFields [hashName h, k', m] (by simp)
  unfold hmac at hk
  rw [hk, h2] at h1
  simpa using h1.symm

end Toy
end GoService

/-! ## Lemmas on the model -/

namespace GoService

theorem truncate_idem (t : Int) (d : Int) : Truncate (Truncate t d) d = Truncate t d := by
  unfold Truncate
  by_cases h : d ≤ 0
  · simp [h]
  · simp only [h, if_false]
    have : (t - t % d) % d = 0 := by
      rw [Int.sub_emod, Int.emod_emod, sub_self, Int.zero_emod]
    rw [this, sub_zero]

theorem truncate_second_le (t : Int) : Truncate t Second ≤ t ∧ t < Truncate t Second + Second := by
  have hs : ¬ (Second ≤ 0) := by decide
  have h0 : 0 ≤ t % Second := Int.emod_nonneg t (by decide)
  have h1 : t % Second < Second := Int.emod_lt_of_pos t (by decide)
  simp only [Truncate, hs, if_false]
  constructor <;> linarith

theorem truncate_second_mono (a b : Int) (h : a ≤ b) : Truncate a Second ≤ Truncate b Second := by
  have hs : ¬ (Second ≤ 0) := by decide
  simp only [Truncate, hs, if_false]
  have ha := Int.ediv_add_emod a Second
  have hb := Int.ediv_add_emod b Second
  have hd : a / Second ≤ b / Second := Int.ediv_le_ediv (by decide) h
  have : Second * (a / Second) ≤ Second * (b / Second) := by
    apply Int.mul_le_mul_of_nonneg_left hd (by decide)
  linarith

theorem truncate_second_add (t : Int) : Truncate (t + Second) Second = Truncate t Second + Second := by
  have hs : ¬ (Second ≤ 0) := by decide
  simp only [Truncate, hs, if_false]
  rw [Int.add_emod_self]
  ring

namespace jwt

theorem splitToken_join (a b c : String) (ha : '.' ∉ a.toList) (hb : '.' ∉ b.toList)
    (hc : '.' ∉ c.toList) : splitToken (a ++ "." ++ b ++ "." ++ c) = some (a, b, c) := by
  have hs : (a ++ "." ++ b ++ "." ++ c).toList.splitOn '.' = [a.toList, b.toList, c.toList] := by
    have hj : (a ++ "." ++ b ++ "." ++ c).toList
        = ['.'].intercalate [a.toList, b.toList, c.toList] := by
      simp [List.intercalate, String.toList]
    rw [hj]
    apply List.splitOn_intercalate
    · intro l hl
      simp only [List.mem_cons, List.mem_singleton, List.not_mem_nil, or_false] at hl
      rcases hl with rfl | rfl | rfl <;> assumption
    · simp
  unfold splitToken
  rw [hs]
  rfl

end jwt

namespace auth

theorem newClaims_truncated (s : JWTService) (now : Int) (i : Int) :
    (newClaims s now i).truncated = newClaims s now i := by
  simp [newClaims, Claims.truncated, jwt.NewNumericDate, truncate_idem]

theorem splitToken_tokenFor (s : JWTService) (hL : s.lib.Lawful) (now : Int) (i : Int) :
    jwt.splitToken (s.tokenFor now i) =
      some (s.lib.EncodeSegment (s.lib.MarshalHeader
              (jwt.NewWithClaims jwt.SigningMethodHS256 (newClaims s now i)).Header),
            s.lib.EncodeSegment (s.lib.MarshalClaims (newClaims s now i)),
            s.lib.EncodeSegment (s.lib.hmac jwt.Hash.SHA256 s.config.Secret
              ((jwt.NewWithClaims jwt.SigningMethodHS256 (newClaims s now i)).SigningString
                s.lib))) := by
  unfold JWTService.tokenFor jwt.Token.SigningString
  exact jwt.splitToken_join _ _ _ (hL.segment_no_dot _) (hL.segment_no_dot _)
    (hL.segment_no_dot _)

theorem parseUnverified_tokenFor (s : JWTService) (hL : s.lib.Lawful) (now : Int) (i : Int) :
    jwt.ParseUnverified s.lib (s.tokenFor now i) =
      .ok ({ Raw := s.tokenFor now i, Method := jwt.SigningMethodHS256,
             Header := { typ := some "JWT", alg := some "HS256" },
             Claims := newClaims s now i, Signature := "", Valid := false },
           s.lib.EncodeSegment (s.lib.MarshalHeader { typ := some "JWT", alg := some "HS256" }),
           s.lib.EncodeSegment (s.lib.MarshalClaims (newClaims s now i)),
           s.lib.EncodeSegment (s.lib.hmac jwt.Hash.SHA256 s.config.Secret
             ((jwt.NewWithClaims jwt.SigningMethodHS256 (newClaims s now i)).SigningString
               s.lib))) := by
  unfold jwt.ParseUnverified
  rw [splitToken_tokenFor s hL]
  simp only [jwt.NewWithClaims, jwt.SigningMethodHS256, jwt.SigningMethod.Alg,
    hL.segment_roundtrip, hL.header_roundtrip, hL.claims_roundtrip, Option.some_bind,
    newClaims_truncated]
  rfl

/-- The token a successful parse of an issued token string returns. -/
theorem parseWithClaims_tokenFor (s : JWTService) (hL : s.lib.Lawful) (now now' : Int) (i : Int) :
    jwt.ParseWithClaims s.lib now' (s.tokenFor now i) s.keyFunc =
      match jwt.Validate now' (newClaims s now i) with
      | [] => .ok { Raw := s.tokenFor now i, Method := jwt.SigningMethodHS256,
                    Header := { typ := some "JWT", alg := some "HS256" },
                    Claims := newClaims s now i,
                    Signature := s.lib.hmac jwt.Hash.SHA256 s.config.Secret
                      ((jwt.NewWithClaims jwt.SigningMethodHS256
                        (newClaims s now i)).SigningString s.lib),
                    Valid := true }
      | e :: es => .error (jwt.Err.ErrTokenInvalidClaims :: e :: es) := by
  unfold jwt.ParseWithClaims
  rw [parseUnverified_tokenFor s hL]
  simp only [hL.segment_roundtrip, JWTService.keyFunc, jwt.SigningMethodHS256,
    jwt.SigningMethod.Verify, jwt.Token.SigningString, jwt.NewWithClaims, jwt.SigningMethod.Alg]
  simp

theorem generateToken_eq (s : JWTService) (r : database.RedisClient) (net : redis.Net)
    (now : Int) (i : Int) :
    s.GenerateToken r net now i =
      ((match net.err with
        | none => (s.tokenFor now i, none)
        | some e => ("", some (Error.redis e))),
       if net.delivered then r.set now (tokenKey i) (s.tokenFor now i) s.config.Expiration
       else r) := by
  cases net <;> rfl

theorem generateToken_ok (s : JWTService) (r r' : database.RedisClient) (net : redis.Net)
    (now : Int) (i : Int) (T : String) (h : s.GenerateToken r net now i = ((T, none), r')) :
    T = s.tokenFor now i ∧
      r' = r.set now (tokenKey i) (s.tokenFor now i) s.config.Expiration := by
  rw [generateToken_eq] at h
  cases net <;> simp [redis.Net.err, redis.Net.delivered] at h
  exact ⟨h.1.symm, h.2.symm⟩

theorem parse_ok_valid (L : jwt.Lib) (now : Int) (T : String) (kf : jwt.Token → Option String)
    (tok : jwt.Token) (h : jwt.ParseWithClaims L now T kf = .ok tok) : tok.Valid = true := by
  unfold jwt.ParseWithClaims at h
  split at h
  · cases h
  · split at h
    · cases h
    · simp only at h
      split at h
      · cases h
      · split at h
        · cases h
        · split at h
          · cases h; rfl
          · cases h

theorem validateToken_eq (s : JWTService) (r : database.RedisClient) (net : redis.Net)
    (now : Int) (T : String) :
    s.ValidateToken r net now T =
      match jwt.ParseWithClaims s.lib now T s.keyFunc with
      | .error err =>
        (none, some (if jwt.Is err jwt.Err.ErrTokenExpired then ErrExpiredToken
          else ErrInvalidToken))
      | .ok tok =>
        if r.Get net now (tokenKey tok.Claims.UserID) = (T, none) then (some tok.Claims, none)
        else (none, some ErrInvalidToken) := by
  unfold JWTService.ValidateToken
  split
  · rename_i err h
    split <;> simp_all
  · rename_i tok h
    have hv := parse_ok_valid _ _ _ _ _ h
    simp only [h, hv, Bool.not_true, Bool.false_eq_true, if_false]
    rcases hg : database.RedisClient.Get r net now (tokenKey tok.Claims.UserID) with ⟨st, e⟩
    by_cases h1 : e = none
    · by_cases h2 : st = T
      · simp [h1, h2]
      · simp [h1, h2]
    · simp [h1]

theorem get_eq_iff (r : database.RedisClient) (net : redis.Net) (now : Int) (key T : String) :
    r.Get net now key = (T, none) ↔
      net.err = none ∧ ∃ e, redis.Server.live r now key = some e ∧ e.value = T := by
  unfold database.RedisClient.Get redis.Client.Get
  cases hn : net.err with
  | some e => simp
  | none =>
    cases hl : redis.Server.live r now key with
    | none => simp
    | some e => simp

theorem validateToken_tokenFor (s : JWTService) (hL : s.lib.Lawful) (r : database.RedisClient)
    (net : redis.Net) (now now' : Int) (i : Int) :
    s.ValidateToken r net now' (s.tokenFor now i) =
      if jwt.NewNumericDate (now + s.config.Expiration) ≤ now' then (none, some ErrExpiredToken)
      else if now' < jwt.NewNumericDate now then (none, some ErrInvalidToken)
      else if r.Get net now' (tokenKey i) = (s.tokenFor now i, none) then
        (some (newClaims s now i), none)
      else (none, some ErrInvalidToken) := by
  rw [validateToken_eq, parseWithClaims_tokenFor s hL]
  have hv : jwt.Validate now' (newClaims s now i) =
      (if now' < jwt.NewNumericDate (now + s.config.Expiration) then []
        else [jwt.Err.ErrTokenExpired]) ++
      (if now' < jwt.NewNumericDate now then [jwt.Err.ErrTokenNotValidYet] else []) := rfl
  rw [hv]
  by_cases h1 : now' < jwt.NewNumericDate (now + s.config.Expiration)
  · have h1' : ¬ jwt.NewNumericDate (now + s.config.Expiration) ≤ now' := not_le.mpr h1
    by_cases h2 : now' < jwt.NewNumericDate now
    · simp [h1, h1', h2, jwt.Is]
    · simp only [h1, h1', h2, if_true, if_false, List.append_nil]
      rfl
  · have h1' : jwt.NewNumericDate (now + s.config.Expiration) ≤ now' := not_lt.mp h1
    by_cases h2 : now' < jwt.NewNumericDate now
    · simp [h1, h1', h2, jwt.Is]
    · simp [h1, h1', h2, jwt.Is]

end auth

namespace redis

theorem setExpireAt_ge (s : Server) (now : Int) (key : String) (expiration : Int)
    (h : Second ≤ expiration) :
    ∃ t, setExpireAt s now key expiration = some t ∧ now + Second ≤ t := by
  have h' : (1000000000 : Int) ≤ expiration := h
  clear h
  have e1 : (1000000000 : Int) ≤ expiration / (1000000 : Int) * (1000000 : Int) := by omega
  have e2 : (1000000000 : Int) ≤ expiration / (1000000000 : Int) * (1000000000 : Int) := by
    omega
  have hpos : (0 : Int) < expiration := by omega
  have hm : ¬ ((0 : Int) < expiration ∧ expiration < (1000000 : Int)) := by omega
  have hs : ¬ ((0 : Int) < expiration ∧ expiration < (1000000000 : Int)) := by omega
  unfold setExpireAt
  rw [if_pos hpos]
  by_cases hp : usePrecise expiration = true
  · rw [if_pos hp]
    refine ⟨_, rfl, ?_⟩
    unfold formatMs Millisecond
    rw [if_neg hm]
    exact Int.add_le_add_left e1 now
  · rw [if_neg hp]
    refine ⟨_, rfl, ?_⟩
    unfold formatSec
    unfold Second
    rw [if_neg hs]
    exact Int.add_le_add_left e2 now

theorem live_set_same (s : Server) (now now' : Int) (key value : String)
    (expiration : Int) :
    (s.set now key value expiration).live now' key =
      match setExpireAt s now key expiration with
      | none => some { value := value, expireAt := none }
      | some t => if now' < t then some { value := value, expireAt := some t } else none := by
  unfold Server.live Server.set
  simp only [if_true]
  cases setExpireAt s now key expiration <;> rfl

theorem live_del_same (s : Server) (now : Int) (key : String) :
    (s.del key).live now key = none := by
  simp [Server.live, Server.del]

end redis

namespace auth

theorem parse_of_not_verifies (s : JWTService) (now : Int) (T : String)
    (h : jwt.signatureVerifies s.lib s.config.Secret T = false) :
    ∃ err, jwt.ParseWithClaims s.lib now T s.keyFunc = .error err ∧
      jwt.Is err jwt.Err.ErrTokenExpired = false := by
  unfold jwt.signatureVerifies at h
  unfold jwt.ParseWithClaims jwt.ParseUnverified
  cases hs : jwt.splitToken T with
  | none => exact ⟨_, rfl, by decide⟩
  | some p =>
    obtain ⟨p0, p1, p2⟩ := p
    simp only [hs] at h ⊢
    cases hh : (s.lib.DecodeSegment p0).bind s.lib.UnmarshalHeader with
    | none => exact ⟨_, rfl, by decide⟩
    | some header =>
      simp only [hh] at h ⊢
      cases hc : (s.lib.DecodeSegment p1).bind s.lib.UnmarshalClaims with
      | none => exact ⟨_, rfl, by decide⟩
      | some claims =>
        simp only
        cases hm : header.alg.bind jwt.GetSigningMethod with
        | none => exact ⟨_, rfl, by decide⟩
        | some method =>
          simp only [hm] at h ⊢
          cases hd : s.lib.DecodeSegment p2 with
          | none => exact ⟨_, rfl, by decide⟩
          | some sig =>
            simp only
            cases method with
            | Other a => exact ⟨_, rfl, by decide⟩
            | HMAC hash =>
              simp only [hd, decide_eq_false_iff_not, Option.some.injEq] at h
              simp only [JWTService.keyFunc, jwt.SigningMethod.Verify, h, decide_False, if_true]
              exact ⟨_, rfl, by decide⟩

theorem parse_of_verifies (s : JWTService) (now : Int) (T : String) (c : Claims)
    (h : jwt.signatureVerifies s.lib s.config.Secret T = true)
    (hc : jwt.unverifiedClaims s.lib T = some c) :
    (jwt.Validate now c = [] →
      ∃ tok, jwt.ParseWithClaims s.lib now T s.keyFunc = .ok tok ∧ tok.Claims = c) ∧
    (jwt.Validate now c ≠ [] →
      jwt.ParseWithClaims s.lib now T s.keyFunc =
        .error (jwt.Err.ErrTokenInvalidClaims :: jwt.Validate now c)) := by
  unfold jwt.signatureVerifies at h
  unfold jwt.unverifiedClaims at hc
  unfold jwt.ParseWithClaims jwt.ParseUnverified
  cases hs : jwt.splitToken T with
  | none => simp [hs] at h
  | some p =>
    obtain ⟨p0, p1, p2⟩ := p
    simp only [hs] at h hc ⊢
    cases hh : (s.lib.DecodeSegment p0).bind s.lib.UnmarshalHeader with
    | none => simp [hh] at h
    | some header =>
      simp only [hh, hc] at h ⊢
      cases hm : header.alg.bind jwt.GetSigningMethod with
      | none => simp [hm] at h
      | some method =>
        cases method with
        | Other a => simp [hm] at h
        | HMAC hash =>
          simp only [hm, decide_eq_true_eq] at h
          simp only [h, JWTService.keyFunc, jwt.SigningMethod.Verify, decide_True,
            Bool.true_eq_false, if_false]
          constructor
          · intro hv
            rw [hv]
            exact ⟨_, rfl, rfl⟩
          · intro hv
            cases hv' : jwt.Validate now c with
            | nil => exact absurd hv' hv
            | cons e es => rfl

theorem verifies_of_parse (s : JWTService) (now : Int) (T : String) (tok : jwt.Token)
    (h : jwt.ParseWithClaims s.lib now T s.keyFunc = .ok tok) :
    jwt.signatureVerifies s.lib s.config.Secret T = true ∧
      jwt.unverifiedClaims s.lib T = some tok.Claims ∧ jwt.Validate now tok.Claims = [] := by
  cases hv : jwt.signatureVerifies s.lib s.config.Secret T with
  | false =>
    obtain ⟨err, he, _⟩ := parse_of_not_verifies s now T hv
    rw [he] at h
    cases h
  | true =>
    cases hc : jwt.unverifiedClaims s.lib T with
    | none =>
      exfalso
      unfold jwt.unverifiedClaims at hc
      unfold jwt.ParseWithClaims jwt.ParseUnverified at h
      cases hs : jwt.splitToken T with
      | none => simp [hs] at h
      | some p =>
        obtain ⟨p0, p1, p2⟩ := p
        simp only [hs] at h hc
        simp only [hc] at h
        cases hh : (s.lib.DecodeSegment p0).bind s.lib.UnmarshalHeader with
        | none => simp [hh] at h
        | some header => simp [hh] at h
    | some c =>
      obtain ⟨h1, h2⟩ := parse_of_verifies s now T c hv hc
      cases hval : jwt.Validate now c with
      | nil =>
        obtain ⟨tok', ht, hcl⟩ := h1 hval
        rw [ht] at h
        cases h
        exact ⟨rfl, by rw [hcl], by rw [hcl]; exact hval⟩
      | cons e es =>
        have := h2 (by rw [hval]; simp)
        rw [this] at h
        cases h

end auth
end GoService

/-! ## Issued tokens -/

namespace GoService
namespace auth

theorem invalidateToken_ok (s : JWTService) (r r' : database.RedisClient) (net : redis.Net)
    (i : Int) (h : s.InvalidateToken r net i = (none, r')) :
    r' = redis.Server.del r (tokenKey i) := by
  cases net <;>
    simp [JWTService.InvalidateToken, database.RedisClient.Delete, redis.Client.Del,
      redis.Net.err, redis.Net.delivered] at h
  exact h.symm

theorem generateToken_up (s : JWTService) (r : database.RedisClient) (now : Int) (i : Int) :
    s.GenerateToken r redis.Net.up now i =
      ((s.tokenFor now i, none),
        redis.Server.set r now (tokenKey i) (s.tokenFor now i) s.config.Expiration) := by
  rw [generateToken_eq]
  rfl

theorem signatureVerifies_tokenFor (s : JWTService) (hL : s.lib.Lawful) (now : Int) (i : Int) :
    jwt.signatureVerifies s.lib s.config.Secret (s.tokenFor now i) = true := by
  unfold jwt.signatureVerifies
  rw [splitToken_tokenFor s hL]
  simp [hL.segment_roundtrip, hL.header_roundtrip, jwt.NewWithClaims, jwt.SigningMethodHS256,
    jwt.SigningMethod.Alg, jwt.GetSigningMethod, jwt.Token.SigningString]

theorem unverifiedClaims_tokenFor (s : JWTService) (hL : s.lib.Lawful) (now : Int) (i : Int) :
    jwt.unverifiedClaims s.lib (s.tokenFor now i) = some (newClaims s now i) := by
  unfold jwt.unverifiedClaims
  rw [splitToken_tokenFor s hL]
  simp [hL.segment_roundtrip, hL.claims_roundtrip, newClaims_truncated]

/-- A token validates against the record its issuance wrote, at every instant
from the issuance to the end of the clock second of the issuance, when tokens
live a second or more. -/
theorem validateToken_fresh (s : JWTService) (hL : s.lib.Lawful) (r : database.RedisClient)
    (now now' : Int) (i : Int) (hexp : Second ≤ s.config.Expiration) (h1 : now ≤ now')
    (h2 : now' < jwt.NewNumericDate now + Second) :
    s.ValidateToken (redis.Server.set r now (tokenKey i) (s.tokenFor now i) s.config.Expiration)
      redis.Net.up now' (s.tokenFor now i) = (some (newClaims s now i), none) := by
  rw [validateToken_tokenFor s hL]
  have ha : jwt.NewNumericDate now + Second ≤ jwt.NewNumericDate (now + s.config.Expiration) := by
    have := truncate_second_mono (now + Second) (now + s.config.Expiration) (by linarith)
    rw [truncate_second_add] at this
    exact this
  have hb := (truncate_second_le now).1
  have hc : jwt.NewNumericDate now ≤ now := hb
  have e1 : ¬ jwt.NewNumericDate (now + s.config.Expiration) ≤ now' := by
    intro h; linarith
  have e2 : ¬ now' < jwt.NewNumericDate now := by
    intro h; linarith
  rw [if_neg e1, if_neg e2]
  have hg : database.RedisClient.Get
      (redis.Server.set r now (tokenKey i) (s.tokenFor now i) s.config.Expiration)
      redis.Net.up now' (tokenKey i) = (s.tokenFor now i, none) := by
    rw [get_eq_iff]
    refine ⟨rfl, ?_⟩
    obtain ⟨t, ht, hge⟩ := redis.setExpireAt_ge r now (tokenKey i) s.config.Expiration hexp
    rw [redis.live_set_same, ht]
    have : now' < t := by linarith
    simp [this]
  rw [if_pos hg]

end auth

namespace redis

/-- The record of an expiration of a second or more expires less than a
millisecond before the expiration has passed, and not after. -/
theorem setExpireAt_near (s : Server) (now : Int) (key : String) (expiration : Int)
    (h : Second ≤ expiration) :
    ∃ t, setExpireAt s now key expiration = some t ∧
      now + expiration - Millisecond < t ∧ t ≤ now + expiration := by
  have h' : (1000000000 : Int) ≤ expiration := h
  clear h
  have e1 : expiration - (1000000 : Int) < expiration / (1000000 : Int) * (1000000 : Int) := by
    omega
  have e1' : expiration / (1000000 : Int) * (1000000 : Int) ≤ expiration := by omega
  have hpos : (0 : Int) < expiration := by omega
  have hm : ¬ ((0 : Int) < expiration ∧ expiration < (1000000 : Int)) := by omega
  have hs : ¬ ((0 : Int) < expiration ∧ expiration < (1000000000 : Int)) := by omega
  unfold setExpireAt
  rw [if_pos hpos]
  by_cases hp : usePrecise expiration = true
  · rw [if_pos hp]
    refine ⟨_, rfl, ?_⟩
    unfold formatMs Millisecond
    rw [if_neg hm]
    constructor <;> omega
  · rw [if_neg hp]
    have hp' : ¬ (expiration < (1000000000 : Int)) ∧ expiration % (1000000000 : Int) = 0 := by
      simp only [usePrecise, Second, Bool.or_eq_true, decide_eq_true_eq, not_or, ne_eq,
        Decidable.not_not] at hp
      exact hp
    have e2 : expiration / (1000000000 : Int) * (1000000000 : Int) = expiration := by omega
    refine ⟨_, rfl, ?_⟩
    unfold formatSec Second Millisecond
    rw [if_neg hs, e2]
    constructor <;> omega

end redis

namespace auth

/-- When a token issued at `now` for a second or more is presented at `now'`,
not before `now`, against the record its issuance wrote: it is accepted if and
only if `now'` is before its expires-at and before the expiry of the record. -/
theorem validateToken_issued_iff (s : JWTService) (hL : s.lib.Lawful)
    (r : database.RedisClient) (now now' : Int) (i : Int)
    (hexp : Second ≤ s.config.Expiration) (h1 : now ≤ now') :
    s.ValidateToken (redis.Server.set r now (tokenKey i) (s.tokenFor now i) s.config.Expiration)
        redis.Net.up now' (s.tokenFor now i) = (some (newClaims s now i), none) ↔
      now' < jwt.NewNumericDate (now + s.config.Expiration) ∧
        ∃ t, redis.setExpireAt r now (tokenKey i) s.config.Expiration = some t ∧ now' < t := by
  obtain ⟨t, ht, _⟩ := redis.setExpireAt_ge r now (tokenKey i) s.config.Expiration hexp
  have hc : jwt.NewNumericDate now ≤ now := (truncate_second_le now).1
  have e2 : ¬ now' < jwt.NewNumericDate now := by
    intro h
    linarith
  have hg : database.RedisClient.Get
      (redis.Server.set r now (tokenKey i) (s.tokenFor now i) s.config.Expiration)
      redis.Net.up now' (tokenKey i) = (s.tokenFor now i, none) ↔ now' < t := by
    rw [get_eq_iff, redis.live_set_same, ht]
    by_cases hb : now' < t
    · simp [hb, redis.Net.err]
    · simp [hb, redis.Net.err]
  rw [validateToken_tokenFor s hL, if_neg e2, ht]
  by_cases ha : jwt.NewNumericDate (now + s.config.Expiration) ≤ now'
  · rw [if_pos ha]
    constructor
    · intro h
      cases h
    · rintro ⟨h, _⟩
      linarith
  · rw [if_neg ha]
    by_cases hb : now' < t
    · rw [if_pos (hg.mpr hb)]
      simp [hb, not_le.mp ha]
    · rw [if_neg (fun h => hb (hg.mp h))]
      simp [hb]

end auth

/-- C1 fails as stated. The service whose tokens live one second issues a token
for identity 42 at the last nanosecond of a clock second, over a working
cache; presented one nanosecond later, the token is answered with
`ErrExpiredToken`: its expires-at is the issuance plus one second, truncated
to the whole second that has just begun. -/
theorem C1_counterexample :
    Second ≤ Toy.svcShort.config.Expiration ∧
      Toy.svcShort.GenerateToken redis.Server.empty redis.Net.up Toy.late 42 =
        ((Toy.svcShort.tokenFor Toy.late 42, none),
          redis.Server.set redis.Server.empty Toy.late (auth.tokenKey 42)
            (Toy.svcShort.tokenFor Toy.late 42) Second) ∧
      Toy.svcShort.ValidateToken
          (redis.Server.set redis.Server.empty Toy.late (auth.tokenKey 42)
            (Toy.svcShort.tokenFor Toy.late 42) Second)
          redis.Net.up (Toy.late + 1) (Toy.svcShort.tokenFor Toy.late 42)
        = (none, some auth.ErrExpiredToken) := by
  refine ⟨by decide, auth.generateToken_up Toy.svcShort redis.Server.empty Toy.late 42, ?_⟩
  rw [auth.validateToken_tokenFor Toy.svcShort Toy.lib_lawful, if_pos (by decide)]

/-- C1, amended: with a working cache and tokens that live one second or more,
the token `GenerateToken` returns at clock reading `now` validates, with claims
that carry the identity, at every reading `now'` from `now` on that is within
the clock second of the issuance or at least one second before `now` plus the
configured expiry. In general it validates if and only if `now'` is before the
expires-at of the token, which is `now` plus the expiry truncated to whole
seconds, and before the expiry of the record; from the expires-at on the
answer is `ErrExpiredToken`. -/
theorem C1_validate_issued (s : auth.JWTService) (hL : s.lib.Lawful)
    (r r' : database.RedisClient) (net : redis.Net) (now now' : Int) (i : Int) (T : String)
    (hexp : Second ≤ s.config.Expiration)
    (hgen : s.GenerateToken r net now i = ((T, none), r'))
    (h1 : now ≤ now') :
    ((now' < jwt.NewNumericDate now + Second ∨ now' + Second ≤ now + s.config.Expiration) →
        ∃ c, s.ValidateToken r' redis.Net.up now' T = (some c, none) ∧ c.UserID = i) ∧
      ((∃ c, s.ValidateToken r' redis.Net.up now' T = (some c, none) ∧ c.UserID = i) ↔
        now' < jwt.NewNumericDate (now + s.config.Expiration) ∧
          ∃ t, redis.setExpireAt r now (auth.tokenKey i) s.config.Expiration = some t ∧
            now' < t) ∧
      (jwt.NewNumericDate (now + s.config.Expiration) ≤ now' →
        s.ValidateToken r' redis.Net.up now' T = (none, some auth.ErrExpiredToken)) := by
  obtain ⟨hT, hr⟩ := auth.generateToken_ok s r r' net now i T hgen
  subst hT hr
  have hiff := auth.validateToken_issued_iff s hL r now now' i hexp h1
  refine ⟨?_, ?_, ?_⟩
  · rintro (h2 | h2)
    · exact ⟨_, auth.validateToken_fresh s hL r now now' i hexp h1 h2, rfl⟩
    · refine ⟨_, hiff.mpr ⟨?_, ?_⟩, rfl⟩
      · have := (truncate_second_le (now + s.config.Expiration)).2
        have hn : jwt.NewNumericDate (now + s.config.Expiration)
            = Truncate (now + s.config.Expiration) Second := rfl
        rw [hn]
        linarith
      · obtain ⟨t, ht, hlo, _⟩ :=
          redis.setExpireAt_near r now (auth.tokenKey i) s.config.Expiration hexp
        refine ⟨t, ht, ?_⟩
        have es : Second = 1000000000 := rfl
        have em : Millisecond = 1000000 := rfl
        rw [em] at hlo
        rw [es] at h2
        linarith
  · constructor
    · rintro ⟨c, hc, _⟩
      by_contra hne
      have hv := auth.validateToken_tokenFor s hL
        (redis.Server.set r now (auth.tokenKey i) (s.tokenFor now i) s.config.Expiration)
        redis.Net.up now now' i
      rw [hc] at hv
      split at hv
      · cases hv
      · split at hv
        · cases hv
        · split at hv
          · exact hne (hiff.mp (by rw [hc, hv]))
          · cases hv
    · intro h
      exact ⟨_, hiff.mpr h, rfl⟩
  · intro h
    rw [auth.validateToken_tokenFor s hL, if_pos h]

/-- C1 amended, on the executable instance: identity 42 issued and validated at
the same instant. -/
theorem C1_validate_issued_witness :
    Toy.svc.GenerateToken redis.Server.empty redis.Net.up Toy.t0 42 =
        ((Toy.svc.tokenFor Toy.t0 42, none),
          redis.Server.set redis.Server.empty Toy.t0 (auth.tokenKey 42)
            (Toy.svc.tokenFor Toy.t0 42) Hour) ∧
      ∃ c, Toy.svc.ValidateToken
          (redis.Server.set redis.Server.empty Toy.t0 (auth.tokenKey 42)
            (Toy.svc.tokenFor Toy.t0 42) Hour)
          redis.Net.up Toy.t0 (Toy.svc.tokenFor Toy.t0 42) = (some c, none) ∧ c.UserID = 42 :=
  ⟨auth.generateToken_up Toy.svc redis.Server.empty Toy.t0 42,
    (C1_validate_issued Toy.svc Toy.lib_lawful redis.Server.empty _ redis.Net.up Toy.t0 Toy.t0 42
      _ (by decide) (auth.generateToken_up Toy.svc redis.Server.empty Toy.t0 42)
      (by decide)).1 (Or.inl (by decide))⟩

/-- C2: a token issued for an identity fails with `ErrInvalidToken` once
`InvalidateToken` has succeeded for that identity, at every instant before the
expiry of the token and whatever the cache round trip does, although its
signature still verifies under the secret. -/
theorem C2_invalidated_token_rejected (s : auth.JWTService) (hL : s.lib.Lawful)
    (r0 r0' r r' : database.RedisClient) (net0 net net' : redis.Net) (t0 now : Int) (i : Int)
    (T : String)
    (hgen : s.GenerateToken r0 net0 t0 i = ((T, none), r0'))
    (hinv : s.InvalidateToken r net i = (none, r'))
    (hlive : now < jwt.NewNumericDate (t0 + s.config.Expiration)) :
    s.ValidateToken r' net' now T = (none, some auth.ErrInvalidToken) ∧
      jwt.signatureVerifies s.lib s.config.Secret T = true := by
  obtain ⟨hT, _⟩ := auth.generateToken_ok s r0 r0' net0 t0 i T hgen
  have hr := auth.invalidateToken_ok s r r' net i hinv
  subst hT hr
  refine ⟨?_, auth.signatureVerifies_tokenFor s hL t0 i⟩
  rw [auth.validateToken_tokenFor s hL]
  have e1 : ¬ jwt.NewNumericDate (t0 + s.config.Expiration) ≤ now := not_le.mpr hlive
  rw [if_neg e1]
  split
  · rfl
  · have hg : ¬ database.RedisClient.Get (redis.Server.del r (auth.tokenKey i)) net' now
        (auth.tokenKey i) = (s.tokenFor t0 i, none) := by
      rw [auth.get_eq_iff, redis.live_del_same]
      simp
    rw [if_neg hg]

/-- C2, on the executable instance: identity 42 logs out a second after its
token was issued. -/
theorem C2_invalidated_token_rejected_witness :
    Toy.svc.ValidateToken
        (redis.Server.del
          (redis.Server.set redis.Server.empty Toy.t0 (auth.tokenKey 42)
            (Toy.svc.tokenFor Toy.t0 42) Hour) (auth.tokenKey 42))
        redis.Net.up (Toy.t0 + Second) (Toy.svc.tokenFor Toy.t0 42)
        = (none, some auth.ErrInvalidToken) ∧
      jwt.signatureVerifies Toy.lib "s3cret" (Toy.svc.tokenFor Toy.t0 42) = true :=
  C2_invalidated_token_rejected Toy.svc Toy.lib_lawful redis.Server.empty _ _ _
    redis.Net.up redis.Net.up redis.Net.up Toy.t0 (Toy.t0 + Second) 42 _
    (auth.generateToken_up Toy.svc redis.Server.empty Toy.t0 42) rfl (by decide)

end GoService

namespace GoService
namespace auth

theorem tokenFor_injective (s : JWTService) (hL : s.lib.Lawful) (now1 now2 : Int) (i j : Int)
    (h : s.tokenFor now1 i = s.tokenFor now2 j) : newClaims s now1 i = newClaims s now2 j := by
  have h1 := unverifiedClaims_tokenFor s hL now1 i
  rw [h, unverifiedClaims_tokenFor s hL now2 j] at h1
  exact (Option.some.inj h1).symm

theorem tokenFor_congr (s : JWTService) (now1 now2 : Int) (i : Int)
    (h : newClaims s now1 i = newClaims s now2 i) : s.tokenFor now1 i = s.tokenFor now2 i := by
  unfold JWTService.tokenFor
  rw [h]

/-- A token other than the recorded one is not accepted: validation against a
record holding `V` returns no claims for `T` when `T` differs from `V`. -/
theorem validateToken_tokenFor_superseded (s : JWTService) (hL : s.lib.Lawful)
    (r : database.RedisClient) (net : redis.Net) (t now now' : Int) (i : Int) (V : String)
    (hV : V ≠ s.tokenFor now i) :
    s.ValidateToken (redis.Server.set r t (tokenKey i) V s.config.Expiration) net now'
        (s.tokenFor now i) =
      if jwt.NewNumericDate (now + s.config.Expiration) ≤ now' then (none, some ErrExpiredToken)
      else (none, some ErrInvalidToken) := by
  rw [validateToken_tokenFor s hL]
  have hg : ¬ database.RedisClient.Get
      (redis.Server.set r t (tokenKey i) V s.config.Expiration) net now' (tokenKey i)
        = (s.tokenFor now i, none) := by
    rw [get_eq_iff, redis.live_set_same]
    rintro ⟨_, e, he, hv⟩
    cases hx : redis.setExpireAt r t (tokenKey i) s.config.Expiration with
    | none =>
      rw [hx] at he
      simp only [Option.some.injEq] at he
      subst he
      exact hV hv
    | some d =>
      rw [hx] at he
      simp only at he
      split at he
      · simp only [Option.some.injEq] at he
        subst he
        exact hV hv
      · cases he
  rw [if_neg hg]
  split
  · rfl
  · split <;> rfl

end auth

/-- C3 fails as stated. Two issuances for identity 42 half a second apart, in
one clock second, return the same string, and that string still validates
after the second issuance. And with tokens that live one second, the first
token presented two seconds later, after a second issuance, fails with
`ErrExpiredToken`, not `ErrInvalidToken`. -/
theorem C3_counterexample :
    ((Toy.svc.GenerateToken
        (Toy.svc.GenerateToken redis.Server.empty redis.Net.up Toy.t0 42).2
        redis.Net.up Toy.t1 42).1
      = (Toy.svc.GenerateToken redis.Server.empty redis.Net.up Toy.t0 42).1
    ∧ (Toy.svc.GenerateToken redis.Server.empty redis.Net.up Toy.t0 42).1.2 = none
    ∧ ∃ c, Toy.svc.ValidateToken
        (Toy.svc.GenerateToken
          (Toy.svc.GenerateToken redis.Server.empty redis.Net.up Toy.t0 42).2
          redis.Net.up Toy.t1 42).2
        redis.Net.up Toy.t1
        (Toy.svc.GenerateToken redis.Server.empty redis.Net.up Toy.t0 42).1.1 = (some c, none))
    ∧ ((Toy.svcShort.GenerateToken redis.Server.empty redis.Net.up Toy.t0 42).1.2 = none
    ∧ (Toy.svcShort.GenerateToken
        (Toy.svcShort.GenerateToken redis.Server.empty redis.Net.up Toy.t0 42).2
        redis.Net.up Toy.t2 42).1.2 = none
    ∧ Toy.svcShort.ValidateToken
        (Toy.svcShort.GenerateToken
          (Toy.svcShort.GenerateToken redis.Server.empty redis.Net.up Toy.t0 42).2
          redis.Net.up Toy.t2 42).2
        redis.Net.up Toy.t2
        (Toy.svcShort.GenerateToken redis.Server.empty redis.Net.up Toy.t0 42).1.1
      = (none, some auth.ErrExpiredToken)) := by
  have hc : auth.newClaims Toy.svc Toy.t1 42 = auth.newClaims Toy.svc Toy.t0 42 := by decide
  have ht : Toy.svc.tokenFor Toy.t1 42 = Toy.svc.tokenFor Toy.t0 42 :=
    auth.tokenFor_congr Toy.svc Toy.t1 Toy.t0 42 hc
  refine ⟨⟨?_, ?_, ?_⟩, ?_, ?_, ?_⟩
  · simp only [auth.generateToken_up, ht]
  · simp only [auth.generateToken_up]
  · simp only [auth.generateToken_up]
    refine ⟨auth.newClaims Toy.svc Toy.t1 42, ?_⟩
    rw [← ht]
    exact auth.validateToken_fresh Toy.svc Toy.lib_lawful _ Toy.t1 Toy.t1 42 (by decide)
      (by decide) (by decide)
  · simp only [auth.generateToken_up]
  · simp only [auth.generateToken_up]
  · simp only [auth.generateToken_up]
    rw [auth.validateToken_tokenFor Toy.svcShort Toy.lib_lawful]
    rw [if_pos (by decide)]

/-- C3, amended: when the two issuances for an identity fall in different clock
seconds, the second token differs from the first, and after the second
issuance the first token is rejected without any `InvalidateToken`: no claims
are returned, the error is `ErrInvalidToken` before the expiry of the first
token and `ErrExpiredToken` from its expiry on. -/
theorem C3_reissue_supersedes (s : auth.JWTService) (hL : s.lib.Lawful)
    (r1 r1' r2 r2' : database.RedisClient) (net1 net2 net : redis.Net) (now1 now2 now : Int)
    (i : Int) (T T2 : String)
    (h1 : s.GenerateToken r1 net1 now1 i = ((T, none), r1'))
    (h2 : s.GenerateToken r2 net2 now2 i = ((T2, none), r2'))
    (hsec : jwt.NewNumericDate now1 ≠ jwt.NewNumericDate now2) :
    T2 ≠ T ∧
      (now < jwt.NewNumericDate (now1 + s.config.Expiration) →
        s.ValidateToken r2' net now T = (none, some auth.ErrInvalidToken)) ∧
      (jwt.NewNumericDate (now1 + s.config.Expiration) ≤ now →
        s.ValidateToken r2' net now T = (none, some auth.ErrExpiredToken)) := by
  obtain ⟨hT, _⟩ := auth.generateToken_ok s r1 r1' net1 now1 i T h1
  obtain ⟨hT2, hr2⟩ := auth.generateToken_ok s r2 r2' net2 now2 i T2 h2
  subst hT hT2 hr2
  have hne : s.tokenFor now2 i ≠ s.tokenFor now1 i := by
    intro h
    have hc := auth.tokenFor_injective s hL now2 now1 i i h
    have hi : (auth.newClaims s now2 i).IssuedAt = (auth.newClaims s now1 i).IssuedAt := by
      rw [hc]
    simp only [auth.newClaims, Option.some.injEq] at hi
    exact hsec hi.symm
  refine ⟨hne, ?_, ?_⟩
  · intro hlt
    rw [auth.validateToken_tokenFor_superseded s hL r2 net now2 now1 now i _ hne]
    rw [if_neg (not_le.mpr hlt)]
  · intro hge
    rw [auth.validateToken_tokenFor_superseded s hL r2 net now2 now1 now i _ hne]
    rw [if_pos hge]

/-- C3 amended, on the executable instance: identity 42 logs in again two
seconds after its first login; the first token is presented a second later. -/
theorem C3_reissue_supersedes_witness :
    Toy.svc.tokenFor Toy.t2 42 ≠ Toy.svc.tokenFor Toy.t0 42 ∧
      (Toy.t2 + Second < jwt.NewNumericDate (Toy.t0 + Toy.svc.config.Expiration) →
        Toy.svc.ValidateToken
          (redis.Server.set
            (redis.Server.set redis.Server.empty Toy.t0 (auth.tokenKey 42)
              (Toy.svc.tokenFor Toy.t0 42) Hour)
            Toy.t2 (auth.tokenKey 42) (Toy.svc.tokenFor Toy.t2 42) Hour)
          redis.Net.up (Toy.t2 + Second) (Toy.svc.tokenFor Toy.t0 42)
          = (none, some auth.ErrInvalidToken)) ∧
      (jwt.NewNumericDate (Toy.t0 + Toy.svc.config.Expiration) ≤ Toy.t2 + Second →
        Toy.svc.ValidateToken
          (redis.Server.set
            (redis.Server.set redis.Server.empty Toy.t0 (auth.tokenKey 42)
              (Toy.svc.tokenFor Toy.t0 42) Hour)
            Toy.t2 (auth.tokenKey 42) (Toy.svc.tokenFor Toy.t2 42) Hour)
          redis.Net.up (Toy.t2 + Second) (Toy.svc.tokenFor Toy.t0 42)
          = (none, some auth.ErrExpiredToken)) :=
  C3_reissue_supersedes Toy.svc Toy.lib_lawful redis.Server.empty _ _ _
    redis.Net.up redis.Net.up redis.Net.up Toy.t0 Toy.t2 (Toy.t2 + Second) 42 _ _
    (auth.generateToken_up Toy.svc redis.Server.empty Toy.t0 42)
    (auth.generateToken_up Toy.svc _ Toy.t2 42) (by decide)

end GoService

/-! ## Validation against the record -/

namespace GoService
namespace auth

/-- What an accepted token tells: it parsed, the claims returned are its
claims, and the cache answered with a live record equal to the token. -/
theorem validateToken_accepts (s : JWTService) (r : database.RedisClient) (net : redis.Net)
    (now : Int) (T : String) (c : Claims) (e : Option Error)
    (h : s.ValidateToken r net now T = (some c, e)) :
    e = none ∧ (∃ tok, jwt.ParseWithClaims s.lib now T s.keyFunc = .ok tok ∧ tok.Claims = c) ∧
      r.Get net now (tokenKey c.UserID) = (T, none) := by
  rw [validateToken_eq] at h
  split at h
  · cases h
  · rename_i tok hp
    split at h
    · rename_i hg
      cases h
      exact ⟨rfl, ⟨tok, hp, rfl⟩, hg⟩
    · cases h

theorem live_value_unique (r : redis.Server) (now1 now2 : Int) (key : String)
    (e1 e2 : redis.Entry) (h1 : r.live now1 key = some e1) (h2 : r.live now2 key = some e2) :
    e1 = e2 := by
  unfold redis.Server.live at h1 h2
  cases hd : r.data key with
  | none => simp [hd] at h1
  | some e =>
    simp only [hd] at h1 h2
    have a1 : e = e1 := by
      split at h1
      · exact Option.some.inj h1
      · split at h1
        · exact Option.some.inj h1
        · cases h1
    have a2 : e = e2 := by
      split at h2
      · exact Option.some.inj h2
      · split at h2
        · exact Option.some.inj h2
        · cases h2
    rw [← a1, ← a2]

end auth

/-- C4: in every state of the cache, reachable or not, two token strings that
both validate with the same identity are the same string. -/
theorem C4_at_most_one_valid_token (s : auth.JWTService) (r : database.RedisClient)
    (net1 net2 : redis.Net) (now1 now2 : Int) (t1 t2 : String) (c1 c2 : Claims)
    (h1 : s.ValidateToken r net1 now1 t1 = (some c1, none))
    (h2 : s.ValidateToken r net2 now2 t2 = (some c2, none))
    (hid : c1.UserID = c2.UserID) : t1 = t2 := by
  obtain ⟨_, _, g1⟩ := auth.validateToken_accepts s r net1 now1 t1 c1 none h1
  obtain ⟨_, _, g2⟩ := auth.validateToken_accepts s r net2 now2 t2 c2 none h2
  rw [auth.get_eq_iff] at g1 g2
  obtain ⟨_, e1, l1, v1⟩ := g1
  obtain ⟨_, e2, l2, v2⟩ := g2
  rw [hid] at l1
  have := auth.live_value_unique r now1 now2 _ e1 e2 l1 l2
  rw [← v1, ← v2, this]

/-- C4, on the executable instance: the token of identity 42 is accepted at
two instants, and is one string. -/
theorem C4_at_most_one_valid_token_witness :
    Toy.svc.ValidateToken
        (redis.Server.set redis.Server.empty Toy.t0 (auth.tokenKey 42)
          (Toy.svc.tokenFor Toy.t0 42) Toy.svc.config.Expiration)
        redis.Net.up Toy.t0 (Toy.svc.tokenFor Toy.t0 42)
        = (some (auth.newClaims Toy.svc Toy.t0 42), none) ∧
      Toy.svc.tokenFor Toy.t0 42 = Toy.svc.tokenFor Toy.t0 42 :=
  ⟨auth.validateToken_fresh Toy.svc Toy.lib_lawful redis.Server.empty Toy.t0 Toy.t0 42
      (by decide) (by decide) (by decide),
    C4_at_most_one_valid_token Toy.svc
      (redis.Server.set redis.Server.empty Toy.t0 (auth.tokenKey 42)
        (Toy.svc.tokenFor Toy.t0 42) Toy.svc.config.Expiration)
      redis.Net.up redis.Net.up Toy.t0 Toy.t1 _ _ _ _
      (auth.validateToken_fresh Toy.svc Toy.lib_lawful redis.Server.empty Toy.t0 Toy.t0 42
        (by decide) (by decide) (by decide))
      (auth.validateToken_fresh Toy.svc Toy.lib_lawful redis.Server.empty Toy.t0 Toy.t1 42
        (by decide) (by decide) (by decide))
      rfl⟩

/-- C5: a token string whose signature does not verify under the configured
secret fails with `ErrInvalidToken` and no claims, at every instant, whatever
the cache holds and whatever the round trip does. -/
theorem C5_bad_signature_rejected (s : auth.JWTService) (r : database.RedisClient)
    (net : redis.Net) (now : Int) (T : String)
    (hsig : jwt.signatureVerifies s.lib s.config.Secret T = false) :
    s.ValidateToken r net now T = (none, some auth.ErrInvalidToken) := by
  obtain ⟨err, he, hx⟩ := auth.parse_of_not_verifies s now T hsig
  rw [auth.validateToken_eq, he]
  simp [hx]

namespace auth

/-- Whether an issued token verifies under another secret: exactly when the
two secrets give the signing string the same MAC. -/
theorem signatureVerifies_tokenFor_under (s : JWTService) (hL : s.lib.Lawful) (now : Int)
    (i : Int) (secret : String) :
    jwt.signatureVerifies s.lib secret (s.tokenFor now i) =
      decide (s.lib.hmac jwt.Hash.SHA256 s.config.Secret
          ((jwt.NewWithClaims jwt.SigningMethodHS256 (newClaims s now i)).SigningString s.lib) =
        s.lib.hmac jwt.Hash.SHA256 secret
          ((jwt.NewWithClaims jwt.SigningMethodHS256 (newClaims s now i)).SigningString
            s.lib)) := by
  unfold jwt.signatureVerifies
  rw [splitToken_tokenFor s hL]
  simp [hL.segment_roundtrip, hL.header_roundtrip, jwt.NewWithClaims, jwt.SigningMethodHS256,
    jwt.SigningMethod.Alg, jwt.GetSigningMethod, jwt.Token.SigningString]

theorem toy_other_secret_fails (now : Int) (i : Int) :
    jwt.signatureVerifies Toy.svc.lib Toy.svc.config.Secret (Toy.svcOther.tokenFor now i)
      = false := by
  have h := signatureVerifies_tokenFor_under Toy.svcOther Toy.lib_lawful now i
    Toy.svc.config.Secret
  have hl : Toy.svc.lib = Toy.svcOther.lib := rfl
  rw [hl, h, decide_eq_false_iff_not]
  intro hk
  have := Toy.hmac_key_injective _ _ _ _ hk
  revert this
  decide

end auth

/-- C5, on the executable instance: a token for identity 42 signed under another
secret, presented while the cache holds that very string as the record of 42. -/
theorem C5_bad_signature_rejected_witness :
    Toy.svc.ValidateToken
        (redis.Server.set redis.Server.empty Toy.t0 (auth.tokenKey 42)
          (Toy.svcOther.tokenFor Toy.t0 42) Hour)
        redis.Net.up Toy.t0 (Toy.svcOther.tokenFor Toy.t0 42)
      = (none, some auth.ErrInvalidToken) :=
  C5_bad_signature_rejected Toy.svc _ redis.Net.up Toy.t0 _
    (auth.toy_other_secret_fails Toy.t0 42)

end GoService

/-! ## Expiry, the record, and cache failures -/

namespace GoService
namespace auth

theorem parseWithClaims_tokenFor_ok (s : JWTService) (hL : s.lib.Lawful) (now now' : Int)
    (i : Int) (h : jwt.Validate now' (newClaims s now i) = []) :
    ∃ tok, jwt.ParseWithClaims s.lib now' (s.tokenFor now i) s.keyFunc = .ok tok ∧
      tok.Claims = newClaims s now i :=
  (parse_of_verifies s now' (s.tokenFor now i) (newClaims s now i)
    (signatureVerifies_tokenFor s hL now i) (unverifiedClaims_tokenFor s hL now i)).1 h

theorem validate_expired (now : Int) (c : Claims) (exp : Int) (hexp : c.ExpiresAt = some exp)
    (hpast : exp ≤ now) : jwt.Err.ErrTokenExpired ∈ jwt.Validate now c := by
  unfold jwt.Validate
  rw [hexp]
  simp [not_lt.mpr hpast]

end auth

/-- C6: a token whose signature verifies under the configured secret and whose
expires-at lies before the current instant fails with `ErrExpiredToken`,
whatever the cache holds and whatever the round trip does; that error is not
`ErrInvalidToken`, and the answer differs from the answer to any token whose
signature does not verify. -/
theorem C6_expired_token (s : auth.JWTService) (r : database.RedisClient) (net : redis.Net)
    (now : Int) (T : String) (c : Claims) (exp : Int)
    (hsig : jwt.signatureVerifies s.lib s.config.Secret T = true)
    (hc : jwt.unverifiedClaims s.lib T = some c)
    (hexp : c.ExpiresAt = some exp) (hpast : exp < now) :
    s.ValidateToken r net now T = (none, some auth.ErrExpiredToken) ∧
      auth.ErrExpiredToken ≠ auth.ErrInvalidToken ∧
      ∀ T', jwt.signatureVerifies s.lib s.config.Secret T' = false →
        s.ValidateToken r net now T' ≠ s.ValidateToken r net now T := by
  have hmem := auth.validate_expired now c exp hexp (le_of_lt hpast)
  have hne : jwt.Validate now c ≠ [] := by
    intro h
    rw [h] at hmem
    cases hmem
  have hp := (auth.parse_of_verifies s now T c hsig hc).2 hne
  have hv : s.ValidateToken r net now T = (none, some auth.ErrExpiredToken) := by
    rw [auth.validateToken_eq, hp]
    simp [jwt.Is, hmem]
  refine ⟨hv, by decide, ?_⟩
  intro T' hT'
  obtain ⟨err, he, hx⟩ := auth.parse_of_not_verifies s now T' hT'
  rw [hv, auth.validateToken_eq, he]
  simp [hx]

/-- C6, on the executable instance: a token that lives one second, presented two
seconds after its issuance. -/
theorem C6_expired_token_witness :
    Toy.svcShort.ValidateToken
        (redis.Server.set redis.Server.empty Toy.t0 (auth.tokenKey 42)
          (Toy.svcShort.tokenFor Toy.t0 42) Second)
        redis.Net.up Toy.t2 (Toy.svcShort.tokenFor Toy.t0 42)
      = (none, some auth.ErrExpiredToken) :=
  (C6_expired_token Toy.svcShort _ redis.Net.up Toy.t2 (Toy.svcShort.tokenFor Toy.t0 42)
    (auth.newClaims Toy.svcShort Toy.t0 42) (jwt.NewNumericDate (Toy.t0 + Second))
    (auth.signatureVerifies_tokenFor Toy.svcShort Toy.lib_lawful Toy.t0 42)
    (auth.unverifiedClaims_tokenFor Toy.svcShort Toy.lib_lawful Toy.t0 42) rfl
    (by decide)).1

/-- C7: for a token that decodes successfully with identity `i`, validation
fails with `ErrInvalidToken` when the cache holds no live record under the key
of `i`, and when it holds one whose value differs from the token; claims are
returned only when the stored value equals the token, and they are returned
then if the cache answers. -/
theorem C7_record_must_match (s : auth.JWTService) (r : database.RedisClient) (net : redis.Net)
    (now : Int) (T : String) (tok : jwt.Token) (i : Int)
    (hparse : jwt.ParseWithClaims s.lib now T s.keyFunc = .ok tok)
    (hid : tok.Claims.UserID = i) :
    (redis.Server.live r now (auth.tokenKey i) = none →
        s.ValidateToken r net now T = (none, some auth.ErrInvalidToken)) ∧
      (∀ e, redis.Server.live r now (auth.tokenKey i) = some e → e.value ≠ T →
        s.ValidateToken r net now T = (none, some auth.ErrInvalidToken)) ∧
      (∀ c, (s.ValidateToken r net now T).1 = some c →
        c = tok.Claims ∧
          ∃ e, redis.Server.live r now (auth.tokenKey i) = some e ∧ e.value = T) ∧
      (∀ e, redis.Server.live r now (auth.tokenKey i) = some e → e.value = T →
        s.ValidateToken r redis.Net.up now T = (some tok.Claims, none)) := by
  subst hid
  refine ⟨?_, ?_, ?_, ?_⟩
  · intro hl
    rw [auth.validateToken_eq, hparse]
    have : ¬ r.Get net now (auth.tokenKey tok.Claims.UserID) = (T, none) := by
      rw [auth.get_eq_iff, hl]
      simp
    simp [this]
  · intro e hl hv
    rw [auth.validateToken_eq, hparse]
    have : ¬ r.Get net now (auth.tokenKey tok.Claims.UserID) = (T, none) := by
      rw [auth.get_eq_iff, hl]
      simp [hv]
    simp [this]
  · intro c hcl
    rw [auth.validateToken_eq, hparse] at hcl
    simp only at hcl
    split at hcl
    · rename_i hg
      rw [auth.get_eq_iff] at hg
      simp only [Option.some.injEq] at hcl
      exact ⟨hcl.symm, hg.2⟩
    · cases hcl
  · intro e hl hv
    rw [auth.validateToken_eq, hparse]
    have : r.Get redis.Net.up now (auth.tokenKey tok.Claims.UserID) = (T, none) := by
      rw [auth.get_eq_iff, hl]
      exact ⟨rfl, e, rfl, hv⟩
    simp [this]

end GoService

namespace GoService

/-- C7, on the executable instance: the token of identity 42 presented to an
empty cache. -/
theorem C7_record_must_match_witness :
    Toy.svc.ValidateToken redis.Server.empty redis.Net.up Toy.t0 (Toy.svc.tokenFor Toy.t0 42)
      = (none, some auth.ErrInvalidToken) := by
  obtain ⟨tok, hp, hc⟩ := auth.parseWithClaims_tokenFor_ok Toy.svc Toy.lib_lawful Toy.t0 Toy.t0
    42 (by decide)
  exact (C7_record_must_match Toy.svc redis.Server.empty redis.Net.up Toy.t0 _ tok 42 hp
    (by rw [hc]; rfl)).1 rfl

/-- C8: when the cache write of `GenerateToken` fails, `GenerateToken` returns
the empty string together with the error of the write; and whenever it returns
a non-empty string, it returns no error and that string is the record stored
under the key of the identity. -/
theorem C8_failed_write_returns_no_token (s : auth.JWTService) (r : database.RedisClient)
    (net : redis.Net) (now : Int) (i : Int) (tokenString : String) (e : redis.Err)
    (hsign : (jwt.NewWithClaims jwt.SigningMethodHS256 (auth.newClaims s now i)).SignedString
      s.lib s.config.Secret = .ok tokenString)
    (hfail : (r.Set net now (auth.tokenKey i) tokenString s.config.Expiration).1 = some e) :
    (s.GenerateToken r net now i).1 = ("", some (auth.Error.redis e)) ∧
      ∀ (net' : redis.Net) (T : String) (err : Option auth.Error) (r' : database.RedisClient),
        s.GenerateToken r net' now i = ((T, err), r') → T ≠ "" →
          err = none ∧
            r'.data (auth.tokenKey i) =
              some { value := T,
                     expireAt := redis.setExpireAt r now (auth.tokenKey i)
                       s.config.Expiration } := by
  constructor
  · unfold auth.JWTService.GenerateToken
    simp only [hsign]
    rcases hset : database.RedisClient.Set r net now (auth.tokenKey i) tokenString
      s.config.Expiration with ⟨e', r'⟩
    rw [hset] at hfail
    simp only at hfail
    subst hfail
    rfl
  · intro net' T err r' hg hT
    rw [auth.generateToken_eq] at hg
    cases net' with
    | up =>
      simp only [redis.Net.err, redis.Net.delivered, if_true, Prod.mk.injEq] at hg
      obtain ⟨⟨h1, h2⟩, h3⟩ := hg
      subst h1 h2 h3
      exact ⟨rfl, by simp [redis.Server.set]⟩
    | down msg =>
      simp only [redis.Net.err, Prod.mk.injEq] at hg
      exact absurd hg.1.1.symm hT
    | replyLost msg =>
      simp only [redis.Net.err, Prod.mk.injEq] at hg
      exact absurd hg.1.1.symm hT

/-- C8, on the executable instance: the cache is unreachable when identity 42
logs in. -/
theorem C8_failed_write_returns_no_token_witness :
    (Toy.svc.GenerateToken redis.Server.empty (redis.Net.down "i/o timeout") Toy.t0 42).1
      = ("", some (auth.Error.redis (redis.Err.Transport "i/o timeout"))) :=
  (C8_failed_write_returns_no_token Toy.svc redis.Server.empty (redis.Net.down "i/o timeout")
    Toy.t0 42 (Toy.svc.tokenFor Toy.t0 42) (redis.Err.Transport "i/o timeout") rfl rfl).1

/-- C9 fails as stated. The token of identity 42, recorded in the cache and
presented while the cache is unreachable, is answered with `ErrInvalidToken`:
the very answer the same token gets from a reachable cache that holds no
record. -/
theorem C9_counterexample :
    Toy.svc.ValidateToken
        (redis.Server.set redis.Server.empty Toy.t0 (auth.tokenKey 42)
          (Toy.svc.tokenFor Toy.t0 42) Hour)
        (redis.Net.down "i/o timeout") Toy.t0 (Toy.svc.tokenFor Toy.t0 42)
      = (none, some auth.ErrInvalidToken) ∧
    Toy.svc.ValidateToken redis.Server.empty redis.Net.up Toy.t0 (Toy.svc.tokenFor Toy.t0 42)
      = (none, some auth.ErrInvalidToken) := by
  constructor
  · rw [auth.validateToken_tokenFor Toy.svc Toy.lib_lawful]
    rw [if_neg (by decide), if_neg (by decide), if_neg]
    rw [auth.get_eq_iff]
    rintro ⟨h, _⟩
    cases h
  · rw [auth.validateToken_tokenFor Toy.svc Toy.lib_lawful]
    rw [if_neg (by decide), if_neg (by decide), if_neg]
    rw [auth.get_eq_iff]
    rintro ⟨_, e, h, _⟩
    cases h

/-- C9, amended: when the cache lookup inside `ValidateToken` fails because the
cache is unreachable or times out, `ValidateToken` returns no claims and
`ErrInvalidToken`, the error it returns for a token without a record. -/
theorem C9_outage_reported_as_invalid (s : auth.JWTService) (r : database.RedisClient)
    (net : redis.Net) (now : Int) (T : String) (tok : jwt.Token) (msg : String)
    (hparse : jwt.ParseWithClaims s.lib now T s.keyFunc = .ok tok)
    (hget : (r.Get net now (auth.tokenKey tok.Claims.UserID)).2
      = some (redis.Err.Transport msg)) :
    s.ValidateToken r net now T = (none, some auth.ErrInvalidToken) := by
  rw [auth.validateToken_eq, hparse]
  have : ¬ r.Get net now (auth.tokenKey tok.Claims.UserID) = (T, none) := by
    intro h
    rw [h] at hget
    cases hget
  simp [this]

/-- C9 amended, on the executable instance: the recorded token of identity 42,
presented while the cache times out. -/
theorem C9_outage_reported_as_invalid_witness :
    Toy.svc.ValidateToken
        (redis.Server.set redis.Server.empty Toy.t0 (auth.tokenKey 42)
          (Toy.svc.tokenFor Toy.t0 42) Hour)
        (redis.Net.down "i/o timeout") Toy.t0 (Toy.svc.tokenFor Toy.t0 42)
      = (none, some auth.ErrInvalidToken) := by
  obtain ⟨tok, hp, _⟩ := auth.parseWithClaims_tokenFor_ok Toy.svc Toy.lib_lawful Toy.t0 Toy.t0
    42 (by decide)
  exact C9_outage_reported_as_invalid Toy.svc _ (redis.Net.down "i/o timeout") Toy.t0 _ tok
    "i/o timeout" hp rfl

/-- C10: validation fails closed. If the cache lookup returns an error, whatever
the error, `ValidateToken` returns an error and no claims; and claims are
returned only together with a nil error and a cache answer equal to the
presented string. -/
theorem C10_fails_closed (s : auth.JWTService) (r : database.RedisClient) (net : redis.Net)
    (now : Int) (T : String)
    (hget : ∀ tok, jwt.ParseWithClaims s.lib now T s.keyFunc = .ok tok →
      (r.Get net now (auth.tokenKey tok.Claims.UserID)).2 ≠ none) :
    ((s.ValidateToken r net now T).1 = none ∧ (s.ValidateToken r net now T).2 ≠ none) ∧
      ∀ (s' : auth.JWTService) (r' : database.RedisClient) (net' : redis.Net) (now' : Int)
        (T' : String) (c : Claims),
        (s'.ValidateToken r' net' now' T').1 = some c →
          (s'.ValidateToken r' net' now' T').2 = none ∧
            r'.Get net' now' (auth.tokenKey c.UserID) = (T', none) := by
  constructor
  · rw [auth.validateToken_eq]
    split
    · simp
    · rename_i tok hp
      have h := hget tok hp
      have : ¬ r.Get net now (auth.tokenKey tok.Claims.UserID) = (T, none) := by
        intro hg
        rw [hg] at h
        exact h rfl
      simp [this]
  · intro s' r' net' now' T' c hc
    rcases hv : s'.ValidateToken r' net' now' T' with ⟨c', e'⟩
    rw [hv] at hc
    simp only at hc
    subst hc
    obtain ⟨h1, _, h3⟩ := auth.validateToken_accepts s' r' net' now' T' c e' hv
    exact ⟨h1, h3⟩

/-- C10, on the executable instance: the recorded token of identity 42, presented
while the answer of the cache is lost. -/
theorem C10_fails_closed_witness :
    (Toy.svc.ValidateToken
        (redis.Server.set redis.Server.empty Toy.t0 (auth.tokenKey 42)
          (Toy.svc.tokenFor Toy.t0 42) Hour)
        (redis.Net.replyLost "connection reset") Toy.t0 (Toy.svc.tokenFor Toy.t0 42)).1 = none ∧
      (Toy.svc.ValidateToken
        (redis.Server.set redis.Server.empty Toy.t0 (auth.tokenKey 42)
          (Toy.svc.tokenFor Toy.t0 42) Hour)
        (redis.Net.replyLost "connection reset") Toy.t0 (Toy.svc.tokenFor Toy.t0 42)).2
        ≠ none :=
  (C10_fails_closed Toy.svc _ (redis.Net.replyLost "connection reset") Toy.t0 _
    (fun _ _ => by simp [database.RedisClient.Get, redis.Client.Get, redis.Net.err])).1

end GoService

/-! ## Decimal text and cache keys -/

namespace GoService

theorem digitVal_digitChar (d : Nat) (h : d < 10) : digitVal (Nat.digitChar d) = d := by
  interval_cases d <;> rfl

theorem digitChar_ne_minus (d : Nat) (h : d < 10) : Nat.digitChar d ≠ '-' := by
  interval_cases d <;> decide

theorem decimalValue_append_singleton (l : List Char) (c : Char) :
    decimalValue (l ++ [c]) = 10 * decimalValue l + digitVal c := by
  simp [decimalValue, List.foldl_append]

theorem toDigitsCore_spec (fuel : Nat) : ∀ (n : Nat) (ds : List Char), n < fuel →
    ∃ pre, Nat.toDigitsCore 10 fuel n ds = pre ++ ds ∧ decimalValue pre = n ∧ pre ≠ [] ∧
      ∀ c ∈ pre, c ≠ '-' := by
  induction fuel with
  | zero => intro n ds h; omega
  | succ fuel ih =>
    intro n ds h
    simp only [Nat.toDigitsCore]
    by_cases h0 : n / 10 = 0
    · rw [if_pos h0]
      have hn : n < 10 := by omega
      have hm : n % 10 = n := Nat.mod_eq_of_lt hn
      refine ⟨[Nat.digitChar (n % 10)], rfl, ?_, by simp, ?_⟩
      · rw [hm]
        simp [decimalValue, digitVal_digitChar n hn]
      · intro c hc
        simp only [List.mem_singleton] at hc
        rw [hc]
        exact digitChar_ne_minus _ (Nat.mod_lt _ (by decide))
    · rw [if_neg h0]
      have hlt : n / 10 < fuel := by omega
      obtain ⟨pre, hp, hv, hne, hd⟩ := ih (n / 10) (Nat.digitChar (n % 10) :: ds) hlt
      refine ⟨pre ++ [Nat.digitChar (n % 10)], ?_, ?_, by simp, ?_⟩
      · rw [hp]; simp
      · rw [decimalValue_append_singleton, hv, digitVal_digitChar _ (Nat.mod_lt _ (by decide))]
        omega
      · intro c hc
        rcases List.mem_append.mp hc with h1 | h1
        · exact hd c h1
        · simp only [List.mem_singleton] at h1
          rw [h1]
          exact digitChar_ne_minus _ (Nat.mod_lt _ (by decide))

theorem repr_spec (n : Nat) :
    decimalValue (Nat.repr n).data = n ∧ (Nat.repr n).data ≠ [] ∧
      ∀ c ∈ (Nat.repr n).data, c ≠ '-' := by
  obtain ⟨pre, hp, hv, hne, hd⟩ := toDigitsCore_spec (n + 1) n [] (Nat.lt_succ_self n)
  have : (Nat.repr n).data = pre := by
    simp [Nat.repr, Nat.toDigits, hp, List.asString]
  rw [this]
  exact ⟨hv, hne, hd⟩

theorem formatInt_injective (i j : Int) (h : FormatInt i = FormatInt j) : i = j := by
  unfold FormatInt at h
  cases i with
  | ofNat a =>
    cases j with
    | ofNat b =>
      have h' : Nat.repr a = Nat.repr b := h
      have := (repr_spec a).1
      rw [h', (repr_spec b).1] at this
      rw [this]
    | negSucc b =>
      exfalso
      have h' : Nat.repr a = "-" ++ Nat.repr (b + 1) := h
      obtain ⟨_, hne, hd⟩ := repr_spec a
      have hdata : (Nat.repr a).data = '-' :: (Nat.repr (b + 1)).data := by
        rw [h']; rfl
      exact hd '-' (by rw [hdata]; simp) rfl
  | negSucc a =>
    cases j with
    | ofNat b =>
      exfalso
      have h' : "-" ++ Nat.repr (a + 1) = Nat.repr b := h
      obtain ⟨_, hne, hd⟩ := repr_spec b
      have hdata : (Nat.repr b).data = '-' :: (Nat.repr (a + 1)).data := by
        rw [← h']; rfl
      exact hd '-' (by rw [hdata]; simp) rfl
    | negSucc b =>
      have h' : "-" ++ Nat.repr (a + 1) = "-" ++ Nat.repr (b + 1) := h
      have hdata : (Nat.repr (a + 1)).data = (Nat.repr (b + 1)).data := by
        have := congrArg String.data h'
        simpa using this
      have := (repr_spec (a + 1)).1
      rw [hdata, (repr_spec (b + 1)).1] at this
      have hab : a = b := by omega
      rw [hab]

namespace auth

theorem tokenKey_injective (i j : Int) (h : tokenKey i = tokenKey j) : i = j := by
  unfold tokenKey at h
  apply formatInt_injective
  have := congrArg String.data h
  simp only [String.data_append] at this
  exact String.ext (List.append_cancel_left this)

/-! ## Errors handed to the caller -/

theorem validateToken_result (s : JWTService) (r : database.RedisClient) (net : redis.Net)
    (now : Int) (T : String) :
    (∃ c, s.ValidateToken r net now T = (some c, none)) ∨
      s.ValidateToken r net now T = (none, some ErrInvalidToken) ∨
      s.ValidateToken r net now T = (none, some ErrExpiredToken) := by
  rw [validateToken_eq]
  split
  · split
    · exact Or.inr (Or.inr rfl)
    · exact Or.inr (Or.inl rfl)
  · split
    · exact Or.inl ⟨_, rfl⟩
    · exact Or.inr (Or.inl rfl)

theorem generateToken_err (s : JWTService) (r : database.RedisClient) (net : redis.Net)
    (now : Int) (i : Int) :
    (s.GenerateToken r net now i).1.2 =
      (r.Set net now (tokenKey i) (s.tokenFor now i) s.config.Expiration).1.map Error.redis := by
  rw [generateToken_eq]
  cases net <;> rfl

theorem invalidateToken_eq (s : JWTService) (r : database.RedisClient) (net : redis.Net)
    (i : Int) :
    s.InvalidateToken r net i =
      (net.err.map Error.redis, if net.delivered then redis.Server.del r (tokenKey i) else r) := by
  cases net <;> rfl

end auth

/-- C11 fails as stated. With the cache unreachable, `GenerateToken` and
`InvalidateToken` for identity 42 return the transport error of the redis
client as it is, and that value is neither `ErrInvalidToken` nor
`ErrExpiredToken`. -/
theorem C11_counterexample :
    (Toy.svc.GenerateToken redis.Server.empty (redis.Net.down "i/o timeout") Toy.t0 42).1.2
        = some (auth.Error.redis (redis.Err.Transport "i/o timeout")) ∧
      (Toy.svc.InvalidateToken redis.Server.empty (redis.Net.down "i/o timeout") 42).1
        = some (auth.Error.redis (redis.Err.Transport "i/o timeout")) ∧
      auth.Error.isSentinel (auth.Error.redis (redis.Err.Transport "i/o timeout")) = false :=
  ⟨rfl, rfl, rfl⟩

/-- C11, amended: an error returned by `ValidateToken` is `ErrInvalidToken` or
`ErrExpiredToken`; the error returned by `GenerateToken` is the error of its
cache write, unchanged, and the error returned by `InvalidateToken` is the
error of its cache delete, unchanged; neither of them ever returns a sentinel. -/
theorem C11_errors_returned (s : auth.JWTService) (r : database.RedisClient) (net : redis.Net)
    (now : Int) (i : Int) (T : String) :
    (∀ e, (s.ValidateToken r net now T).2 = some e →
        e = auth.ErrInvalidToken ∨ e = auth.ErrExpiredToken) ∧
      (s.GenerateToken r net now i).1.2 =
        (r.Set net now (auth.tokenKey i) (s.tokenFor now i) s.config.Expiration).1.map
          auth.Error.redis ∧
      (s.InvalidateToken r net i).1 = (r.Delete net (auth.tokenKey i)).1.map auth.Error.redis ∧
      (∀ e, (s.GenerateToken r net now i).1.2 = some e → e.isSentinel = false) ∧
      (∀ e, (s.InvalidateToken r net i).1 = some e → e.isSentinel = false) := by
  refine ⟨?_, auth.generateToken_err s r net now i, ?_, ?_, ?_⟩
  · intro e he
    rcases auth.validateToken_result s r net now T with ⟨c, h⟩ | h | h
    · rw [h] at he; cases he
    · rw [h] at he
      exact Or.inl (Option.some.inj he).symm
    · rw [h] at he
      exact Or.inr (Option.some.inj he).symm
  · rw [auth.invalidateToken_eq]
    rfl
  · intro e he
    rw [auth.generateToken_err] at he
    cases hx : (r.Set net now (auth.tokenKey i) (s.tokenFor now i) s.config.Expiration).1 with
    | none => rw [hx] at he; cases he
    | some x =>
      rw [hx] at he
      cases he
      rfl
  · intro e he
    rw [auth.invalidateToken_eq] at he
    cases hx : net.err with
    | none => rw [hx] at he; cases he
    | some x =>
      rw [hx] at he
      cases he
      rfl

end GoService

/-! ## Sequences of operations -/

namespace GoService

namespace redis

theorem data_del_same (s : Server) (key : String) : (s.del key).data key = none := by
  simp [Server.del]

theorem data_set_same (s : Server) (now : Int) (key value : String) (expiration : Int) :
    (s.set now key value expiration).data key =
      some { value := value, expireAt := setExpireAt s now key expiration } := by
  simp [Server.set]

theorem data_del_other (s : Server) (key k : String) (h : k ≠ key) :
    (s.del key).data k = s.data k := by
  simp [Server.del, h]

theorem data_set_other (s : Server) (now : Int) (key value : String) (expiration : Int)
    (k : String) (h : k ≠ key) : (s.set now key value expiration).data k = s.data k := by
  simp [Server.set, h]

end redis

namespace auth

theorem apply_generate (s : JWTService) (r : database.RedisClient) (net : redis.Net)
    (now : Int) (i : Int) :
    s.apply r (Op.generate net now i) =
      if net.delivered then
        redis.Server.set r now (tokenKey i) (s.tokenFor now i) s.config.Expiration
      else r := by
  simp only [JWTService.apply, generateToken_eq]

theorem apply_invalidate (s : JWTService) (r : database.RedisClient) (net : redis.Net)
    (i : Int) :
    s.apply r (Op.invalidate net i) =
      if net.delivered then redis.Server.del r (tokenKey i) else r := by
  simp only [JWTService.apply, invalidateToken_eq]

theorem data_of_live (r : redis.Server) (now : Int) (key : String) (e : redis.Entry)
    (h : r.live now key = some e) : r.data key = some e := by
  unfold redis.Server.live at h
  cases hd : r.data key with
  | none => simp [hd] at h
  | some e' =>
    simp only [hd] at h
    split at h
    · exact h
    · split at h
      · exact h
      · cases h

/-- A token whose record is absent or holds another string is rejected. -/
theorem validateToken_dead (s : JWTService) (hL : s.lib.Lawful) (r : database.RedisClient)
    (net : redis.Net) (t now : Int) (i : Int)
    (hdead : ∀ e, r.data (tokenKey i) = some e → e.value ≠ s.tokenFor t i) :
    s.ValidateToken r net now (s.tokenFor t i) =
      if jwt.NewNumericDate (t + s.config.Expiration) ≤ now then (none, some ErrExpiredToken)
      else (none, some ErrInvalidToken) := by
  rw [validateToken_tokenFor s hL]
  have hg : ¬ database.RedisClient.Get r net now (tokenKey i) = (s.tokenFor t i, none) := by
    rw [get_eq_iff]
    rintro ⟨_, e, he, hv⟩
    exact hdead e (data_of_live r now _ e he) hv
  rw [if_neg hg]
  split
  · rfl
  · split <;> rfl

/-- A record that is absent or holds another string stays so under every call
that is not a `GenerateToken` for the same identity within the clock second of
the issuance of the token. -/
theorem dead_apply (s : JWTService) (hL : s.lib.Lawful) (r : database.RedisClient) (t : Int)
    (i : Int) (op : Op)
    (hop : ∀ net now, op = Op.generate net now i →
      jwt.NewNumericDate now ≠ jwt.NewNumericDate t)
    (hdead : ∀ e, r.data (tokenKey i) = some e → e.value ≠ s.tokenFor t i) :
    ∀ e, (s.apply r op).data (tokenKey i) = some e → e.value ≠ s.tokenFor t i := by
  intro e he
  cases op with
  | generate net now j =>
    rw [apply_generate] at he
    by_cases hd : net.delivered = true
    · rw [if_pos hd] at he
      simp only [redis.Server.set] at he
      by_cases hk : tokenKey i = tokenKey j
      · have hij : i = j := tokenKey_injective i j hk
        subst hij
        rw [if_pos rfl] at he
        simp only [Option.some.injEq] at he
        subst he
        intro hv
        have hc := tokenFor_injective s hL now t i i hv
        have hi : (newClaims s now i).IssuedAt = (newClaims s t i).IssuedAt := by rw [hc]
        simp only [newClaims, Option.some.injEq] at hi
        exact hop net now rfl hi
      · rw [if_neg hk] at he
        exact hdead e he
    · rw [if_neg hd] at he
      exact hdead e he
  | invalidate net j =>
    rw [apply_invalidate] at he
    by_cases hd : net.delivered = true
    · rw [if_pos hd] at he
      simp only [redis.Server.del] at he
      by_cases hk : tokenKey i = tokenKey j
      · rw [if_pos hk] at he
        cases he
      · rw [if_neg hk] at he
        exact hdead e he
    · rw [if_neg hd] at he
      exact hdead e he

theorem dead_run (s : JWTService) (hL : s.lib.Lawful) (t : Int) (i : Int) (ops : List Op) :
    ∀ (r : database.RedisClient),
      (∀ net now, Op.generate net now i ∈ ops →
        jwt.NewNumericDate now ≠ jwt.NewNumericDate t) →
      (∀ e, r.data (tokenKey i) = some e → e.value ≠ s.tokenFor t i) →
      ∀ e, (s.run r ops).data (tokenKey i) = some e → e.value ≠ s.tokenFor t i := by
  induction ops with
  | nil => intro r _ hdead; exact hdead
  | cons op ops ih =>
    intro r hops hdead
    simp only [JWTService.run]
    apply ih
    · intro net now hmem
      exact hops net now (List.mem_cons_of_mem _ hmem)
    · apply dead_apply s hL r t i op _ hdead
      intro net now hop
      exact hops net now (by rw [hop]; exact List.mem_cons_self _ _)

end auth

/-- C12 fails as stated. Identity 42 logs in at `t0` and logs out; its token is
then rejected. It logs in again half a second later, in the same clock second:
the token of the first login is returned again, and it validates again. -/
theorem C12_counterexample :
    Toy.svc.ValidateToken
        (Toy.svc.run redis.Server.empty
          [auth.Op.generate redis.Net.up Toy.t0 42, auth.Op.invalidate redis.Net.up 42])
        redis.Net.up Toy.t0 (Toy.svc.tokenFor Toy.t0 42)
        = (none, some auth.ErrInvalidToken) ∧
      (Toy.svc.GenerateToken redis.Server.empty redis.Net.up Toy.t0 42).1
        = (Toy.svc.tokenFor Toy.t0 42, none) ∧
      (Toy.svc.InvalidateToken
        (Toy.svc.GenerateToken redis.Server.empty redis.Net.up Toy.t0 42).2 redis.Net.up 42).1
        = none ∧
      ∃ c, Toy.svc.ValidateToken
        (Toy.svc.run redis.Server.empty
          [auth.Op.generate redis.Net.up Toy.t0 42, auth.Op.invalidate redis.Net.up 42,
            auth.Op.generate redis.Net.up Toy.t1 42])
        redis.Net.up Toy.t1 (Toy.svc.tokenFor Toy.t0 42) = (some c, none) := by
  have hc : auth.newClaims Toy.svc Toy.t1 42 = auth.newClaims Toy.svc Toy.t0 42 := by decide
  have ht : Toy.svc.tokenFor Toy.t1 42 = Toy.svc.tokenFor Toy.t0 42 :=
    auth.tokenFor_congr Toy.svc Toy.t1 Toy.t0 42 hc
  refine ⟨?_, ?_, ?_, ?_⟩
  · simp only [auth.JWTService.run, auth.apply_generate, auth.apply_invalidate,
      redis.Net.delivered, if_true]
    rw [auth.validateToken_dead Toy.svc Toy.lib_lawful _ redis.Net.up Toy.t0 Toy.t0 42
      (by intro e he; rw [redis.data_del_same] at he; cases he)]
    rw [if_neg (by decide)]
  · rw [auth.generateToken_up]
  · rw [auth.invalidateToken_eq]
    rfl
  · simp only [auth.JWTService.run, auth.apply_generate, auth.apply_invalidate,
      redis.Net.delivered, if_true]
    refine ⟨auth.newClaims Toy.svc Toy.t1 42, ?_⟩
    rw [← ht]
    exact auth.validateToken_fresh Toy.svc Toy.lib_lawful _ Toy.t1 Toy.t1 42 (by decide)
      (by decide) (by decide)

/-- C12, amended: once a token issued for an identity has stopped validating
because the identity was invalidated, or because a later issuance for it
returned another string, it is rejected after every further sequence of
`GenerateToken` and `InvalidateToken` calls that holds no `GenerateToken` for
that identity within the clock second in which the token was issued: with
`ErrInvalidToken` before its expiry, with `ErrExpiredToken` from its expiry on. -/
theorem C12_rejected_token_stays_rejected (s : auth.JWTService) (hL : s.lib.Lawful)
    (r0 r0' r : database.RedisClient) (net0 net : redis.Net) (t now : Int) (i : Int) (T : String)
    (ops : List auth.Op)
    (hgen : s.GenerateToken r0 net0 t i = ((T, none), r0'))
    (hstop : (∃ r1 net1, s.InvalidateToken r1 net1 i = (none, r)) ∨
      (∃ r1 net1 now1 T2, s.GenerateToken r1 net1 now1 i = ((T2, none), r) ∧ T2 ≠ T))
    (hops : ∀ net1 now1, auth.Op.generate net1 now1 i ∈ ops →
      jwt.NewNumericDate now1 ≠ jwt.NewNumericDate t) :
    s.ValidateToken (s.run r ops) net now T =
      if jwt.NewNumericDate (t + s.config.Expiration) ≤ now then
        (none, some auth.ErrExpiredToken)
      else (none, some auth.ErrInvalidToken) := by
  obtain ⟨hT, _⟩ := auth.generateToken_ok s r0 r0' net0 t i T hgen
  subst hT
  have hdead : ∀ e, r.data (auth.tokenKey i) = some e → e.value ≠ s.tokenFor t i := by
    rcases hstop with ⟨r1, net1, hinv⟩ | ⟨r1, net1, now1, T2, hg2, hne⟩
    · have hr := auth.invalidateToken_ok s r1 r net1 i hinv
      subst hr
      intro e he
      rw [redis.data_del_same] at he
      cases he
    · obtain ⟨hT2, hr⟩ := auth.generateToken_ok s r1 r net1 now1 i T2 hg2
      subst hT2 hr
      intro e he
      rw [redis.data_set_same] at he
      simp only [Option.some.injEq] at he
      subst he
      exact hne
  exact auth.validateToken_dead s hL _ net t now i (auth.dead_run s hL t i ops r hops hdead)

/-- C12 amended, on the executable instance: identity 42 logs out, then logs in
and out again two seconds later while identity 7 logs in; the first token is
presented after that. -/
theorem C12_rejected_token_stays_rejected_witness :
    Toy.svc.ValidateToken
        (Toy.svc.run
          (redis.Server.del
            (redis.Server.set redis.Server.empty Toy.t0 (auth.tokenKey 42)
              (Toy.svc.tokenFor Toy.t0 42) Toy.svc.config.Expiration)
            (auth.tokenKey 42))
          [auth.Op.generate redis.Net.up Toy.t2 42, auth.Op.invalidate redis.Net.up 42,
            auth.Op.generate redis.Net.up Toy.t0 7])
        redis.Net.up Toy.t2 (Toy.svc.tokenFor Toy.t0 42)
      = (if jwt.NewNumericDate (Toy.t0 + Toy.svc.config.Expiration) ≤ Toy.t2 then
          (none, some auth.ErrExpiredToken)
        else (none, some auth.ErrInvalidToken)) :=
  C12_rejected_token_stays_rejected Toy.svc Toy.lib_lawful redis.Server.empty _ _ redis.Net.up
    redis.Net.up Toy.t0 Toy.t2 42 _ _
    (auth.generateToken_up Toy.svc redis.Server.empty Toy.t0 42)
    (Or.inl ⟨_, redis.Net.up, by rw [auth.invalidateToken_eq]; rfl⟩)
    (by
      intro net1 now1 hmem
      simp only [List.mem_cons, auth.Op.generate.injEq, List.mem_singleton, reduceCtorEq,
        List.not_mem_nil, or_false, false_or] at hmem
      rcases hmem with ⟨_, h, _⟩ | ⟨_, _, h⟩
      · rw [h]; decide
      · exact absurd h (by decide))

end GoService

/-! ## Tokens of other signing methods -/

namespace GoService
namespace jwt

theorem getSigningMethod_alg (h : Hash) :
    GetSigningMethod (SigningMethod.HMAC h).Alg = some (SigningMethod.HMAC h) := by
  cases h <;> decide

theorem splitToken_compact (L : Lib) (hL : L.Lawful) (h : Hash) (c : Claims) (key : String) :
    splitToken (compact L h c key) =
      some (L.EncodeSegment (L.MarshalHeader (NewWithClaims (SigningMethod.HMAC h) c).Header),
            L.EncodeSegment (L.MarshalClaims c),
            L.EncodeSegment (L.hmac h key
              ((NewWithClaims (SigningMethod.HMAC h) c).SigningString L))) := by
  unfold compact Token.SigningString
  exact splitToken_join _ _ _ (hL.segment_no_dot _) (hL.segment_no_dot _) (hL.segment_no_dot _)

theorem headerAlg_compact (L : Lib) (hL : L.Lawful) (h : Hash) (c : Claims) (key : String) :
    headerAlg L (compact L h c key) = some (SigningMethod.HMAC h).Alg := by
  unfold headerAlg
  rw [splitToken_compact L hL]
  simp [hL.segment_roundtrip, hL.header_roundtrip, NewWithClaims]

theorem unverifiedClaims_compact (L : Lib) (hL : L.Lawful) (h : Hash) (c : Claims)
    (key : String) : unverifiedClaims L (compact L h c key) = some c.truncated := by
  unfold unverifiedClaims
  rw [splitToken_compact L hL]
  simp [hL.segment_roundtrip, hL.claims_roundtrip]

theorem signatureVerifies_compact (L : Lib) (hL : L.Lawful) (h : Hash) (c : Claims)
    (key : String) : signatureVerifies L key (compact L h c key) = true := by
  unfold signatureVerifies
  rw [splitToken_compact L hL]
  simp only [hL.segment_roundtrip, hL.header_roundtrip, Option.some_bind, NewWithClaims,
    getSigningMethod_alg, Token.SigningString]
  simp

end jwt

namespace auth

theorem tokenFor_eq_compact (s : JWTService) (now : Int) (i : Int) :
    s.tokenFor now i = jwt.compact s.lib jwt.Hash.SHA256 (newClaims s now i) s.config.Secret :=
  rfl

theorem headerAlg_tokenFor (s : JWTService) (hL : s.lib.Lawful) (now : Int) (i : Int) :
    jwt.headerAlg s.lib (s.tokenFor now i) = some "HS256" := by
  rw [tokenFor_eq_compact, jwt.headerAlg_compact s.lib hL]
  rfl

/-- Every record of a reachable cache holds a token string that `GenerateToken`
signed. -/
theorem records_run (s : JWTService) (ops : List Op) :
    ∀ (r : database.RedisClient),
      (∀ key e, r.data key = some e → ∃ now i, e.value = s.tokenFor now i) →
      ∀ key e, (s.run r ops).data key = some e → ∃ now i, e.value = s.tokenFor now i := by
  induction ops with
  | nil => intro r h; exact h
  | cons op ops ih =>
    intro r h
    simp only [JWTService.run]
    apply ih
    intro key e he
    cases op with
    | generate net now j =>
      rw [apply_generate] at he
      by_cases hd : net.delivered = true
      · rw [if_pos hd] at he
        by_cases hk : key = tokenKey j
        · subst hk
          rw [redis.data_set_same] at he
          simp only [Option.some.injEq] at he
          subst he
          exact ⟨now, j, rfl⟩
        · rw [redis.data_set_other _ _ _ _ _ _ hk] at he
          exact h key e he
      · rw [if_neg hd] at he
        exact h key e he
    | invalidate net j =>
      rw [apply_invalidate] at he
      by_cases hd : net.delivered = true
      · rw [if_pos hd] at he
        by_cases hk : key = tokenKey j
        · subst hk
          rw [redis.data_del_same] at he
          cases he
        · rw [redis.data_del_other _ _ _ hk] at he
          exact h key e he
      · rw [if_neg hd] at he
        exact h key e he

theorem records_reachable (s : JWTService) (r : database.RedisClient) (hr : s.Reachable r) :
    ∀ key e, r.data key = some e → ∃ now i, e.value = s.tokenFor now i := by
  obtain ⟨ops, rfl⟩ := hr
  apply records_run
  intro key e he
  cases he

theorem parse_of_no_claims (s : JWTService) (now : Int) (T : String)
    (h : jwt.unverifiedClaims s.lib T = none) :
    ∃ err, jwt.ParseWithClaims s.lib now T s.keyFunc = .error err ∧
      jwt.Is err jwt.Err.ErrTokenExpired = false := by
  unfold jwt.unverifiedClaims at h
  unfold jwt.ParseWithClaims jwt.ParseUnverified
  cases hs : jwt.splitToken T with
  | none => exact ⟨_, rfl, by decide⟩
  | some p =>
    obtain ⟨p0, p1, p2⟩ := p
    simp only [hs] at h ⊢
    cases hh : (s.lib.DecodeSegment p0).bind s.lib.UnmarshalHeader with
    | none => exact ⟨_, rfl, by decide⟩
    | some header =>
      simp only [h]
      exact ⟨_, rfl, by decide⟩

/-- When a parse fails, the failure wraps `ErrTokenExpired` exactly for a token
whose signature verifies and whose expires-at has been reached. -/
theorem parse_error_expired_iff (s : JWTService) (now : Int) (T : String) (err : List jwt.Err)
    (h : jwt.ParseWithClaims s.lib now T s.keyFunc = .error err) :
    jwt.Is err jwt.Err.ErrTokenExpired = true ↔
      jwt.signatureVerifies s.lib s.config.Secret T = true ∧
        jwt.expiredAt s.lib now T = true := by
  cases hv : jwt.signatureVerifies s.lib s.config.Secret T with
  | false =>
    obtain ⟨err', he, hx⟩ := parse_of_not_verifies s now T hv
    rw [he] at h
    cases h
    simp [hx]
  | true =>
    cases hc : jwt.unverifiedClaims s.lib T with
    | none =>
      obtain ⟨err', he, hx⟩ := parse_of_no_claims s now T hc
      rw [he] at h
      cases h
      simp [hx, jwt.expiredAt, hc]
    | some c =>
      obtain ⟨h1, h2⟩ := parse_of_verifies s now T c hv hc
      cases hval : jwt.Validate now c with
      | nil =>
        obtain ⟨tok, ht, _⟩ := h1 hval
        rw [ht] at h
        cases h
      | cons e es =>
        have he := h2 (by rw [hval]; simp)
        rw [he] at h
        cases h
        simp only [jwt.expiredAt, hc, true_and]
        unfold jwt.Validate
        cases hexp : c.ExpiresAt with
        | none =>
          cases hnbf : c.NotBefore with
          | none => simp [jwt.Is]
          | some nbf =>
            by_cases hlt : now < nbf <;> simp [jwt.Is, hlt]
        | some exp =>
          by_cases hle : exp ≤ now
          · simp [jwt.Is, hle, not_lt.mpr hle]
          · have hlt : now < exp := not_le.mp hle
            cases hnbf : c.NotBefore with
            | none => simp [jwt.Is, hle, hlt]
            | some nbf =>
              by_cases hl2 : now < nbf <;> simp [jwt.Is, hle, hlt, hl2]

end auth
end GoService

namespace GoService
namespace auth

/-- In a reachable cache a token whose header does not name HS256 is rejected:
with `ErrExpiredToken` when its signature verifies and its expires-at has been
reached, with `ErrInvalidToken` otherwise. -/
theorem validateToken_other_alg (s : JWTService) (hL : s.lib.Lawful) (r : database.RedisClient)
    (hr : s.Reachable r) (net : redis.Net) (now : Int) (T : String)
    (halg : jwt.headerAlg s.lib T ≠ some "HS256") :
    s.ValidateToken r net now T =
      (none, some (if jwt.signatureVerifies s.lib s.config.Secret T = true ∧
          jwt.expiredAt s.lib now T = true then ErrExpiredToken else ErrInvalidToken)) := by
  rw [validateToken_eq]
  cases hp : jwt.ParseWithClaims s.lib now T s.keyFunc with
  | error err =>
    have hiff := parse_error_expired_iff s now T err hp
    by_cases hx : jwt.Is err jwt.Err.ErrTokenExpired = true
    · simp only [hx, if_true, hiff.mp hx, and_self]
    · have hn : ¬ (jwt.signatureVerifies s.lib s.config.Secret T = true ∧
          jwt.expiredAt s.lib now T = true) := fun h => hx (hiff.mpr h)
      simp only [hx, hn, if_false]
      rfl
  | ok tok =>
    obtain ⟨_, hc, hval⟩ := verifies_of_parse s now T tok hp
    have hne : ¬ jwt.expiredAt s.lib now T = true := by
      unfold jwt.expiredAt
      rw [hc]
      unfold jwt.Validate at hval
      cases hexp : tok.Claims.ExpiresAt with
      | none => simp [hexp]
      | some exp =>
        rw [hexp] at hval
        by_cases hlt : now < exp
        · simp [hexp, not_le.mpr hlt]
        · simp [hlt] at hval
    have hg : ¬ r.Get net now (tokenKey tok.Claims.UserID) = (T, none) := by
      rw [get_eq_iff]
      rintro ⟨_, e, he, hv⟩
      obtain ⟨t, i, hti⟩ := records_reachable s r hr _ e (data_of_live r now _ e he)
      rw [← hv, hti, headerAlg_tokenFor s hL] at halg
      exact halg rfl
    have hn : ¬ (jwt.signatureVerifies s.lib s.config.Secret T = true ∧
        jwt.expiredAt s.lib now T = true) := fun h => hne h.2
    simp only []
    rw [if_neg hg, if_neg hn]

theorem expiredAt_of_claims (L : jwt.Lib) (now : Int) (T : String) (c : Claims) (exp : Int)
    (hc : jwt.unverifiedClaims L T = some c) (he : c.ExpiresAt = some exp) (hle : exp ≤ now) :
    jwt.expiredAt L now T = true := by
  unfold jwt.expiredAt
  rw [hc]
  simp only [he, hle, decide_True]

theorem toy_hs384_verifies :
    jwt.signatureVerifies Toy.svcShort.lib Toy.svcShort.config.Secret Toy.hs384Token = true :=
  jwt.signatureVerifies_compact Toy.lib Toy.lib_lawful jwt.Hash.SHA384
    (newClaims Toy.svcShort Toy.t0 42) Toy.svcShort.config.Secret

theorem toy_hs384_claims :
    jwt.unverifiedClaims Toy.svcShort.lib Toy.hs384Token
      = some (newClaims Toy.svcShort Toy.t0 42) := by
  have h := jwt.unverifiedClaims_compact Toy.lib Toy.lib_lawful jwt.Hash.SHA384
    (newClaims Toy.svcShort Toy.t0 42) Toy.svcShort.config.Secret
  rw [newClaims_truncated] at h
  exact h

theorem toy_hs384_alg : jwt.headerAlg Toy.svcShort.lib Toy.hs384Token = some "HS384" :=
  jwt.headerAlg_compact Toy.lib Toy.lib_lawful jwt.Hash.SHA384
    (newClaims Toy.svcShort Toy.t0 42) Toy.svcShort.config.Secret

theorem toy_hs384_expired :
    jwt.signatureVerifies Toy.svcShort.lib Toy.svcShort.config.Secret Toy.hs384Token = true ∧
      jwt.expiredAt Toy.svcShort.lib Toy.t2 Toy.hs384Token = true :=
  ⟨toy_hs384_verifies,
    expiredAt_of_claims _ Toy.t2 _ _ (jwt.NewNumericDate (Toy.t0 + Second)) toy_hs384_claims rfl
      (by decide)⟩

end auth

/-- C13 fails as stated. A token for identity 42 whose header names HS384,
signed correctly under the configured secret and one second past its
expires-at, presented to the service over the empty cache, fails with
`ErrExpiredToken`, not with `ErrInvalidToken`. -/
theorem C13_counterexample :
    jwt.headerAlg Toy.svcShort.lib Toy.hs384Token = some "HS384" ∧
      jwt.signatureVerifies Toy.svcShort.lib Toy.svcShort.config.Secret Toy.hs384Token
        = true ∧
      Toy.svcShort.Reachable redis.Server.empty ∧
      Toy.svcShort.ValidateToken redis.Server.empty redis.Net.up Toy.t2 Toy.hs384Token
        = (none, some auth.ErrExpiredToken) := by
  have hreach : Toy.svcShort.Reachable redis.Server.empty := ⟨[], rfl⟩
  have hne : jwt.headerAlg Toy.svcShort.lib Toy.hs384Token ≠ some "HS256" := by
    rw [auth.toy_hs384_alg]
    decide
  refine ⟨auth.toy_hs384_alg, auth.toy_hs384_verifies, hreach, ?_⟩
  rw [auth.validateToken_other_alg Toy.svcShort Toy.lib_lawful _ hreach redis.Net.up Toy.t2 _
    hne]
  rw [if_pos auth.toy_hs384_expired]

/-- C13, amended: in every cache state reachable through `GenerateToken` and
`InvalidateToken`, a token whose header names a signing algorithm other than
HS256 is rejected and no claims are returned; the error is `ErrInvalidToken`,
except for a token of another HMAC variant whose signature verifies under the
configured secret and whose expires-at has been reached, which fails with
`ErrExpiredToken`. -/
theorem C13_other_algorithm_rejected (s : auth.JWTService) (hL : s.lib.Lawful)
    (r : database.RedisClient) (net : redis.Net) (now : Int) (T : String) (alg : String)
    (hr : s.Reachable r)
    (halg : jwt.headerAlg s.lib T = some alg) (hne : alg ≠ "HS256") :
    s.ValidateToken r net now T =
      (none, some (if jwt.signatureVerifies s.lib s.config.Secret T = true ∧
          jwt.expiredAt s.lib now T = true then auth.ErrExpiredToken
        else auth.ErrInvalidToken)) ∧
      (jwt.signatureVerifies s.lib s.config.Secret T = true →
        alg = "HS384" ∨ alg = "HS512") := by
  refine ⟨auth.validateToken_other_alg s hL r hr net now T ?_, ?_⟩
  · rw [halg]
    intro h
    exact hne (Option.some.inj h)
  · intro hv
    unfold jwt.signatureVerifies at hv
    unfold jwt.headerAlg at halg
    cases hs : jwt.splitToken T with
    | none => simp [hs] at hv
    | some p =>
      obtain ⟨p0, p1, p2⟩ := p
      simp only [hs] at hv halg
      cases hh : (s.lib.DecodeSegment p0).bind s.lib.UnmarshalHeader with
      | none => simp [hh] at hv
      | some header =>
        simp only [hh, Option.some_bind] at hv halg
        rw [halg] at hv
        simp only [Option.some_bind, jwt.GetSigningMethod] at hv
        by_cases h1 : alg = "HS256"
        · exact absurd h1 hne
        · by_cases h2 : alg = "HS384"
          · exact Or.inl h2
          · by_cases h3 : alg = "HS512"
            · exact Or.inr h3
            · simp only [h1, h2, h3, if_false] at hv
              split at hv
              · rename_i hq
                split at hq <;> simp at hq
              · simp at hv

/-- C13 amended, on the executable instance: the HS384 token of the
counterexample, presented before its expiry to a cache that holds the token
issued to identity 42. -/
theorem C13_other_algorithm_rejected_witness :
    Toy.svcShort.ValidateToken
        (Toy.svcShort.run redis.Server.empty [auth.Op.generate redis.Net.up Toy.t0 42])
        redis.Net.up Toy.t0 Toy.hs384Token
      = (none, some (if jwt.signatureVerifies Toy.svcShort.lib Toy.svcShort.config.Secret
            Toy.hs384Token = true ∧ jwt.expiredAt Toy.svcShort.lib Toy.t0 Toy.hs384Token = true
          then auth.ErrExpiredToken else auth.ErrInvalidToken)) :=
  (C13_other_algorithm_rejected Toy.svcShort Toy.lib_lawful _ redis.Net.up Toy.t0
    Toy.hs384Token "HS384" ⟨_, rfl⟩ auth.toy_hs384_alg (by decide)).1

end GoService

/-! ## What an issuance signs and writes -/

namespace GoService

/-- C14 fails as stated. The token issued to identity 42 at `t0`, a quarter of a
second past a whole second, carries an issued-at, a not-before and an
expires-at that are whole seconds: the first two are a quarter of a second
before `t0`, the third a quarter of a second before `t0` plus the hour the
tokens live. -/
theorem C14_counterexample :
    (Toy.svc.GenerateToken redis.Server.empty redis.Net.up Toy.t0 42).1
        = (Toy.svc.tokenFor Toy.t0 42, none) ∧
      ∃ c, jwt.unverifiedClaims Toy.lib (Toy.svc.tokenFor Toy.t0 42) = some c ∧
        c.IssuedAt = some (Toy.t0 - 250000000) ∧ c.IssuedAt ≠ some Toy.t0 ∧
        c.NotBefore = some (Toy.t0 - 250000000) ∧ c.NotBefore ≠ some Toy.t0 ∧
        c.ExpiresAt = some (Toy.t0 + Hour - 250000000) ∧ c.ExpiresAt ≠ some (Toy.t0 + Hour) := by
  refine ⟨by rw [auth.generateToken_up], auth.newClaims Toy.svc Toy.t0 42,
    auth.unverifiedClaims_tokenFor Toy.svc Toy.lib_lawful Toy.t0 42, ?_, ?_, ?_, ?_, ?_, ?_⟩ <;>
  decide

/-- C14, amended: the claims signed by `GenerateToken` for identity `i` at `now`
have user_id `i` and subject the decimal text of `i`; issued-at and not-before
are `now` truncated to the whole second, expires-at is `now` plus the
configured expiry truncated to the whole second; they equal `now`, and `now`
plus the expiry, exactly when these are whole seconds. -/
theorem C14_claims_signed (s : auth.JWTService) (hL : s.lib.Lawful)
    (r r' : database.RedisClient) (net : redis.Net) (now : Int) (i : Int) (T : String)
    (hgen : s.GenerateToken r net now i = ((T, none), r')) :
    ∃ c, jwt.unverifiedClaims s.lib T = some c ∧
      c.UserID = i ∧ c.Subject = FormatInt i ∧
      c.IssuedAt = some (now - now % Second) ∧
      c.NotBefore = some (now - now % Second) ∧
      c.ExpiresAt = some (now + s.config.Expiration - (now + s.config.Expiration) % Second) ∧
      (c.IssuedAt = some now ↔ now % Second = 0) ∧
      (c.NotBefore = some now ↔ now % Second = 0) ∧
      (c.ExpiresAt = some (now + s.config.Expiration) ↔
        (now + s.config.Expiration) % Second = 0) := by
  obtain ⟨hT, _⟩ := auth.generateToken_ok s r r' net now i T hgen
  subst hT
  have hs : ¬ (Second ≤ 0) := by decide
  have htr : ∀ t : Int, jwt.NewNumericDate t = t - t % Second := by
    intro t
    simp only [jwt.NewNumericDate, Truncate, jwt.TimePrecision, hs, if_false]
  refine ⟨auth.newClaims s now i, auth.unverifiedClaims_tokenFor s hL now i, rfl, rfl, ?_, ?_,
    ?_, ?_, ?_, ?_⟩
  · simp only [auth.newClaims, htr]
  · simp only [auth.newClaims, htr]
  · simp only [auth.newClaims, htr]
  · simp only [auth.newClaims, htr, Option.some.injEq]
    constructor <;> intro h <;> linarith
  · simp only [auth.newClaims, htr, Option.some.injEq]
    constructor <;> intro h <;> linarith
  · simp only [auth.newClaims, htr, Option.some.injEq]
    constructor <;> intro h <;> linarith

/-- C14 amended, on the executable instance: identity 42 at `t0`. -/
theorem C14_claims_signed_witness :
    ∃ c, jwt.unverifiedClaims Toy.svc.lib (Toy.svc.tokenFor Toy.t0 42) = some c ∧
      c.UserID = 42 ∧ c.Subject = FormatInt 42 ∧
      c.IssuedAt = some (Toy.t0 - Toy.t0 % Second) ∧
      c.NotBefore = some (Toy.t0 - Toy.t0 % Second) ∧
      c.ExpiresAt = some (Toy.t0 + Toy.svc.config.Expiration
        - (Toy.t0 + Toy.svc.config.Expiration) % Second) ∧
      (c.IssuedAt = some Toy.t0 ↔ Toy.t0 % Second = 0) ∧
      (c.NotBefore = some Toy.t0 ↔ Toy.t0 % Second = 0) ∧
      (c.ExpiresAt = some (Toy.t0 + Toy.svc.config.Expiration) ↔
        (Toy.t0 + Toy.svc.config.Expiration) % Second = 0) :=
  C14_claims_signed Toy.svc Toy.lib_lawful redis.Server.empty _ redis.Net.up Toy.t0 42 _
    (auth.generateToken_up Toy.svc redis.Server.empty Toy.t0 42)

namespace redis

theorem setExpireAt_exact (s : Server) (now : Int) (key : String) (expiration : Int)
    (hpos : 0 < expiration) (hms : expiration % Millisecond = 0) :
    setExpireAt s now key expiration = some (now + expiration) := by
  have hpos' : (0 : Int) < expiration := hpos
  have hms' : expiration % (1000000 : Int) = 0 := hms
  have e1 : expiration / (1000000 : Int) * (1000000 : Int) = expiration := by omega
  have hm : ¬ ((0 : Int) < expiration ∧ expiration < (1000000 : Int)) := by omega
  unfold setExpireAt
  rw [if_pos hpos]
  by_cases hp : usePrecise expiration = true
  · rw [if_pos hp]
    unfold formatMs Millisecond
    rw [if_neg hm, e1]
  · rw [if_neg hp]
    have hp' : ¬ (expiration < (1000000000 : Int)) ∧ expiration % (1000000000 : Int) = 0 := by
      simp only [usePrecise, Second, Bool.or_eq_true, decide_eq_true_eq, not_or, ne_eq,
        Decidable.not_not] at hp
      exact hp
    have hs : ¬ ((0 : Int) < expiration ∧ expiration < (1000000000 : Int)) := by omega
    have e2 : expiration / (1000000000 : Int) * (1000000000 : Int) = expiration := by omega
    unfold formatSec Second
    rw [if_neg hs, e2]

end redis

namespace redis

theorem writes_set (s : Server) (now : Int) (key value : String) (expiration : Int) :
    (s.set now key value expiration).writes
      = s.writes ++ [Command.set key value (setExpiry expiration)] := rfl

/-- The expiry argument `Client.Set` sends, by the cases of the expiration. -/
theorem setExpiry_cases (expiration : Int) :
    (0 < expiration → expiration % Second = 0 →
        setExpiry expiration = Expiry.ex (expiration / Second)) ∧
      (Millisecond ≤ expiration → expiration % Second ≠ 0 →
        setExpiry expiration = Expiry.px (expiration / Millisecond)) ∧
      (0 < expiration → expiration < Millisecond → setExpiry expiration = Expiry.px 1) ∧
      (expiration = -1 → setExpiry expiration = Expiry.keepttl) ∧
      (expiration ≤ 0 → expiration ≠ -1 → setExpiry expiration = Expiry.never) := by
  refine ⟨?_, ?_, ?_, ?_, ?_⟩
  · intro hpos hs
    have hs' : expiration % (1000000000 : Int) = 0 := hs
    have hge : ¬ (expiration < (1000000000 : Int)) := by omega
    have hp : usePrecise expiration = false := by
      simp [usePrecise, Second, hs', hge]
    unfold setExpiry
    rw [if_pos hpos, hp]
    simp [formatSec, Second, hge]
  · intro hm hs
    have hm' : (1000000 : Int) ≤ expiration := hm
    have hp : usePrecise expiration = true := by
      simp [usePrecise, hs]
    unfold setExpiry
    rw [if_pos (by omega), hp]
    have : ¬ (expiration < (1000000 : Int)) := by omega
    simp [formatMs, Millisecond, this]
  · intro hpos hm
    have hm' : expiration < (1000000 : Int) := hm
    have hp : usePrecise expiration = true := by
      have : expiration < (1000000000 : Int) := by omega
      simp [usePrecise, Second, this]
    unfold setExpiry
    rw [if_pos hpos, hp]
    simp [formatMs, Millisecond, hpos, hm']
  · intro h
    rw [h]
    rfl
  · intro h0 h1
    unfold setExpiry
    rw [if_neg (by omega), if_neg (by simpa [KeepTTL] using h1)]

/-- The record a `SET` writes expires exactly the expiration later if and only if
the expiration is a positive whole number of milliseconds. -/
theorem setExpireAt_exact_iff (s : Server) (now : Int) (key : String) (expiration : Int) :
    setExpireAt s now key expiration = some (now + expiration) ↔
      0 < expiration ∧ expiration % Millisecond = 0 := by
  constructor
  · intro h
    by_cases hpos : 0 < expiration
    · refine ⟨hpos, ?_⟩
      show expiration % (1000000 : Int) = 0
      unfold setExpireAt at h
      rw [if_pos hpos] at h
      by_cases hp : usePrecise expiration = true
      · rw [if_pos hp] at h
        unfold formatMs Millisecond at h
        by_cases hm : (0 : Int) < expiration ∧ expiration < (1000000 : Int)
        · rw [if_pos hm] at h
          simp only [Option.some.injEq] at h
          omega
        · rw [if_neg hm] at h
          simp only [Option.some.injEq] at h
          omega
      · have hp' : ¬ (expiration < (1000000000 : Int)) ∧
            expiration % (1000000000 : Int) = 0 := by
          simp only [usePrecise, Second, Bool.or_eq_true, decide_eq_true_eq, not_or, ne_eq,
            Decidable.not_not] at hp
          exact hp
        omega
    · exfalso
      unfold setExpireAt at h
      rw [if_neg hpos] at h
      by_cases hk : expiration = KeepTTL
      · rw [if_pos hk] at h
        have hk' : expiration = -1 := hk
        unfold Server.live at h
        cases hd : s.data key with
        | none => simp [hd] at h
        | some e =>
          cases he : e.expireAt with
          | none => simp [hd, he] at h
          | some t =>
            by_cases hlt : now < t
            · simp [hd, he, hlt] at h
              omega
            · simp [hd, he, hlt] at h
      · rw [if_neg hk] at h
        cases h
  · rintro ⟨hpos, hms⟩
    exact setExpireAt_exact s now key expiration hpos hms

end redis

/-- C15 fails as stated. The service whose configured expiry is a millisecond and
a half issues a token for identity 42 over a working cache: the one write the
cache executes is `SET key token PX 1`, and the record expires one millisecond
after the write, not a millisecond and a half. -/
theorem C15_counterexample :
    Toy.svcOdd.GenerateToken redis.Server.empty redis.Net.up Toy.t0 42 =
        ((Toy.svcOdd.tokenFor Toy.t0 42, none),
          redis.Server.set redis.Server.empty Toy.t0 (auth.tokenKey 42)
            (Toy.svcOdd.tokenFor Toy.t0 42) 1500000) ∧
      (redis.Server.set redis.Server.empty Toy.t0 (auth.tokenKey 42)
          (Toy.svcOdd.tokenFor Toy.t0 42) 1500000).writes
        = [redis.Command.set (auth.tokenKey 42) (Toy.svcOdd.tokenFor Toy.t0 42)
            (redis.Expiry.px 1)] ∧
      (redis.Server.set redis.Server.empty Toy.t0 (auth.tokenKey 42)
          (Toy.svcOdd.tokenFor Toy.t0 42) 1500000).data (auth.tokenKey 42)
        = some { value := Toy.svcOdd.tokenFor Toy.t0 42
                 expireAt := some (Toy.t0 + 1000000) } ∧
      Toy.svcOdd.config.Expiration = 1500000 ∧
      Toy.t0 + 1000000 ≠ Toy.t0 + Toy.svcOdd.config.Expiration := by
  refine ⟨auth.generateToken_up Toy.svcOdd redis.Server.empty Toy.t0 42, ?_, ?_, rfl,
    by decide⟩
  · rw [redis.writes_set]
    rfl
  · rw [redis.data_set_same]
    rfl

/-- C15, amended: a successful `GenerateToken` makes the cache execute exactly
one more write command, the `SET` of the key "token:valid:" followed by the
decimal text of the identity to the very string returned, with the expiry
argument the driver forms from the configured expiry: `EX` in whole seconds for
a positive whole number of seconds, otherwise `PX` in whole milliseconds
rounded down (1 under a millisecond), `KEEPTTL` for -1, none for any other
expiry that is not positive. The record under that key is the returned string,
whatever was stored there, every other key is untouched, and the record
expires exactly the configured expiry after the write if and only if that
expiry is a positive whole number of milliseconds. -/
theorem C15_one_cache_write (s : auth.JWTService) (r r' : database.RedisClient)
    (net : redis.Net) (now : Int) (i : Int) (T : String)
    (hgen : s.GenerateToken r net now i = ((T, none), r')) :
    r.Set net now ("token:valid:" ++ FormatInt i) T s.config.Expiration = (none, r') ∧
      r'.writes = r.writes ++
        [redis.Command.set ("token:valid:" ++ FormatInt i) T
          (redis.setExpiry s.config.Expiration)] ∧
      ((0 < s.config.Expiration → s.config.Expiration % Second = 0 →
          redis.setExpiry s.config.Expiration = redis.Expiry.ex (s.config.Expiration / Second)) ∧
        (Millisecond ≤ s.config.Expiration → s.config.Expiration % Second ≠ 0 →
          redis.setExpiry s.config.Expiration
            = redis.Expiry.px (s.config.Expiration / Millisecond)) ∧
        (0 < s.config.Expiration → s.config.Expiration < Millisecond →
          redis.setExpiry s.config.Expiration = redis.Expiry.px 1) ∧
        (s.config.Expiration = -1 →
          redis.setExpiry s.config.Expiration = redis.Expiry.keepttl) ∧
        (s.config.Expiration ≤ 0 → s.config.Expiration ≠ -1 →
          redis.setExpiry s.config.Expiration = redis.Expiry.never)) ∧
      r'.data ("token:valid:" ++ FormatInt i) =
        some { value := T,
               expireAt := redis.setExpireAt r now ("token:valid:" ++ FormatInt i)
                 s.config.Expiration } ∧
      (∀ k, k ≠ "token:valid:" ++ FormatInt i → r'.data k = r.data k) ∧
      (r'.data ("token:valid:" ++ FormatInt i) =
          some { value := T, expireAt := some (now + s.config.Expiration) } ↔
        0 < s.config.Expiration ∧ s.config.Expiration % Millisecond = 0) := by
  obtain ⟨hT, hr⟩ := auth.generateToken_ok s r r' net now i T hgen
  have hnet : net = redis.Net.up := by
    rw [auth.generateToken_eq] at hgen
    cases net with
    | up => rfl
    | down msg => simp [redis.Net.err] at hgen
    | replyLost msg => simp [redis.Net.err] at hgen
  subst hT hr hnet
  have hk : auth.tokenKey i = "token:valid:" ++ FormatInt i := rfl
  rw [← hk]
  refine ⟨rfl, redis.writes_set _ _ _ _ _, redis.setExpiry_cases _,
    redis.data_set_same _ _ _ _ _, ?_, ?_⟩
  · intro k hne
    exact redis.data_set_other _ _ _ _ _ _ hne
  · rw [redis.data_set_same, ← redis.setExpireAt_exact_iff r now (auth.tokenKey i)]
    constructor
    · intro h
      simp only [Option.some.injEq, redis.Entry.mk.injEq, true_and] at h
      exact h
    · intro h
      rw [h]

/-- C15 amended, on the executable instance: identity 42 logs in while the cache
holds an older record for it; the expiry of one hour goes out as `EX 3600`. -/
theorem C15_one_cache_write_witness :
    (redis.Server.set
        (redis.Server.set redis.Server.empty 0 (auth.tokenKey 42) "older" Hour)
        Toy.t0 (auth.tokenKey 42) (Toy.svc.tokenFor Toy.t0 42) Toy.svc.config.Expiration).writes
      = (redis.Server.set redis.Server.empty 0 (auth.tokenKey 42) "older" Hour).writes ++
          [redis.Command.set ("token:valid:" ++ FormatInt 42) (Toy.svc.tokenFor Toy.t0 42)
            (redis.setExpiry Toy.svc.config.Expiration)] ∧
      redis.setExpiry Toy.svc.config.Expiration
        = redis.Expiry.ex (Toy.svc.config.Expiration / Second) ∧
      (redis.Server.set
        (redis.Server.set redis.Server.empty 0 (auth.tokenKey 42) "older" Hour)
        Toy.t0 (auth.tokenKey 42) (Toy.svc.tokenFor Toy.t0 42) Toy.svc.config.Expiration).data
        ("token:valid:" ++ FormatInt 42)
      = some { value := Toy.svc.tokenFor Toy.t0 42,
               expireAt := some (Toy.t0 + Toy.svc.config.Expiration) } :=
  ⟨(C15_one_cache_write Toy.svc
      (redis.Server.set redis.Server.empty 0 (auth.tokenKey 42) "older" Hour) _ redis.Net.up
      Toy.t0 42 _ (auth.generateToken_up Toy.svc _ Toy.t0 42)).2.1,
    (C15_one_cache_write Toy.svc
      (redis.Server.set redis.Server.empty 0 (auth.tokenKey 42) "older" Hour) _ redis.Net.up
      Toy.t0 42 _ (auth.generateToken_up Toy.svc _ Toy.t0 42)).2.2.1.1 (by decide) (by decide),
    (C15_one_cache_write Toy.svc
      (redis.Server.set redis.Server.empty 0 (auth.tokenKey 42) "older" Hour) _ redis.Net.up
      Toy.t0 42 _ (auth.generateToken_up Toy.svc _ Toy.t0 42)).2.2.2.2.2.mpr
      ⟨by decide, by decide⟩⟩

end GoService

/-! ## The middleware -/

namespace GoService
namespace middleware

theorem bearerToken_iff (h tok : String) :
    bearerToken h = some tok ↔ strings.Split h ' ' = ["Bearer", tok] := by
  unfold bearerToken
  constructor
  · intro hb
    split at hb
    · rename_i scheme t hs
      split at hb
      · rename_i hsch
        simp only [Option.some.injEq] at hb
        rw [hs, hsch, hb]
      · cases hb
    · cases hb
  · intro hs
    rw [hs]
    simp

theorem bearerToken_none_iff (h : String) :
    bearerToken h = none ↔
      ((strings.Split h ' ').length ≠ 2 ∨ (strings.Split h ' ').getD 0 "" ≠ "Bearer") := by
  unfold bearerToken
  cases hs : strings.Split h ' ' with
  | nil => simp
  | cons a l1 =>
    cases l1 with
    | nil => simp
    | cons b l2 =>
      cases l2 with
      | nil =>
        by_cases ha : a = "Bearer"
        · simp [ha]
        · simp [ha]
      | cons c l3 => simp

theorem bearerToken_empty : bearerToken "" = none := by decide

theorem requireAuth_no_header (m : Middleware) (cache : database.RedisClient) (net : redis.Net)
    (now : Int) (r : http.Request) (h : r.Header.Get "Authorization" = "") :
    m.RequireAuth cache net now r =
      [Event.write
        (response.ErrorResponse http.StatusUnauthorized "Authorization header required")] := by
  unfold Middleware.RequireAuth
  simp only [h, if_true]

theorem requireAuth_bad_format (m : Middleware) (cache : database.RedisClient) (net : redis.Net)
    (now : Int) (r : http.Request) (h : r.Header.Get "Authorization" ≠ "")
    (hb : bearerToken (r.Header.Get "Authorization") = none) :
    m.RequireAuth cache net now r =
      [Event.write
        (response.ErrorResponse http.StatusUnauthorized
          "Invalid authorization header format")] := by
  unfold Middleware.RequireAuth
  simp only [h, if_false]
  rw [if_pos ((bearerToken_none_iff _).mp hb)]

theorem requireAuth_bearer (m : Middleware) (cache : database.RedisClient) (net : redis.Net)
    (now : Int) (r : http.Request) (tok : String)
    (hb : bearerToken (r.Header.Get "Authorization") = some tok) :
    m.RequireAuth cache net now r =
      match m.jwtService.ValidateToken cache net now tok with
      | (claims, err) =>
        match err with
        | some err =>
          [Event.validateToken tok,
            Event.write (response.ErrorResponse
              (if err = auth.ErrExpiredToken then http.StatusUnauthorized
                else http.StatusForbidden)
              (if err = auth.ErrExpiredToken then "Token has expired" else "Invalid token"))]
        | none =>
          match claims with
          | none => [Event.validateToken tok, Event.nilDereference]
          | some claims =>
            [Event.validateToken tok,
              Event.serveNext
                (context.WithValue r.ctx UserIDKey (context.Value.int64 claims.UserID))] := by
  have hs := (bearerToken_iff _ _).mp hb
  have hne : r.Header.Get "Authorization" ≠ "" := by
    intro h0
    rw [h0, bearerToken_empty] at hb
    cases hb
  unfold Middleware.RequireAuth
  simp only [hne, if_false, hs]
  rw [if_neg (by simp)]
  simp only [List.getD_cons_succ, List.getD_cons_zero]
  rcases m.jwtService.ValidateToken cache net now tok with ⟨claims, err⟩
  cases err with
  | none => cases claims <;> rfl
  | some e =>
    simp only
    by_cases he : e = auth.ErrExpiredToken
    · simp [he]
    · simp [he]

theorem requireAuth_accept (m : Middleware) (cache : database.RedisClient) (net : redis.Net)
    (now : Int) (r : http.Request) (tok : String) (c : Claims)
    (hb : bearerToken (r.Header.Get "Authorization") = some tok)
    (hv : m.jwtService.ValidateToken cache net now tok = (some c, none)) :
    m.RequireAuth cache net now r =
      [Event.validateToken tok,
        Event.serveNext (context.WithValue r.ctx UserIDKey (context.Value.int64 c.UserID))] := by
  rw [requireAuth_bearer m cache net now r tok hb, hv]

theorem requireAuth_reject (m : Middleware) (cache : database.RedisClient) (net : redis.Net)
    (now : Int) (r : http.Request) (tok : String) (e : auth.Error)
    (hb : bearerToken (r.Header.Get "Authorization") = some tok)
    (hv : (m.jwtService.ValidateToken cache net now tok).2 = some e) :
    m.RequireAuth cache net now r =
      [Event.validateToken tok,
        Event.write (response.ErrorResponse
          (if e = auth.ErrExpiredToken then http.StatusUnauthorized else http.StatusForbidden)
          (if e = auth.ErrExpiredToken then "Token has expired" else "Invalid token"))] := by
  rw [requireAuth_bearer m cache net now r tok hb]
  rcases hx : m.jwtService.ValidateToken cache net now tok with ⟨claims, err⟩
  rw [hx] at hv
  simp only at hv
  subst hv
  rfl

theorem getUserID_withValue (ctx : context.Context) (v : Int) :
    GetUserID (context.WithValue ctx UserIDKey (context.Value.int64 v)) = (v, true) := by
  simp [GetUserID, context.Context.Value, context.WithValue, List.lookup]

theorem validateToken_garbage (s : auth.JWTService) (cache : database.RedisClient)
    (net : redis.Net) (now : Int) :
    s.ValidateToken cache net now "garbage" = (none, some auth.ErrInvalidToken) := by
  have hsig : jwt.signatureVerifies s.lib s.config.Secret "garbage" = false := by
    unfold jwt.signatureVerifies
    have : jwt.splitToken "garbage" = none := by decide
    rw [this]
  obtain ⟨err, he, hx⟩ := auth.parse_of_not_verifies s now "garbage" hsig
  rw [auth.validateToken_eq, he]
  simp [hx]

end middleware
end GoService

namespace GoService

/-- C16: the handler built by `RequireAuth` calls the next handler if and only if
the Authorization header is present, has the form `Bearer <token>` and
`ValidateToken` succeeds on the token; it then calls it once, with a context on
which `GetUserID` returns the identity of the claims and `true`. Without a
header the request is answered 401 "Authorization header required", and the
header `Bearer garbage` is answered 403; the next handler is called in neither
case. -/
theorem C16_next_iff_authenticated (m : middleware.Middleware) (cache : database.RedisClient)
    (net : redis.Net) (now : Int) (r : http.Request) :
    (middleware.nextCalls (m.RequireAuth cache net now r) ≠ [] ↔
        ∃ tok, r.Header.Get "Authorization" ≠ "" ∧
          middleware.bearerToken (r.Header.Get "Authorization") = some tok ∧
          (m.jwtService.ValidateToken cache net now tok).2 = none) ∧
      (∀ ctx, ctx ∈ middleware.nextCalls (m.RequireAuth cache net now r) →
        middleware.nextCalls (m.RequireAuth cache net now r) = [ctx] ∧
          ∃ tok claims, middleware.bearerToken (r.Header.Get "Authorization") = some tok ∧
            m.jwtService.ValidateToken cache net now tok = (some claims, none) ∧
            middleware.GetUserID ctx = (claims.UserID, true)) ∧
      (r.Header.Get "Authorization" = "" →
        m.RequireAuth cache net now r =
          [middleware.Event.write
            (response.ErrorResponse 401 "Authorization header required")]) ∧
      (r.Header.Get "Authorization" = "Bearer garbage" →
        m.RequireAuth cache net now r =
          [middleware.Event.validateToken "garbage",
            middleware.Event.write (response.ErrorResponse 403 "Invalid token")]) := by
  have key : ∀ ctx, ctx ∈ middleware.nextCalls (m.RequireAuth cache net now r) →
      middleware.nextCalls (m.RequireAuth cache net now r) = [ctx] ∧
        ∃ tok claims, middleware.bearerToken (r.Header.Get "Authorization") = some tok ∧
          m.jwtService.ValidateToken cache net now tok = (some claims, none) ∧
          middleware.GetUserID ctx = (claims.UserID, true) := by
    intro ctx hctx
    by_cases h0 : r.Header.Get "Authorization" = ""
    · rw [middleware.requireAuth_no_header m cache net now r h0] at hctx
      simp [middleware.nextCalls] at hctx
    · cases hb : middleware.bearerToken (r.Header.Get "Authorization") with
      | none =>
        rw [middleware.requireAuth_bad_format m cache net now r h0 hb] at hctx
        simp [middleware.nextCalls] at hctx
      | some tok =>
        rcases auth.validateToken_result m.jwtService cache net now tok with ⟨c, hv⟩ | hv | hv
        · rw [middleware.requireAuth_accept m cache net now r tok c hb hv] at hctx ⊢
          simp only [middleware.nextCalls, List.filterMap_cons, List.filterMap_nil,
            List.mem_singleton] at hctx ⊢
          subst hctx
          exact ⟨rfl, tok, c, rfl, hv, middleware.getUserID_withValue _ _⟩
        · rw [middleware.requireAuth_reject m cache net now r tok _ hb
            (by rw [hv])] at hctx
          simp [middleware.nextCalls] at hctx
        · rw [middleware.requireAuth_reject m cache net now r tok _ hb
            (by rw [hv])] at hctx
          simp [middleware.nextCalls] at hctx
  refine ⟨⟨?_, ?_⟩, key, ?_, ?_⟩
  · intro hne
    cases hl : middleware.nextCalls (m.RequireAuth cache net now r) with
    | nil => exact absurd hl hne
    | cons ctx rest =>
      obtain ⟨_, tok, c, hb, hv, _⟩ := key ctx (by rw [hl]; exact List.mem_cons_self _ _)
      refine ⟨tok, ?_, hb, by rw [hv]⟩
      intro h0
      rw [h0, middleware.bearerToken_empty] at hb
      cases hb
  · rintro ⟨tok, _, hb, hv⟩
    rcases auth.validateToken_result m.jwtService cache net now tok with ⟨c, hc⟩ | hc | hc
    · rw [middleware.requireAuth_accept m cache net now r tok c hb hc]
      simp [middleware.nextCalls]
    · rw [hc] at hv; cases hv
    · rw [hc] at hv; cases hv
  · intro h0
    exact middleware.requireAuth_no_header m cache net now r h0
  · intro hg
    have hb : middleware.bearerToken (r.Header.Get "Authorization") = some "garbage" := by
      rw [hg]
      decide
    rw [middleware.requireAuth_reject m cache net now r "garbage" auth.ErrInvalidToken hb
      (by rw [middleware.validateToken_garbage])]
    rfl

namespace middleware

set_option maxRecDepth 1000000 in
theorem toy_bearer_brief :
    bearerToken ("Bearer " ++ Toy.svcBrief.tokenFor Toy.early 42)
      = some (Toy.svcBrief.tokenFor Toy.early 42) ∧
      "Bearer " ++ Toy.svcBrief.tokenFor Toy.early 42 ≠ "" := by
  decide

theorem get_withAuthorization (v : String) :
    (http.Request.withAuthorization [v]).Header.Get "Authorization" = v := by
  simp [http.Request.withAuthorization, http.Header.Get]

end middleware

/-- C16, on the executable instance: identity 42 presents the token it has just
been issued, and the next handler is called. -/
theorem C16_next_iff_authenticated_witness :
    middleware.nextCalls
        (Toy.mwBrief.RequireAuth
          (redis.Server.set redis.Server.empty Toy.early (auth.tokenKey 42)
            (Toy.svcBrief.tokenFor Toy.early 42) Toy.svcBrief.config.Expiration)
          redis.Net.up Toy.early
          (http.Request.withAuthorization ["Bearer " ++ Toy.svcBrief.tokenFor Toy.early 42]))
      ≠ [] :=
  (C16_next_iff_authenticated Toy.mwBrief _ redis.Net.up Toy.early
    (http.Request.withAuthorization ["Bearer " ++ Toy.svcBrief.tokenFor Toy.early 42])).1.mpr
    ⟨Toy.svcBrief.tokenFor Toy.early 42,
      by rw [middleware.get_withAuthorization]; exact middleware.toy_bearer_brief.2,
      by rw [middleware.get_withAuthorization]; exact middleware.toy_bearer_brief.1,
      by
        show (Toy.svcBrief.ValidateToken _ redis.Net.up Toy.early
          (Toy.svcBrief.tokenFor Toy.early 42)).2 = none
        rw [auth.validateToken_fresh Toy.svcBrief Toy.lib_lawful redis.Server.empty Toy.early
          Toy.early 42 (by decide) (by decide) (by decide)]⟩

/-- C17: for a non-empty Authorization header value, the handler writes the
JSON answer with status code 401, status "error", code 401 and message
"Invalid authorization header format", and nothing else happens, if and only
if the value does not have exactly two parts separated by a space or its first
part is not `Bearer`; otherwise `ValidateToken` is called on the second part.
So `bearer x`, `Bearer  x` with two spaces and `Bearer a b` are format errors,
and `Bearer ` with nothing behind the space is passed to validation with the
empty token. -/
theorem C17_header_format (m : middleware.Middleware) (cache : database.RedisClient)
    (net : redis.Net) (now : Int) (r : http.Request)
    (h : r.Header.Get "Authorization" ≠ "") :
    (m.RequireAuth cache net now r =
          [middleware.Event.write
            ({ contentType := "application/json"
               statusCode := 401
               body := { Status := "error", Code := 401
                         Message := "Invalid authorization header format", Data := none } } :
              response.Written)] ↔
        ((strings.Split (r.Header.Get "Authorization") ' ').length ≠ 2 ∨
          (strings.Split (r.Header.Get "Authorization") ' ').getD 0 "" ≠ "Bearer")) ∧
      (((strings.Split (r.Header.Get "Authorization") ' ').length ≠ 2 ∨
          (strings.Split (r.Header.Get "Authorization") ' ').getD 0 "" ≠ "Bearer") →
        middleware.validateCalls (m.RequireAuth cache net now r) = []) ∧
      (¬ ((strings.Split (r.Header.Get "Authorization") ' ').length ≠ 2 ∨
          (strings.Split (r.Header.Get "Authorization") ' ').getD 0 "" ≠ "Bearer") →
        middleware.validateCalls (m.RequireAuth cache net now r) =
          [(strings.Split (r.Header.Get "Authorization") ' ').getD 1 ""]) ∧
      (r.Header.Get "Authorization" = "bearer x" ∨
        r.Header.Get "Authorization" = "Bearer  x" ∨
        r.Header.Get "Authorization" = "Bearer a b" →
          m.RequireAuth cache net now r =
            [middleware.Event.write
            ({ contentType := "application/json"
               statusCode := 401
               body := { Status := "error", Code := 401
                         Message := "Invalid authorization header format", Data := none } } :
              response.Written)]) ∧
      (r.Header.Get "Authorization" = "Bearer " →
        middleware.validateCalls (m.RequireAuth cache net now r) = [""]) := by
  have hbad : middleware.bearerToken (r.Header.Get "Authorization") = none →
      m.RequireAuth cache net now r =
        [middleware.Event.write
          (response.ErrorResponse 401 "Invalid authorization header format")] :=
    fun hb => middleware.requireAuth_bad_format m cache net now r h hb
  have hgood : ∀ tok, middleware.bearerToken (r.Header.Get "Authorization") = some tok →
      ∃ rest, m.RequireAuth cache net now r = middleware.Event.validateToken tok :: rest ∧
        middleware.validateCalls rest = [] := by
    intro tok hb
    rcases auth.validateToken_result m.jwtService cache net now tok with ⟨c, hv⟩ | hv | hv
    · exact ⟨_, middleware.requireAuth_accept m cache net now r tok c hb hv, rfl⟩
    · exact ⟨_, middleware.requireAuth_reject m cache net now r tok _ hb (by rw [hv]), rfl⟩
    · exact ⟨_, middleware.requireAuth_reject m cache net now r tok _ hb (by rw [hv]), rfl⟩
  refine ⟨⟨?_, ?_⟩, ?_, ?_, ?_, ?_⟩
  · intro he
    cases hb : middleware.bearerToken (r.Header.Get "Authorization") with
    | none => exact (middleware.bearerToken_none_iff _).mp hb
    | some tok =>
      obtain ⟨rest, hr, _⟩ := hgood tok hb
      rw [hr] at he
      cases he
  · intro hf
    exact hbad ((middleware.bearerToken_none_iff _).mpr hf)
  · intro hf
    rw [hbad ((middleware.bearerToken_none_iff _).mpr hf)]
    rfl
  · intro hf
    cases hb : middleware.bearerToken (r.Header.Get "Authorization") with
    | none => exact absurd ((middleware.bearerToken_none_iff _).mp hb) hf
    | some tok =>
      obtain ⟨rest, hr, hrest⟩ := hgood tok hb
      have hs := (middleware.bearerToken_iff _ _).mp hb
      rw [hr, hs]
      simp [middleware.validateCalls] at hrest ⊢
      exact hrest
  · intro hx
    apply hbad
    rcases hx with hx | hx | hx <;> rw [hx] <;> decide
  · intro hx
    have hb : middleware.bearerToken (r.Header.Get "Authorization") = some "" := by
      rw [hx]
      decide
    obtain ⟨rest, hr, hrest⟩ := hgood "" hb
    rw [hr]
    simp [middleware.validateCalls] at hrest ⊢
    exact hrest

/-- C17, on the executable instance: the header `Bearer a b` is answered 401
"Invalid authorization header format". -/
theorem C17_header_format_witness :
    Toy.mw.RequireAuth redis.Server.empty redis.Net.up Toy.t0
        (http.Request.withAuthorization ["Bearer a b"])
      = [middleware.Event.write
            ({ contentType := "application/json"
               statusCode := 401
               body := { Status := "error", Code := 401
                         Message := "Invalid authorization header format", Data := none } } :
              response.Written)] :=
  (C17_header_format Toy.mw redis.Server.empty redis.Net.up Toy.t0
    (http.Request.withAuthorization ["Bearer a b"]) (by decide)).2.2.2.1
    (Or.inr (Or.inr rfl))

end GoService

namespace GoService

namespace auth

/-- A token whose signature verifies and whose expires-at has been reached
fails with `ErrExpiredToken`, whatever the cache. -/
theorem validateToken_expired (s : JWTService) (r : database.RedisClient) (net : redis.Net)
    (now : Int) (T : String)
    (hsig : jwt.signatureVerifies s.lib s.config.Secret T = true)
    (hexp : jwt.expiredAt s.lib now T = true) :
    s.ValidateToken r net now T = (none, some ErrExpiredToken) := by
  rw [validateToken_eq]
  cases hp : jwt.ParseWithClaims s.lib now T s.keyFunc with
  | error err =>
    have := (parse_error_expired_iff s now T err hp).mpr ⟨hsig, hexp⟩
    simp [this]
  | ok tok =>
    exfalso
    obtain ⟨_, hc, hval⟩ := verifies_of_parse s now T tok hp
    unfold jwt.expiredAt at hexp
    rw [hc] at hexp
    unfold jwt.Validate at hval
    cases hx : tok.Claims.ExpiresAt with
    | none => simp [hx] at hexp
    | some exp =>
      rw [hx] at hval
      simp only [hx, decide_eq_true_eq] at hexp
      simp [not_lt.mpr hexp] at hval

theorem validateToken_of_not_verifies (s : JWTService) (r : database.RedisClient)
    (net : redis.Net) (now : Int) (T : String)
    (hsig : jwt.signatureVerifies s.lib s.config.Secret T = false) :
    s.ValidateToken r net now T = (none, some ErrInvalidToken) := by
  obtain ⟨err, he, hx⟩ := parse_of_not_verifies s now T hsig
  rw [validateToken_eq, he]
  simp [hx]

theorem toy_abc_not_verifies :
    jwt.signatureVerifies Toy.svc.lib Toy.svc.config.Secret "a.b.c" = false := by
  decide

theorem toy_stale_expired (now : Int) (h : 0 ≤ now) :
    jwt.signatureVerifies Toy.svc.lib Toy.svc.config.Secret Toy.staleToken = true ∧
      jwt.expiredAt Toy.svc.lib now Toy.staleToken = true := by
  refine ⟨jwt.signatureVerifies_compact Toy.lib Toy.lib_lawful jwt.Hash.SHA256
    { ExpiresAt := some 0 } Toy.svc.config.Secret, ?_⟩
  have hc := jwt.unverifiedClaims_compact Toy.lib Toy.lib_lawful jwt.Hash.SHA256
    { ExpiresAt := some 0 } Toy.svc.config.Secret
  exact expiredAt_of_claims Toy.lib now Toy.staleToken _ 0 hc (by decide) h

end auth

namespace middleware

set_option maxRecDepth 100000 in
theorem toy_bearer_stale : bearerToken ("Bearer " ++ Toy.staleToken) = some Toy.staleToken := by
  decide

end middleware

/-- C18: for a request with a header of the form `Bearer <token>` whose token
fails validation, the handler answers 401 "Token has expired" when the error
is `ErrExpiredToken` and 403 "Invalid token" for every other error; the two
answers differ in status and in body, and the next handler is not called. -/
theorem C18_expired_answer_differs (m : middleware.Middleware) (cache : database.RedisClient)
    (net : redis.Net) (now : Int) (r : http.Request) (tok : String) (e : auth.Error)
    (hb : middleware.bearerToken (r.Header.Get "Authorization") = some tok)
    (hv : (m.jwtService.ValidateToken cache net now tok).2 = some e) :
    (e = auth.ErrExpiredToken →
        middleware.written (m.RequireAuth cache net now r) =
          [response.ErrorResponse 401 "Token has expired"]) ∧
      (e ≠ auth.ErrExpiredToken →
        middleware.written (m.RequireAuth cache net now r) =
          [response.ErrorResponse 403 "Invalid token"]) ∧
      middleware.nextCalls (m.RequireAuth cache net now r) = [] ∧
      (response.ErrorResponse 401 "Token has expired").statusCode ≠
        (response.ErrorResponse 403 "Invalid token").statusCode ∧
      (response.ErrorResponse 401 "Token has expired").body ≠
        (response.ErrorResponse 403 "Invalid token").body := by
  rw [middleware.requireAuth_reject m cache net now r tok e hb hv]
  refine ⟨?_, ?_, rfl, by decide, by decide⟩
  · intro he
    simp [middleware.written, he, http.StatusUnauthorized]
  · intro he
    simp [middleware.written, he, http.StatusForbidden]

/-- C18, on the executable instance: a correctly signed token whose expires-at is
the epoch, presented at `t0`. -/
theorem C18_expired_answer_differs_witness :
    middleware.written
        (Toy.mw.RequireAuth redis.Server.empty redis.Net.up Toy.t0
          (http.Request.withAuthorization ["Bearer " ++ Toy.staleToken]))
      = [response.ErrorResponse 401 "Token has expired"] :=
  (C18_expired_answer_differs Toy.mw redis.Server.empty redis.Net.up Toy.t0
    (http.Request.withAuthorization ["Bearer " ++ Toy.staleToken]) Toy.staleToken
    auth.ErrExpiredToken
    (by rw [middleware.get_withAuthorization]; exact middleware.toy_bearer_stale)
    (by
      show (Toy.svc.ValidateToken redis.Server.empty redis.Net.up Toy.t0 Toy.staleToken).2
        = some auth.ErrExpiredToken
      rw [auth.validateToken_expired Toy.svc _ _ Toy.t0 _ (auth.toy_stale_expired Toy.t0
        (by decide)).1 (auth.toy_stale_expired Toy.t0 (by decide)).2])).1 rfl

/-- C19: two requests with a header of the form `Bearer <token>` whose tokens
fail validation with an error other than `ErrExpiredToken` are answered with
the same status code, body and content type, 403 "Invalid token", whatever the
services, caches, round trips, clocks and tokens; and every failure that is
not an expiry is of that kind: a signature that does not verify (which covers
a malformed string and a method that is not HMAC), a missing record, a record
that differs from the token. -/
theorem C19_invalid_answers_alike (m1 m2 : middleware.Middleware)
    (cache1 cache2 : database.RedisClient) (net1 net2 : redis.Net) (now1 now2 : Int)
    (r1 r2 : http.Request) (tok1 tok2 : String) (e1 e2 : auth.Error)
    (hb1 : middleware.bearerToken (r1.Header.Get "Authorization") = some tok1)
    (hb2 : middleware.bearerToken (r2.Header.Get "Authorization") = some tok2)
    (hv1 : (m1.jwtService.ValidateToken cache1 net1 now1 tok1).2 = some e1)
    (hv2 : (m2.jwtService.ValidateToken cache2 net2 now2 tok2).2 = some e2)
    (hne1 : e1 ≠ auth.ErrExpiredToken) (hne2 : e2 ≠ auth.ErrExpiredToken) :
    middleware.written (m1.RequireAuth cache1 net1 now1 r1) =
        middleware.written (m2.RequireAuth cache2 net2 now2 r2) ∧
      middleware.written (m1.RequireAuth cache1 net1 now1 r1) =
        [response.ErrorResponse 403 "Invalid token"] ∧
      e1 = auth.ErrInvalidToken ∧ e2 = auth.ErrInvalidToken := by
  have h : ∀ (m : middleware.Middleware) (cache : database.RedisClient) (net : redis.Net)
      (now : Int) (r : http.Request) (tok : String) (e : auth.Error),
      middleware.bearerToken (r.Header.Get "Authorization") = some tok →
      (m.jwtService.ValidateToken cache net now tok).2 = some e →
      e ≠ auth.ErrExpiredToken →
      middleware.written (m.RequireAuth cache net now r) =
        [response.ErrorResponse 403 "Invalid token"] ∧ e = auth.ErrInvalidToken := by
    intro m cache net now r tok e hb hv hne
    rw [middleware.requireAuth_reject m cache net now r tok e hb hv]
    constructor
    · simp [middleware.written, hne, http.StatusForbidden]
    · rcases auth.validateToken_result m.jwtService cache net now tok with ⟨c, hc⟩ | hc | hc
      · rw [hc] at hv; cases hv
      · rw [hc] at hv
        exact (Option.some.inj hv).symm
      · rw [hc] at hv
        exact absurd (Option.some.inj hv).symm hne
  obtain ⟨a1, b1⟩ := h m1 cache1 net1 now1 r1 tok1 e1 hb1 hv1 hne1
  obtain ⟨a2, b2⟩ := h m2 cache2 net2 now2 r2 tok2 e2 hb2 hv2 hne2
  exact ⟨by rw [a1, a2], a1, b1, b2⟩

/-- C19, on the executable instance: the string `garbage` with the cache
reachable, and the string `a.b.c` with the cache unreachable. -/
theorem C19_invalid_answers_alike_witness :
    middleware.written
        (Toy.mw.RequireAuth redis.Server.empty redis.Net.up Toy.t0
          (http.Request.withAuthorization ["Bearer garbage"]))
      = middleware.written
        (Toy.mw.RequireAuth redis.Server.empty (redis.Net.down "i/o timeout") Toy.t1
          (http.Request.withAuthorization ["Bearer a.b.c"])) :=
  (C19_invalid_answers_alike Toy.mw Toy.mw redis.Server.empty redis.Server.empty redis.Net.up
    (redis.Net.down "i/o timeout") Toy.t0 Toy.t1
    (http.Request.withAuthorization ["Bearer garbage"])
    (http.Request.withAuthorization ["Bearer a.b.c"]) "garbage" "a.b.c"
    auth.ErrInvalidToken auth.ErrInvalidToken (by decide) (by decide)
    (by
      show (Toy.svc.ValidateToken redis.Server.empty redis.Net.up Toy.t0 "garbage").2 = _
      rw [middleware.validateToken_garbage])
    (by
      show (Toy.svc.ValidateToken redis.Server.empty (redis.Net.down "i/o timeout") Toy.t1
        "a.b.c").2 = _
      rw [auth.validateToken_of_not_verifies Toy.svc _ _ _ _ auth.toy_abc_not_verifies])
    (by decide) (by decide)).1

end GoService

/-! ## The statements of `MovieRepository.List` -/

namespace GoService
namespace repository

theorem addFilter_where_congr (f g : Filters) (column v w : String)
    (hw : f.whereClause = g.whereClause) (hp : f.argPosition = g.argPosition)
    (hv : v = "" ↔ w = "") :
    (addFilter f column v).whereClause = (addFilter g column w).whereClause ∧
      (addFilter f column v).argPosition = (addFilter g column w).argPosition := by
  unfold addFilter
  by_cases h : v = ""
  · have h' : w = "" := hv.mp h
    simp [h, h', hw, hp]
  · have h' : ¬ w = "" := fun x => h (hv.mpr x)
    simp [h, h', hw, hp]

theorem filters_where_congr (q q' : models.MovieQuery)
    (ht : q.Title = "" ↔ q'.Title = "") (hg : q.Genre = "" ↔ q'.Genre = "")
    (hd : q.Director = "" ↔ q'.Director = "") :
    (filters q).whereClause = (filters q').whereClause ∧
      (filters q).argPosition = (filters q').argPosition := by
  unfold filters
  obtain ⟨a1, a2⟩ := addFilter_where_congr
    { whereClause := "", args := [], argPosition := 1 }
    { whereClause := "", args := [], argPosition := 1 } "title" q.Title q'.Title rfl rfl ht
  obtain ⟨b1, b2⟩ := addFilter_where_congr _ _ "genre" q.Genre q'.Genre a1 a2 hg
  exact addFilter_where_congr _ _ "director" q.Director q'.Director b1 b2 hd

theorem filters_args (q : models.MovieQuery) :
    (filters q).args =
      (if q.Title ≠ "" then [Arg.text ("%" ++ q.Title ++ "%")] else []) ++
      (if q.Genre ≠ "" then [Arg.text ("%" ++ q.Genre ++ "%")] else []) ++
      (if q.Director ≠ "" then [Arg.text ("%" ++ q.Director ++ "%")] else []) := by
  unfold filters addFilter
  by_cases h1 : q.Title = "" <;> by_cases h2 : q.Genre = "" <;> by_cases h3 : q.Director = "" <;>
    simp [h1, h2, h3]

theorem orderBy_cases (ToUpper : String → String) (q : models.MovieQuery) :
    (q.SortBy ∈ allowedColumns ∧
        (orderBy ToUpper q = " ORDER BY " ++ q.SortBy ++ " " ++ "ASC" ∨
          orderBy ToUpper q = " ORDER BY " ++ q.SortBy ++ " " ++ "DESC")) ∨
      orderBy ToUpper q = " ORDER BY created_at DESC" := by
  unfold orderBy
  by_cases h0 : q.SortBy = ""
  · right
    simp [h0]
  · by_cases hm : q.SortBy ∈ allowedColumns
    · left
      refine ⟨hm, ?_⟩
      by_cases hd : ToUpper q.Order = "DESC"
      · right
        simp [h0, hm, hd]
      · left
        simp [h0, hm, hd]
    · right
      simp [h0, hm]

end repository

/-- C20: for every query, the ORDER BY text `List` appends to the select
statement is " ORDER BY c d" with `c` the requested column, one of the eight
allow-listed names, and `d` one of ASC and DESC, or it is
" ORDER BY created_at DESC". The select statement is its fixed head, the where
clause, that text and the LIMIT and OFFSET placeholders; where clause and
placeholders depend only on which of the three filters are empty, so two
queries with the same empty filters and the same ORDER BY text give the same
statement texts. The filter values are bound as arguments, wrapped in percent
signs, before the page size and the offset. -/
theorem C20_order_by_allow_listed (ToUpper : String → String) (q : models.MovieQuery) :
    ((∃ c d, c ∈ ["id", "title", "release_date", "rating", "duration", "genre", "director",
            "created_at"] ∧ (d = "ASC" ∨ d = "DESC") ∧ c = q.SortBy ∧
          repository.orderBy ToUpper q = " ORDER BY " ++ c ++ " " ++ d) ∨
        repository.orderBy ToUpper q = " ORDER BY created_at DESC") ∧
      (repository.listStatements ToUpper q).selectQuery =
        repository.selectBase ++ (repository.filters q).whereClause ++
          repository.orderBy ToUpper q ++
          (" LIMIT $" ++ FormatInt (repository.filters q).argPosition ++
            " OFFSET $" ++ FormatInt ((repository.filters q).argPosition + 1)) ∧
      (∀ q' : models.MovieQuery,
        (q.Title = "" ↔ q'.Title = "") → (q.Genre = "" ↔ q'.Genre = "") →
        (q.Director = "" ↔ q'.Director = "") →
        repository.orderBy ToUpper q = repository.orderBy ToUpper q' →
          (repository.listStatements ToUpper q).selectQuery =
              (repository.listStatements ToUpper q').selectQuery ∧
            (repository.listStatements ToUpper q).countQuery =
              (repository.listStatements ToUpper q').countQuery) ∧
      (repository.listStatements ToUpper q).args =
        (if q.Title ≠ "" then [repository.Arg.text ("%" ++ q.Title ++ "%")] else []) ++
        (if q.Genre ≠ "" then [repository.Arg.text ("%" ++ q.Genre ++ "%")] else []) ++
        (if q.Director ≠ "" then [repository.Arg.text ("%" ++ q.Director ++ "%")] else []) ++
        [repository.Arg.int (if q.PageSize ≤ 0 then 10 else q.PageSize),
          repository.Arg.int (repository.wrapInt
            (((if q.Page ≤ 0 then 1 else q.Page) - 1) *
              (if q.PageSize ≤ 0 then 10 else q.PageSize)))] ∧
      repository.orderBy ToUpper
          { SortBy := "rating; DROP TABLE movies", Order := "desc" }
        = " ORDER BY created_at DESC" := by
  refine ⟨?_, rfl, ?_, ?_, ?_⟩
  · rcases repository.orderBy_cases ToUpper q with ⟨hm, h | h⟩ | h
    · exact Or.inl ⟨q.SortBy, "ASC", hm, Or.inl rfl, rfl, h⟩
    · exact Or.inl ⟨q.SortBy, "DESC", hm, Or.inr rfl, rfl, h⟩
    · exact Or.inr h
  · intro q' ht hg hd ho
    obtain ⟨hw, hp⟩ := repository.filters_where_congr q q' ht hg hd
    simp only [repository.listStatements, hw, hp, ho, and_self]
  · simp only [repository.listStatements, repository.filters_args]
  · have hm : ¬ ("rating; DROP TABLE movies" ∈ repository.allowedColumns) := by decide
    simp [repository.orderBy, hm]

end GoService

namespace GoService

/-! ## The statement `Update` builds -/

namespace repository

theorem assignments_append (a : List String) (c : String) (n : Int) :
    assignments (a ++ [c]) n = assignments a n ++ [c ++ " = $" ++ FormatInt (n + a.length)] := by
  induction a generalizing n with
  | nil => simp [assignments]
  | cons x xs ih =>
    simp only [List.cons_append, assignments, List.length_cons]
    rw [show xs.append [c] = xs ++ [c] from rfl, ih]
    have e : n + 1 + (xs.length : Int) = n + ((xs.length + 1 : Nat) : Int) := by
      push_cast
      ring
    rw [e]

theorem assignments_length (a : List String) (n : Int) : (assignments a n).length = a.length := by
  induction a generalizing n with
  | nil => rfl
  | cons x xs ih => simp [assignments, ih]

theorem assignments_getElem (a : List String) (n : Int) (j : Nat) (c : String)
    (h : a[j]? = some c) : (assignments a n)[j]? = some (c ++ " = $" ++ FormatInt (n + j)) := by
  induction a generalizing n j with
  | nil => simp at h
  | cons x xs ih =>
    cases j with
    | zero =>
      simp at h
      simp [assignments, h]
    | succ j =>
      simp at h
      simp only [assignments, List.getElem?_cons_succ]
      rw [ih (n + 1) j h]
      congr 3
      push_cast
      ring

theorem addUpdate_builderOf (l : List (String × Arg)) (column : String) (value : Option Arg) :
    addUpdate (builderOf l) column value =
      builderOf (l ++ (value.map fun v => (column, v)).toList) := by
  cases value with
  | none => simp [addUpdate]
  | some v =>
    simp only [addUpdate, builderOf, Option.map_some', Option.toList_some, List.map_append,
      List.map_cons, List.map_nil, assignments_append, List.length_append, List.length_map,
      List.length_singleton]
    have e1 : (1 : Int) + l.length = l.length + 1 := by ring
    have e2 : ((l.length + 1 : Nat) : Int) = l.length + 1 := by
      push_cast
      rfl
    rw [e1, e2]

theorem addUpdate_map {α : Type} (l : List (String × Arg)) (column : String)
    (f : α → Arg) (value : Option α) :
    addUpdate (builderOf l) column (value.map f) =
      builderOf (l ++ (value.map fun v => (column, f v)).toList) := by
  rw [addUpdate_builderOf]
  cases value <;> rfl

theorem updateBuilder_eq (now id : Int) (input : models.UpdateMovieInput) :
    updateBuilder now id input =
      { updates := assignments (input.present.map Prod.fst ++ ["updated_at"]) 1
        args := input.present.map Prod.snd ++ [Arg.time now, Arg.int id]
        argPosition := (input.present.length : Int) + 2 } := by
  have h0 : ({ updates := [], args := [], argPosition := 1 } : UpdateBuilder) = builderOf [] := rfl
  unfold updateBuilder
  simp only [h0, addUpdate_map, List.nil_append]
  simp only [builderOf, assignments_append, models.UpdateMovieInput.present, List.append_assoc,
    List.length_map]
  have e : ∀ a : Int, a + 1 + 1 = a + 2 := fun a => by ring
  simp [e]
  rw [add_comm (1 : Int)]

theorem getByID_sent (r : MovieRepository) (id : Int) :
    (r.GetByID id).2 = [{ query := getByIDQuery, args := [Arg.int id] }] := by
  unfold MovieRepository.GetByID
  simp only []
  split
  · split <;> rfl
  · rfl

theorem present_nil_iff (input : models.UpdateMovieInput) :
    input.present.length = 0 ↔ input = {} := by
  rcases input with ⟨_ | a, _ | b, _ | c, _ | d, _ | e, _ | f, _ | g⟩ <;>
    simp [models.UpdateMovieInput.present]

theorem update_eq (r : MovieRepository) (now id : Int) (input : models.UpdateMovieInput)
    (movie : models.Movie) (hget : (r.GetByID id).1 = (some movie, none)) :
    r.Update now id input =
      if (updateBuilder now id input).updates.length = 1 then
        ((some movie, none), [{ query := getByIDQuery, args := [Arg.int id] }])
      else
        match r.db.QueryRow { query := updateQuery (updateBuilder now id input)
                              args := (updateBuilder now id input).args } with
        | .error err =>
          ((none, some (Error.sql err)),
            [{ query := getByIDQuery, args := [Arg.int id] },
             { query := updateQuery (updateBuilder now id input)
               args := (updateBuilder now id input).args }])
        | .ok updatedMovie =>
          ((some updatedMovie, none),
            [{ query := getByIDQuery, args := [Arg.int id] },
             { query := updateQuery (updateBuilder now id input)
               args := (updateBuilder now id input).args }]) := by
  have hs := getByID_sent r id
  unfold MovieRepository.Update
  rcases hg : r.GetByID id with ⟨⟨m, e⟩, sent⟩
  rw [hg] at hget hs
  simp only [Prod.mk.injEq] at hget
  obtain ⟨rfl, rfl⟩ := hget
  simp only at hs
  subst hs
  simp only []
  split
  · rfl
  · split <;> simp_all

end repository

end GoService

namespace GoService

/-- C21: when `GetByID` fetches the movie and `k ≥ 1` fields of the input are
not nil, `Update` sends, after the select of `GetByID`, one UPDATE statement:
its SET clause joins `k + 1` assignments, the `j`-th present field (in
declaration order) to placeholder `$j`, then `updated_at` to `$(k+1)`; its
WHERE clause uses `$(k+2)`; its argument list has length `k + 2`, holds the
value of the `j`-th present field at position `j`, the time of the call at
position `k + 1` and the movie identifier last. When every field is nil,
`Update` sends the select of `GetByID` only and returns the fetched movie. -/
theorem C21_update_statement (r : repository.MovieRepository) (now id : Int)
    (input : models.UpdateMovieInput) (movie : models.Movie)
    (hget : (r.GetByID id).1 = (some movie, none)) :
    (1 ≤ input.present.length →
      (repository.updateBuilder now id input).updates.length = input.present.length + 1 ∧
      (∀ (j : Nat) (column : String) (value : repository.Arg),
        input.present[j]? = some (column, value) →
          (repository.updateBuilder now id input).updates[j]?
              = some (column ++ " = $" ++ FormatInt (j + 1)) ∧
            (repository.updateBuilder now id input).args[j]? = some value) ∧
      (repository.updateBuilder now id input).updates[input.present.length]?
          = some ("updated_at = $" ++ FormatInt (input.present.length + 1)) ∧
      (repository.updateBuilder now id input).args[input.present.length]?
          = some (repository.Arg.time now) ∧
      (repository.updateBuilder now id input).args[input.present.length + 1]?
          = some (repository.Arg.int id) ∧
      (repository.updateBuilder now id input).args.length = input.present.length + 2 ∧
      (r.Update now id input).2 =
        [{ query := repository.getByIDQuery, args := [repository.Arg.int id] },
         { query :=
             "\n\t\tUPDATE movies\n\t\tSET " ++
               strings.Join (repository.updateBuilder now id input).updates ", " ++
               "\n\t\tWHERE id = $" ++ FormatInt (input.present.length + 2) ++
               "\n\t\tRETURNING id, title, description, release_date, rating, duration, genre, director, created_at, updated_at\n\t"
           args := (repository.updateBuilder now id input).args }]) ∧
      (input.present.length = 0 ↔ input = {}) ∧
      r.Update now id {} =
        ((some movie, none),
          [{ query := repository.getByIDQuery, args := [repository.Arg.int id] }]) := by
  refine ⟨fun hk => ?_, repository.present_nil_iff input, ?_⟩
  · have hu := repository.updateBuilder_eq now id input
    have hlen : (repository.updateBuilder now id input).updates.length
        = input.present.length + 1 := by
      rw [hu]
      simp [repository.assignments_length]
    refine ⟨hlen, ?_, ?_, ?_, ?_, ?_, ?_⟩
    · intro j column value hj
      have hjl : j < input.present.length := by
        by_contra hc
        rw [List.getElem?_eq_none (Nat.le_of_not_lt hc)] at hj
        cases hj
      constructor
      · rw [hu]
        have e : (1 : Int) + (j : Int) = (j : Int) + 1 := by ring
        rw [← e]
        apply repository.assignments_getElem
        rw [List.getElem?_append_left (by simpa using hjl), List.getElem?_map, hj]
        rfl
      · rw [hu]
        simp only []
        rw [List.getElem?_append_left (by simpa using hjl), List.getElem?_map, hj]
        rfl
    · rw [hu]
      have e : (1 : Int) + ((input.present.length : Nat) : Int) = (input.present.length : Int) + 1 := by
        ring
      have es : "updated_at = $" = "updated_at" ++ " = $" := by decide
      rw [← e, es]
      apply repository.assignments_getElem
      rw [List.getElem?_append_right (by simp)]
      simp
    · rw [hu]
      simp only []
      rw [List.getElem?_append_right (by simp)]
      simp
    · rw [hu]
      simp only []
      rw [List.getElem?_append_right (by simp)]
      simp
    · rw [hu]
      simp
    · rw [repository.update_eq r now id input movie hget, if_neg (by omega)]
      have hq : repository.updateQuery (repository.updateBuilder now id input) =
          "\n\t\tUPDATE movies\n\t\tSET " ++
               strings.Join (repository.updateBuilder now id input).updates ", " ++
               "\n\t\tWHERE id = $" ++ FormatInt (input.present.length + 2) ++
               "\n\t\tRETURNING id, title, description, release_date, rating, duration, genre, director, created_at, updated_at\n\t" := by
        unfold repository.updateQuery
        rw [hu]
      rw [← hq]
      split <;> rfl
  · rw [repository.update_eq r now id {} movie hget, if_pos (by
      rw [repository.updateBuilder_eq]
      rfl)]

end GoService

namespace GoService

set_option maxRecDepth 100000 in
theorem repository.toy_update_sent :
    (Toy.repo.Update 99 5 Toy.update).2 =
      [{ query := repository.getByIDQuery, args := [repository.Arg.int 5] },
       { query :=
           "\n\t\tUPDATE movies\n\t\tSET title = $1, duration = $2, updated_at = $3\n\t\tWHERE id = $4\n\t\tRETURNING id, title, description, release_date, rating, duration, genre, director, created_at, updated_at\n\t"
         args := [repository.Arg.text "Ronin", repository.Arg.int 122, repository.Arg.time 99,
           repository.Arg.int 5] }] := by
  decide

/-- C21, on the executable instance: the title and the duration of movie 5 are
updated at instant 99; the statement sent is also shown as text. -/
theorem C21_update_statement_witness :
    (Toy.repo.GetByID 5).1 = (some Toy.movie, none) ∧
      1 ≤ Toy.update.present.length ∧
      (Toy.repo.Update 99 5 Toy.update).2 =
        [{ query := repository.getByIDQuery, args := [repository.Arg.int 5] },
         { query :=
             "\n\t\tUPDATE movies\n\t\tSET " ++
               strings.Join (repository.updateBuilder 99 5 Toy.update).updates ", " ++
               "\n\t\tWHERE id = $" ++ FormatInt (Toy.update.present.length + 2) ++
               "\n\t\tRETURNING id, title, description, release_date, rating, duration, genre, director, created_at, updated_at\n\t"
           args := (repository.updateBuilder 99 5 Toy.update).args }] ∧
      (Toy.repo.Update 99 5 Toy.update).2 =
        [{ query := repository.getByIDQuery, args := [repository.Arg.int 5] },
         { query :=
             "\n\t\tUPDATE movies\n\t\tSET title = $1, duration = $2, updated_at = $3\n\t\tWHERE id = $4\n\t\tRETURNING id, title, description, release_date, rating, duration, genre, director, created_at, updated_at\n\t"
           args := [repository.Arg.text "Ronin", repository.Arg.int 122, repository.Arg.time 99,
             repository.Arg.int 5] }] :=
  ⟨rfl, by decide,
    ((C21_update_statement Toy.repo 99 5 Toy.update Toy.movie rfl).1 (by decide)).2.2.2.2.2.2,
    repository.toy_update_sent⟩

end GoService

namespace GoService

/-! ## Pagination in `ListMovies` -/

namespace repository

theorem wrapInt_id (n : Int) (h1 : -9223372036854775808 ≤ n) (h2 : n < 9223372036854775808) :
    wrapInt n = n := by
  unfold wrapInt
  omega

theorem list_query (r : MovieRepository) (ToUpper : String → String)
    (query : models.MovieQuery) : (r.List ToUpper query).2 = paged query := by
  unfold MovieRepository.List
  simp only []
  split
  · rfl
  · split <;> rfl

theorem paged_positive (query : models.MovieQuery) (h1 : 0 < query.Page)
    (h2 : 0 < query.PageSize) : paged query = query := by
  unfold paged
  rw [if_neg (by omega), if_neg (by omega)]

end repository

namespace handlers

theorem pageParam_cases (Atoi : String → Option Int) (text : String) :
    0 ≤ pageParam Atoi text 0 ∧
      ((text = "" ∨ Atoi text = none ∨ ∃ v, Atoi text = some v ∧ v ≤ 0) →
        pageParam Atoi text 0 = 0) ∧
      (∀ v, text ≠ "" → Atoi text = some v → 0 < v → pageParam Atoi text 0 = v) := by
  unfold pageParam
  by_cases ht : text = ""
  · simp [ht]
  · cases ha : Atoi text with
    | none => simp [ht]
    | some v =>
      by_cases hv : v > 0
      · simp [ht, hv]
        omega
      · simp [ht, hv]

theorem parseQuery_page (Atoi : String → Option Int) (params : String → String) :
    (parseQuery Atoi params).Page =
      if pageParam Atoi (params "page") 0 ≤ 0 then 1 else pageParam Atoi (params "page") 0 := by
  unfold parseQuery
  simp only []
  split <;> split <;> simp_all

theorem parseQuery_pageSize (Atoi : String → Option Int) (params : String → String) :
    (parseQuery Atoi params).PageSize =
      if pageParam Atoi (params "page_size") 0 ≤ 0 then 10
      else pageParam Atoi (params "page_size") 0 := by
  unfold parseQuery
  simp only []
  split <;> split <;> simp_all

theorem totalPages_spec (n pageSize : Int) (hn : 0 ≤ n) (hb : n < 9223372036854775808)
    (hp : 0 < pageSize) :
    ∃ p, totalPages n pageSize = some p ∧ n ≤ p * pageSize ∧
      (∀ p', n ≤ p' * pageSize → p ≤ p') ∧ (n = 0 → p = 0) := by
  have hq0 : 0 ≤ n / pageSize := Int.ediv_nonneg hn (le_of_lt hp)
  have hqn : n / pageSize ≤ n := Int.ediv_le_self pageSize hn
  have hr0 : 0 ≤ n % pageSize := Int.emod_nonneg n (ne_of_gt hp)
  have hrp : n % pageSize < pageSize := Int.emod_lt_of_pos n hp
  have hd : pageSize * (n / pageSize) + n % pageSize = n := Int.ediv_add_emod n pageSize
  have he : totalPages n pageSize =
      some (if n % pageSize ≠ 0 then repository.wrapInt (n / pageSize + 1) else n / pageSize) := by
    unfold totalPages intDiv intMod
    simp only [if_neg (ne_of_gt hp), Int.tdiv_eq_ediv hn (le_of_lt hp),
      Int.tmod_eq_emod hn (le_of_lt hp), repository.wrapInt_id _ (show -9223372036854775808 ≤ n / pageSize by omega)
        (show n / pageSize < 9223372036854775808 by omega)]
    split <;> rfl
  rw [he]
  by_cases hr : n % pageSize = 0
  · rw [if_neg (not_not.mpr hr)]
    refine ⟨_, rfl, ?_, ?_, ?_⟩
    · rw [hr] at hd
      rw [mul_comm]
      omega
    · intro p' hp'
      rw [hr, add_zero] at hd
      rw [← hd, mul_comm] at hp'
      exact le_of_mul_le_mul_right hp' hp
    · intro h0
      rw [h0]
      simp
  · rw [if_pos hr]
    have hq1 : n / pageSize + 1 ≤ n := by
      have : n / pageSize ≤ pageSize * (n / pageSize) := by nlinarith
      omega
    rw [repository.wrapInt_id _ (by omega) (by omega)]
    refine ⟨_, rfl, ?_, ?_, ?_⟩
    · have : (n / pageSize + 1) * pageSize = pageSize * (n / pageSize) + pageSize := by ring
      omega
    · intro p' hp'
      have hlt : n / pageSize * pageSize < p' * pageSize := by
        have : n / pageSize * pageSize = pageSize * (n / pageSize) := by ring
        omega
      have := lt_of_mul_lt_mul_right hlt (le_of_lt hp)
      omega
    · intro h0
      rw [h0] at hr
      simp at hr

end handlers

end GoService

namespace GoService

namespace handlers

theorem totalPages_some (n pageSize : Int) (hp : pageSize ≠ 0) :
    ∃ p, totalPages n pageSize = some p := by
  unfold totalPages intDiv intMod
  simp only [if_neg hp]
  split
  · exact ⟨_, rfl⟩
  · exact ⟨_, rfl⟩

theorem parseQuery_positive (Atoi : String → Option Int) (params : String → String) :
    0 < (parseQuery Atoi params).PageSize ∧ 0 < (parseQuery Atoi params).Page := by
  rw [parseQuery_page, parseQuery_pageSize]
  constructor
  · split <;> omega
  · split <;> omega

theorem list_parseQuery (h : MovieHandler) (Atoi : String → Option Int)
    (ToUpper : String → String) (params : String → String) :
    (h.movieRepo.List ToUpper (parseQuery Atoi params)).2 = parseQuery Atoi params := by
  rw [repository.list_query]
  exact repository.paged_positive _ (parseQuery_positive Atoi params).2
    (parseQuery_positive Atoi params).1

end handlers

/-- C22: the page size and the page `ListMovies` hands to `List` are positive
(10 and 1 when the parameter is missing, does not parse, or is zero or
negative) and `List` leaves them as they are, so `ListMovies` never panics
dividing by zero; and when `List` returns a total count `n ≥ 0`, the response
reports the least `p` with `p * PageSize ≥ n` as `TotalPages`, which is 0 when
`n = 0`. -/
theorem C22_total_pages_ceiling (h : handlers.MovieHandler) (Atoi : String → Option Int)
    (ToUpper : String → String) (params : String → String) :
    0 < (handlers.parseQuery Atoi params).PageSize ∧
      0 < (handlers.parseQuery Atoi params).Page ∧
      ((params "page_size" = "" ∨ Atoi (params "page_size") = none ∨
          ∃ v, Atoi (params "page_size") = some v ∧ v ≤ 0) →
        (handlers.parseQuery Atoi params).PageSize = 10) ∧
      ((params "page" = "" ∨ Atoi (params "page") = none ∨
          ∃ v, Atoi (params "page") = some v ∧ v ≤ 0) →
        (handlers.parseQuery Atoi params).Page = 1) ∧
      (h.movieRepo.List ToUpper (handlers.parseQuery Atoi params)).2
        = handlers.parseQuery Atoi params ∧
      h.ListMovies Atoi ToUpper params ≠ handlers.Outcome.divideByZero ∧
      ∀ (movies : List models.Movie) (n : Int), 0 ≤ n → n < 9223372036854775808 →
        (h.movieRepo.List ToUpper (handlers.parseQuery Atoi params)).1 = (movies, n, none) →
        ∃ p : Int,
          h.ListMovies Atoi ToUpper params =
            handlers.Outcome.success 200 "Movies retrieved successfully"
              { Movies := movies
                TotalCount := n
                Page := (handlers.parseQuery Atoi params).Page
                PageSize := (handlers.parseQuery Atoi params).PageSize
                TotalPages := p } ∧
          n ≤ p * (handlers.parseQuery Atoi params).PageSize ∧
          (∀ p' : Int, n ≤ p' * (handlers.parseQuery Atoi params).PageSize → p ≤ p') ∧
          (n = 0 → p = 0) := by
  have hpos := handlers.parseQuery_positive Atoi params
  have hl := handlers.list_parseQuery h Atoi ToUpper params
  refine ⟨hpos.1, hpos.2, ?_, ?_, hl, ?_, ?_⟩
  · intro hc
    rw [handlers.parseQuery_pageSize,
      (handlers.pageParam_cases Atoi (params "page_size")).2.1 hc]
    rfl
  · intro hc
    rw [handlers.parseQuery_page, (handlers.pageParam_cases Atoi (params "page")).2.1 hc]
    rfl
  · unfold handlers.MovieHandler.ListMovies
    simp only []
    rcases hr : h.movieRepo.List ToUpper (handlers.parseQuery Atoi params) with
      ⟨⟨movies, n, e⟩, q⟩
    rw [hr] at hl
    simp only at hl
    subst hl
    cases e with
    | some err => simp
    | none =>
      obtain ⟨p, hp⟩ := handlers.totalPages_some n (handlers.parseQuery Atoi params).PageSize
        (ne_of_gt hpos.1)
      simp [hp]
  · intro movies n hn hb hres
    obtain ⟨p, hp, h1, h2, h3⟩ :=
      handlers.totalPages_spec n (handlers.parseQuery Atoi params).PageSize hn hb hpos.1
    refine ⟨p, ?_, h1, h2, h3⟩
    unfold handlers.MovieHandler.ListMovies
    simp only []
    rcases hr : h.movieRepo.List ToUpper (handlers.parseQuery Atoi params) with
      ⟨⟨movies', n', e⟩, q⟩
    rw [hr] at hl hres
    simp only [Prod.mk.injEq] at hl hres
    obtain ⟨rfl, rfl, rfl⟩ := hres
    subst hl
    simp [hp, http.StatusOK]

set_option maxRecDepth 100000 in
theorem handlers.toy_listMovies :
    Toy.handler.ListMovies Toy.Atoi Toy.ToUpper Toy.params =
      handlers.Outcome.success 200 "Movies retrieved successfully"
        { Movies := [Toy.movie], TotalCount := 25, Page := 2, PageSize := 7, TotalPages := 4 } := by
  decide

/-- C22, on the executable instance: `page=2&page_size=7` over 25 movies; the
response is also shown with its four pages. -/
theorem C22_total_pages_ceiling_witness :
    ((0 : Int) ≤ 25 ∧ (25 : Int) < 9223372036854775808 ∧
      (Toy.handler.movieRepo.List Toy.ToUpper (handlers.parseQuery Toy.Atoi Toy.params)).1
        = ([Toy.movie], 25, none)) ∧
      (∃ p : Int,
        Toy.handler.ListMovies Toy.Atoi Toy.ToUpper Toy.params =
          handlers.Outcome.success 200 "Movies retrieved successfully"
            { Movies := [Toy.movie]
              TotalCount := 25
              Page := (handlers.parseQuery Toy.Atoi Toy.params).Page
              PageSize := (handlers.parseQuery Toy.Atoi Toy.params).PageSize
              TotalPages := p } ∧
        25 ≤ p * (handlers.parseQuery Toy.Atoi Toy.params).PageSize ∧
        (∀ p' : Int, 25 ≤ p' * (handlers.parseQuery Toy.Atoi Toy.params).PageSize → p ≤ p') ∧
        ((25 : Int) = 0 → p = 0)) ∧
      Toy.handler.ListMovies Toy.Atoi Toy.ToUpper Toy.params =
        handlers.Outcome.success 200 "Movies retrieved successfully"
          { Movies := [Toy.movie], TotalCount := 25, Page := 2, PageSize := 7, TotalPages := 4 } :=
  ⟨⟨by decide, by decide, rfl⟩,
    (C22_total_pages_ceiling Toy.handler Toy.Atoi Toy.ToUpper Toy.params).2.2.2.2.2.2
      [Toy.movie] 25 (by decide) (by decide) rfl,
    handlers.toy_listMovies⟩

end GoService

namespace GoService

/-! ## Operations on another identity -/

namespace redis

theorem live_congr (s s' : Server) (now : Int) (key : String) (h : s'.data key = s.data key) :
    s'.live now key = s.live now key := by
  unfold Server.live
  rw [h]

end redis

namespace database

theorem get_congr (r r' : RedisClient) (net : redis.Net) (now : Int) (key : String)
    (h : redis.Server.data r' key = redis.Server.data r key) :
    r'.Get net now key = r.Get net now key := by
  unfold RedisClient.Get redis.Client.Get
  rw [redis.live_congr r r' now key h]

end database

namespace auth

/-- The result of `ValidateToken` on a token depends on the cache only through
what it holds under the key of the identity the token carries. -/
theorem validateToken_frame (s : JWTService) (r r' : database.RedisClient) (net : redis.Net)
    (now : Int) (T : String) (c : Claims) (hT : jwt.unverifiedClaims s.lib T = some c)
    (hd : redis.Server.data r' (tokenKey c.UserID) = redis.Server.data r (tokenKey c.UserID)) :
    s.ValidateToken r' net now T = s.ValidateToken r net now T := by
  rw [validateToken_eq, validateToken_eq]
  cases hp : jwt.ParseWithClaims s.lib now T s.keyFunc with
  | error err => rfl
  | ok tok =>
    obtain ⟨_, hu, _⟩ := verifies_of_parse s now T tok hp
    rw [hT] at hu
    cases hu
    simp only []
    rw [database.get_congr r r' net now _ hd]

theorem tokenKey_ne (i j : Int) (h : i ≠ j) : tokenKey i ≠ tokenKey j :=
  fun e => h (tokenKey_injective i j e)

theorem data_generateToken_other (s : JWTService) (r : database.RedisClient) (net : redis.Net)
    (t : Int) (i j : Int) (h : i ≠ j) :
    redis.Server.data (s.GenerateToken r net t j).2 (tokenKey i) =
      redis.Server.data r (tokenKey i) := by
  rw [generateToken_eq]
  simp only []
  split
  · exact redis.data_set_other r t _ _ _ _ (tokenKey_ne i j h)
  · rfl

theorem data_invalidateToken_other (s : JWTService) (r : database.RedisClient) (net : redis.Net)
    (i j : Int) (h : i ≠ j) :
    redis.Server.data (s.InvalidateToken r net j).2 (tokenKey i) =
      redis.Server.data r (tokenKey i) := by
  rw [invalidateToken_eq]
  simp only []
  split
  · exact redis.data_del_other r _ _ (tokenKey_ne i j h)
  · rfl

end auth

/-- C23: the cache keys of two different identities are different strings, and
for a token that carries identity `i`, `ValidateToken` returns the same result
on the cache as it is and on the cache after a `GenerateToken` or an
`InvalidateToken` for another identity `j`, whatever the state of the network
and the clock at the operation and at the validation. -/
theorem C23_other_identity_unaffected (s : auth.JWTService) (r : database.RedisClient)
    (i j : Int) (T : String) (c : Claims) (hij : i ≠ j)
    (hT : jwt.unverifiedClaims s.lib T = some c) (hc : c.UserID = i) :
    auth.tokenKey i ≠ auth.tokenKey j ∧
      ∀ (net netv : redis.Net) (t now : Int),
        s.ValidateToken (s.GenerateToken r net t j).2 netv now T
            = s.ValidateToken r netv now T ∧
          s.ValidateToken (s.InvalidateToken r net j).2 netv now T
            = s.ValidateToken r netv now T := by
  subst hc
  refine ⟨auth.tokenKey_ne _ _ hij, fun net netv t now => ⟨?_, ?_⟩⟩
  · exact auth.validateToken_frame s r _ netv now T c hT
      (auth.data_generateToken_other s r net t _ _ hij)
  · exact auth.validateToken_frame s r _ netv now T c hT
      (auth.data_invalidateToken_other s r net _ _ hij)

/-- C23, on the executable instance: the token of identity 42, and operations
for identity 7 on the cache that holds the record of 42. -/
theorem C23_other_identity_unaffected_witness :
    auth.tokenKey 42 ≠ auth.tokenKey 7 ∧
      ∀ (net netv : redis.Net) (t now : Int),
        Toy.svc.ValidateToken
            (Toy.svc.GenerateToken
              (redis.Server.set redis.Server.empty Toy.t0 (auth.tokenKey 42)
                (Toy.svc.tokenFor Toy.t0 42) Hour) net t 7).2 netv now
            (Toy.svc.tokenFor Toy.t0 42)
          = Toy.svc.ValidateToken
              (redis.Server.set redis.Server.empty Toy.t0 (auth.tokenKey 42)
                (Toy.svc.tokenFor Toy.t0 42) Hour) netv now (Toy.svc.tokenFor Toy.t0 42) ∧
        Toy.svc.ValidateToken
            (Toy.svc.InvalidateToken
              (redis.Server.set redis.Server.empty Toy.t0 (auth.tokenKey 42)
                (Toy.svc.tokenFor Toy.t0 42) Hour) net 7).2 netv now
            (Toy.svc.tokenFor Toy.t0 42)
          = Toy.svc.ValidateToken
              (redis.Server.set redis.Server.empty Toy.t0 (auth.tokenKey 42)
                (Toy.svc.tokenFor Toy.t0 42) Hour) netv now (Toy.svc.tokenFor Toy.t0 42) :=
  C23_other_identity_unaffected Toy.svc _ 42 7 (Toy.svc.tokenFor Toy.t0 42)
    (auth.newClaims Toy.svc Toy.t0 42) (by decide)
    (auth.unverifiedClaims_tokenFor Toy.svc Toy.lib_lawful Toy.t0 42) rfl

end GoService
